import Mathlib

/-!
# Verification of the Pintos storage/VM core against its specification

This file gives a shallow embedding, in Lean 4, of the parts of the
filesystem and virtual-memory code relevant to the claims under
examination: the multi-level-index inode layer (`filesys/inode.c`), the
free map (`filesys/free-map.c`), the buffer-cache eviction scan
(`filesys/cache.c`), directory removal (`filesys/directory.c`) and the
page-eviction policy (`vm/page.c`).

Machine integers (`off_t`, `size_t`, `block_sector_t`) are modelled as
`Nat`/`Int` with explicit wrap-around only where the C arithmetic can
overflow.  Stateful code is modelled by explicit state passing; the
buffer cache is treated as a coherent view of the disk (every access
goes through it, so a sector's cached bytes are the authoritative
bytes).  Locks and condition variables are elided in the sequential
embedding; where a claim is about synchronization the corresponding
discipline is modelled as a guard of a step relation.
-/

namespace Pintos

/-! ## Constants from `filesys/inode.c` and `devices/block.h` -/

def BLOCK_SECTOR_SIZE : Nat := 512

/-- `#define NUM_DIRECT_POINTERS 122` -/
def NUM_DIRECT_POINTERS : Nat := 122

/-- `#define SINGLE_INDIRECT_INDEX NUM_DIRECT_POINTERS` -/
def SINGLE_INDIRECT_INDEX : Nat := NUM_DIRECT_POINTERS

/-- `#define DOUBLE_INDIRECT_INDEX NUM_DIRECT_POINTERS + 1` -/
def DOUBLE_INDIRECT_INDEX : Nat := NUM_DIRECT_POINTERS + 1

/-- `#define NUM_BLOCK_POINTERS 124` (number of block pointers in an inode) -/
def NUM_BLOCK_POINTERS : Nat := 124

/-- `#define POINTERS_PER_BLOCK 128` (number of block pointers in an
indirect block; defined in the source but never used by it) -/
def POINTERS_PER_BLOCK : Nat := 128

/-- `#define MAX_FILE_BYTES (NUM_DIRECT_POINTERS + NUM_BLOCK_POINTERS +
NUM_BLOCK_POINTERS * NUM_BLOCK_POINTERS) * BLOCK_SECTOR_SIZE` -/
def MAX_FILE_BYTES : Nat :=
  (NUM_DIRECT_POINTERS + NUM_BLOCK_POINTERS +
    NUM_BLOCK_POINTERS * NUM_BLOCK_POINTERS) * BLOCK_SECTOR_SIZE

/-! ## Logical-index arithmetic (`inode.c`, `direct_idx`,
`singly_indirect_idx`, `doubly_indirect_idx`, `ofs_to_indicies`) -/

/-- `direct_idx`: logical index of the block that byte `pos` resides in. -/
def direct_idx (pos : Nat) : Nat := pos / BLOCK_SECTOR_SIZE

/-- `singly_indirect_idx`: `logical_idx % NUM_BLOCK_POINTERS`
(the source uses the inode-pointer count 124 here, not the
128 pointers an indirect block actually holds). -/
def singly_indirect_idx (logical_idx : Nat) : Nat :=
  logical_idx % NUM_BLOCK_POINTERS

/-- `doubly_indirect_idx`: `logical_idx / NUM_BLOCK_POINTERS`. -/
def doubly_indirect_idx (logical_idx : Nat) : Nat :=
  logical_idx / NUM_BLOCK_POINTERS

/-- `ofs_to_indicies` from `inode.c`.  The C function fills an array
`indicies[]` and returns how many of its slots are meaningful; we return
the list of meaningful slots (so `List.length` is the C return value).
Note the source subtracts `NUM_DIRECT_POINTERS` a second time on the
doubly-indirect path. -/
def ofs_to_indicies (ofs : Nat) : List Nat :=
  let logical_idx := direct_idx ofs
  if logical_idx < NUM_DIRECT_POINTERS then
    [logical_idx]
  else
    let logical_idx := logical_idx - NUM_DIRECT_POINTERS
    if logical_idx < NUM_BLOCK_POINTERS then
      [SINGLE_INDIRECT_INDEX, logical_idx]
    else
      let logical_idx := logical_idx - NUM_DIRECT_POINTERS
      [DOUBLE_INDIRECT_INDEX, doubly_indirect_idx logical_idx,
        singly_indirect_idx logical_idx]

/-- The address-resolution rule exactly as the specification states it
(§4.3): `L < 122` direct at slot `L`; `122 ≤ L < 122+128`
single-indirect via inode slot 122 at slot `L−122`; otherwise
double-indirect with `L' = L − 122 − 128`, first hop via inode slot 123,
next slot `L'/128`, next slot `L' mod 128`. -/
def spec_ofs_to_indicies (ofs : Nat) : List Nat :=
  let l := ofs / 512
  if l < 122 then [l]
  else if l < 122 + 128 then [122, l - 122]
  else [123, (l - 122 - 128) / 128, (l - 122 - 128) % 128]

/-! ## Free map (`filesys/free-map.c` with the `lib/kernel/bitmap`
primitives it calls).

The bitmap primitives (`bitmap_scan_and_flip`, `bitmap_test`,
`bitmap_reset`) live in `lib/kernel/bitmap.c`, which is not part of the
sources examined here; they are modelled from the specification
(Modelled from the spec: §4.2 "scans for `count` non-necessarily-
consecutive sectors, flipping bits as it goes"): `scan_and_flip` finds
the first clear bit below the bitmap's size and sets it, failing when
there is none; `reset` clears one bit.  A failed `ASSERT` (a kernel
panic) is modelled as the outer `none` of an `Option`. -/

/-- `bitmap_scan_and_flip (free_map, 0, 1, false)`: find the first
index `i < size` whose bit is clear and flip it; `none` models
`BITMAP_ERROR`. -/
def bitmap_scan_and_flip (size : Nat) (m : Nat → Bool) :
    Option (Nat × (Nat → Bool)) :=
  match (List.range size).find? (fun i => !(m i)) with
  | none => none
  | some i => some (i, fun j => if j = i then true else m j)

/-- `bitmap_reset`: clear one bit. -/
def bitmap_reset (m : Nat → Bool) (s : Nat) : Nat → Bool :=
  fun j => if j = s then false else m j

/-- `free_map_release`: `ASSERT (bitmap_test (free_map, sector));
bitmap_reset (free_map, sector);`.  The assertion failure (panic) is
modelled as `none`. -/
def free_map_release (m : Nat → Bool) (s : Nat) : Option (Nat → Bool) :=
  if m s then some (bitmap_reset m s) else none

/-- The rollback loop of `free_map_allocate`:
`for (off_t j = i - 1; j >= 0; j--) free_map_release (sectorp[j]);`.
`acquired` holds the sectors grabbed so far, most recent first, which is
exactly the order the C loop releases them in. -/
def free_map_rollback (m : Nat → Bool) :
    List Nat → Option (Nat → Bool)
  | [] => some m
  | s :: rest =>
    match free_map_release m s with
    | none => none
    | some m' => free_map_rollback m' rest

/-- The body of `free_map_allocate`: grab one sector per iteration via
`bitmap_scan_and_flip`; on `BITMAP_ERROR` release everything grabbed so
far and return failure (`some (m', none)`); otherwise record the sector
and continue.  On success the recorded sectors are returned oldest
first, as they appear in the C caller's `sectorp[]`. -/
def free_map_allocate_go (size : Nat) (m : Nat → Bool)
    (acquired : List Nat) :
    Nat → Option ((Nat → Bool) × Option (List Nat))
  | 0 => some (m, some acquired.reverse)
  | cnt + 1 =>
    match bitmap_scan_and_flip size m with
    | none =>
      match free_map_rollback m acquired with
      | none => none
      | some m' => some (m', none)
    | some (sector, m') =>
      free_map_allocate_go size m' (sector :: acquired) cnt

/-- `free_map_allocate (cnt, sectorp)`. -/
def free_map_allocate (size : Nat) (m : Nat → Bool) (cnt : Nat) :
    Option ((Nat → Bool) × Option (List Nat)) :=
  free_map_allocate_go size m [] cnt

lemma bitmap_scan_and_flip_none {size : Nat} {m : Nat → Bool}
    (h : bitmap_scan_and_flip size m = none) :
    ∀ i < size, m i = true := by
  intro i hi
  unfold bitmap_scan_and_flip at h
  rcases hfind : (List.range size).find? (fun i => !(m i)) with _ | j
  · have := List.find?_eq_none.mp hfind i (List.mem_range.mpr hi)
    simpa using this
  · rw [hfind] at h; simp at h

lemma bitmap_scan_and_flip_some {size : Nat} {m : Nat → Bool}
    {i : Nat} {m' : Nat → Bool}
    (h : bitmap_scan_and_flip size m = some (i, m')) :
    m i = false ∧ i < size ∧ m' = fun j => if j = i then true else m j := by
  unfold bitmap_scan_and_flip at h
  rcases hfind : (List.range size).find? (fun i => !(m i)) with _ | j
  · rw [hfind] at h; simp at h
  · rw [hfind] at h
    simp only [Option.some.injEq, Prod.mk.injEq] at h
    obtain ⟨rfl, rfl⟩ := h
    refine ⟨?_, ?_, rfl⟩
    · have := List.find?_some hfind
      simpa using this
    · exact List.mem_range.mp (List.mem_of_find?_eq_some hfind)

lemma free_map_rollback_spec :
    ∀ (acquired : List Nat) (m m₀ : Nat → Bool),
      acquired.Nodup →
      (m = fun j => if j ∈ acquired then true else m₀ j) →
      free_map_rollback m acquired =
        some (fun j => if j ∈ acquired then false else m₀ j) := by
  intro acquired
  induction acquired with
  | nil =>
    intro m m₀ _ hm
    simp [free_map_rollback, hm]
  | cons a rest ih =>
    intro m m₀ hnd hm
    have hna : a ∉ rest := (List.nodup_cons.mp hnd).1
    have hms : m a = true := by simp [hm]
    have hkey : free_map_rollback (bitmap_reset m a) rest =
        some (fun j => if j ∈ rest then false else
          if j = a then false else m₀ j) := by
      apply ih (bitmap_reset m a) (fun j => if j = a then false else m₀ j)
        (List.nodup_cons.mp hnd).2
      funext j
      by_cases hj : j = a
      · simp [bitmap_reset, hj, hna]
      · by_cases hr : j ∈ rest <;> simp [bitmap_reset, hm, hj, hr]
    simp only [free_map_rollback, free_map_release, hms, if_true]
    rw [hkey]
    congr 1
    funext j
    by_cases hj : j = a
    · simp [hj]
    · by_cases hr : j ∈ rest <;> simp [hj, hr]

/-- One generalized induction for `free_map_allocate_go`: it never
panics, failure restores the original map exactly, and success returns
`cnt` fresh distinct sectors and sets exactly their bits. -/
lemma free_map_allocate_go_spec {n : Nat} {b : Nat → Bool} :
    ∀ (cnt : Nat) (m : Nat → Bool) (acquired : List Nat),
      acquired.Nodup →
      (∀ s ∈ acquired, b s = false ∧ s < n) →
      (m = fun j => if j ∈ acquired then true else b j) →
      ∃ r, free_map_allocate_go n m acquired cnt = some r ∧
        (match r with
          | (m', none) => m' = b
          | (m', some outs) =>
              outs.length = cnt + acquired.length ∧ outs.Nodup ∧
              (∀ s ∈ outs, b s = false ∧ s < n) ∧
              m' = fun j => if j ∈ outs then true else b j) := by
  intro cnt
  induction cnt with
  | zero =>
    intro m acquired hnd hfresh hm
    refine ⟨(m, some acquired.reverse), rfl, ?_⟩
    refine ⟨by simp, by simpa using hnd, ?_, ?_⟩
    · intro s hs
      exact hfresh s (by simpa using hs)
    · rw [hm]
      funext j
      by_cases hj : j ∈ acquired <;> simp [hj]
  | succ k ih =>
    intro m acquired hnd hfresh hm
    rcases hscan : bitmap_scan_and_flip n m with _ | ⟨sector, m1⟩
    · have hroll := free_map_rollback_spec acquired m b hnd hm
      refine ⟨((fun j => if j ∈ acquired then false else b j), none), ?_, ?_⟩
      · rw [free_map_allocate_go, hscan, hroll]
      · funext j
        by_cases hj : j ∈ acquired
        · have := (hfresh j hj).1
          simp [hj, this.symm]
        · simp [hj]
    · obtain ⟨hclear, hlt, hm1⟩ := bitmap_scan_and_flip_some hscan
      have hnotin : sector ∉ acquired := by
        intro hin
        rw [hm] at hclear
        simp [hin] at hclear
      have hfresh0 : b sector = false := by
        rw [hm] at hclear
        simpa [hnotin] using hclear
      obtain ⟨r, hr, hprop⟩ := ih m1 (sector :: acquired)
        (List.nodup_cons.mpr ⟨hnotin, hnd⟩)
        (by
          intro s hs
          rcases List.mem_cons.mp hs with rfl | hs
          · exact ⟨hfresh0, hlt⟩
          · exact hfresh s hs)
        (by
          rw [hm1, hm]
          funext j
          by_cases hj : j = sector
          · simp [hj]
          · by_cases hr : j ∈ acquired <;> simp [hj, hr])
      refine ⟨r, ?_, ?_⟩
      · rw [free_map_allocate_go, hscan]
        exact hr
      · rcases r with ⟨m', _ | outs⟩
        · exact hprop
        · obtain ⟨hlen, hnd', hfresh', hm'⟩ := hprop
          refine ⟨?_, hnd', hfresh', hm'⟩
          rw [List.length_cons] at hlen
          omega

/-! ## Inode layer (`filesys/inode.c`)

The buffer cache is a coherent write-back view of the disk: every read
and write of a sector goes through it, so the embedding collapses
cache+disk into one store.  A sector's payload is modelled as
`Nat → Nat`; a data sector is indexed by byte offset (0..511), an
indirect sector by pointer slot (the C code reinterprets the same 512
bytes as `block_sector_t[128]`).  The single inode under consideration
is modelled by its on-disk record (`struct inode_disk`) held apart from
the sector store, since `get_block_ptr`/`set_block_ptr` access it
through a dedicated `inode` flag.  The in-memory `deny_write_cnt` is
carried along for `inode_write_at`'s entry check. -/

/-- `struct inode_disk` (the fields the examined code reads). -/
structure InodeDisk where
  length : Nat
  blocks : Nat → Nat
  is_file : Bool

/-- Filesystem state: free map, sector store, the inode's on-disk
record and its sector number, and the in-memory deny-write counter. -/
structure FS where
  fmSize : Nat
  freeMap : Nat → Bool
  disk : Nat → Nat → Nat
  inodeSector : Nat
  inode : InodeDisk
  deny_write_cnt : Nat

/-- `get_block_ptr (block, block_ofs, inode)`. -/
def get_block_ptr (fs : FS) (sector : Nat) (block_ofs : Nat)
    (inode : Bool) : Nat :=
  if inode then fs.inode.blocks block_ofs else fs.disk sector block_ofs

/-- `set_block_ptr (block, block_ofs, sector, inode)`: store pointer
value `target` into slot `block_ofs` of the named block. -/
def set_block_ptr (fs : FS) (sector : Nat) (block_ofs : Nat)
    (target : Nat) (inode : Bool) : FS :=
  if inode then
    { fs with inode := { fs.inode with
        blocks := fun i => if i = block_ofs then target
          else fs.inode.blocks i } }
  else
    { fs with disk := fun s i =>
        if s = sector ∧ i = block_ofs then target else fs.disk s i }

/-- `cache_get_entry (sector, EXCL, true)`: a NEW cache entry is
zero-filled (`memset (new_entry->data, 0, BLOCK_SECTOR_SIZE)`). -/
def zero_sector (fs : FS) (s : Nat) : FS :=
  { fs with disk := fun t i => if t = s then 0 else fs.disk t i }

/-- The walk loop of `get_data_sector`:
`while (cur_depth < num_indicies - 1 && child_sector != 0) { ... }`.
Returns the final `(cur_depth, cur_sector, child_sector)`. -/
def gds_walk (fs : FS) (indicies : List Nat) (num_indicies : Nat)
    (cur_depth cur_sector child_sector : Nat) : Nat × Nat × Nat :=
  if cur_depth < num_indicies - 1 ∧ child_sector ≠ 0 then
    gds_walk fs indicies num_indicies (cur_depth + 1) child_sector
      (fs.disk child_sector (indicies.getD (cur_depth + 1) 0))
  else (cur_depth, cur_sector, child_sector)
termination_by num_indicies - 1 - cur_depth
decreasing_by omega

/-- The while loop of `allocate_new_blocks`: create each parent block
(zero-filled NEW cache entry) and write the child's sector number into
its slot, from the lowest level upwards. -/
def allocate_new_blocks_loop (fs : FS) (indicies : List Nat)
    (stop_depth : Nat) (new_sectors : List Nat)
    (child_sector parent_depth : Nat) : FS :=
  if parent_depth > stop_depth then
    match new_sectors with
    | [] => fs
    | parent :: rest =>
      let fs' := set_block_ptr (zero_sector fs parent) parent
        (indicies.getD parent_depth 0) child_sector false
      allocate_new_blocks_loop fs' indicies stop_depth rest parent
        (parent_depth - 1)
  else fs
termination_by parent_depth - stop_depth
decreasing_by omega

/-- `allocate_new_blocks (new_sectors, indicies, start_depth,
stop_depth)`: zero the new data block, then link the chain of new
parent blocks down to (but excluding) depth `stop_depth`. -/
def allocate_new_blocks (fs : FS) (new_sectors indicies : List Nat)
    (start_depth stop_depth : Nat) : FS :=
  match new_sectors with
  | [] => fs
  | data :: rest =>
    allocate_new_blocks_loop (zero_sector fs data) indicies stop_depth
      rest data (start_depth - 1)

/-- `get_data_sector (inode_sector, offset, read)`.  Returns the data
sector holding byte `offset` (0 when unallocated on the read path or
when the free map is exhausted on the write path) together with the
updated state.  The `none`-panic of the modelled free map cannot occur
(proved separately); it is mapped to the unchanged state here. -/
def get_data_sector (fs : FS) (offset : Nat) (read : Bool) :
    Nat × FS :=
  let indicies := ofs_to_indicies offset
  let num_indicies := indicies.length
  let w := gds_walk fs indicies num_indicies 0 fs.inodeSector
    (get_block_ptr fs fs.inodeSector (indicies.getD 0 0) true)
  let cur_depth := w.1
  let cur_sector := w.2.1
  let child_sector := w.2.2
  if read then (child_sector, fs)
  else if child_sector ≠ 0 then (child_sector, fs)
  else
    let num_to_create := num_indicies - cur_depth
    match free_map_allocate fs.fmSize fs.freeMap num_to_create with
    | none => (0, fs)
    | some (m', none) => (0, { fs with freeMap := m' })
    | some (m', some new_sectors) =>
      let fs1 := { fs with freeMap := m' }
      let fs2 := allocate_new_blocks fs1 new_sectors indicies
        num_indicies cur_depth
      let fs3 := set_block_ptr fs2 cur_sector (indicies.getD cur_depth 0)
        (new_sectors.getD (num_to_create - 1) 0) (cur_depth == 0)
      (new_sectors.getD 0 0, fs3)

/-- `inode_length` (read through the cache from the inode sector). -/
def inode_length (fs : FS) : Nat := fs.inode.length

/-- The chunk size computed by `inode_read_at`'s loop body:
`min (size, min (inode_length − offset, BLOCK_SECTOR_SIZE −
sector_ofs))`, as a signed quantity exactly like the C `off_t`/`int`
math (the C ternaries pick the smaller operand, i.e. `min`). -/
def read_chunk_size (fs : FS) (size offset : Nat) : Int :=
  min (size : Int)
    (min ((inode_length fs : Int) - (offset : Int))
      ((BLOCK_SECTOR_SIZE : Int) - ((offset % BLOCK_SECTOR_SIZE : Nat) : Int)))

/-- The chunk size computed by `inode_write_at`'s loop body; the only
difference from the read path is that `inode_left` is measured against
`MAX_FILE_BYTES` instead of the current length. -/
def write_chunk_size (size offset : Nat) : Int :=
  min (size : Int)
    (min ((MAX_FILE_BYTES : Int) - (offset : Int))
      ((BLOCK_SECTOR_SIZE : Int) - ((offset % BLOCK_SECTOR_SIZE : Nat) : Int)))

/-- `inode_read_at (inode, buffer, size, offset)`: returns the bytes
copied into the caller's buffer (so the C return value `bytes_read` is
the length of this list).  A zero data sector zero-fills the chunk. -/
def inode_read_at (fs : FS) (size offset : Nat) : List Nat :=
  if _hs : size = 0 then []
  else if _hc : read_chunk_size fs size offset ≤ 0 then []
  else
    (if (get_data_sector fs offset true).1 = 0 then
        List.replicate (read_chunk_size fs size offset).toNat 0
      else
        (List.range (read_chunk_size fs size offset).toNat).map
          (fun i => fs.disk (get_data_sector fs offset true).1
            ((offset % BLOCK_SECTOR_SIZE) + i))) ++
    inode_read_at fs (size - (read_chunk_size fs size offset).toNat)
      (offset + (read_chunk_size fs size offset).toNat)
termination_by size
decreasing_by
  omega

/-- The loop of `inode_write_at`: each iteration resolves (allocating
if needed) the data sector, copies the chunk into it, and if the chunk
extends the file updates the on-disk length to the new end-of-chunk
offset (`inode_check_extension` / `inode_update_length`). -/
def inode_write_loop (fs : FS) (buffer : Nat → Nat)
    (size offset bytes_written : Nat) : Nat × FS :=
  if _hs : size = 0 then (bytes_written, fs)
  else if _hc : write_chunk_size size offset ≤ 0 then (bytes_written, fs)
  else
    let c := (write_chunk_size size offset).toNat
    let r := get_data_sector fs offset false
    if r.1 = 0 then (bytes_written, r.2)
    else
      let memcpy : Nat → Nat → Nat := fun s i =>
        if s = r.1 ∧ (offset % BLOCK_SECTOR_SIZE) ≤ i ∧
            i < (offset % BLOCK_SECTOR_SIZE) + c then
          buffer (bytes_written + (i - (offset % BLOCK_SECTOR_SIZE)))
        else r.2.disk s i
      let fs2 := { r.2 with disk := memcpy }
      let fs3 := if offset + c > fs.inode.length then
          { fs2 with inode := { fs2.inode with length := offset + c } }
        else fs2
      inode_write_loop fs3 buffer (size - c) (offset + c)
        (bytes_written + c)
termination_by size
decreasing_by
  omega

/-- `inode_write_at (inode, buffer, size, offset)`: refuses immediately
when `deny_write_cnt` is nonzero, otherwise runs the write loop.
Returns `(bytes_written, state')`. -/
def inode_write_at (fs : FS) (buffer : Nat → Nat) (size offset : Nat) :
    Nat × FS :=
  if fs.deny_write_cnt ≠ 0 then (0, fs)
  else inode_write_loop fs buffer size offset 0

/-! ## Concrete example states used to evaluate the code -/

/-- A freshly formatted single-file state: sectors 0 and 1 are marked
in the free map (free-map inode and this inode's sector), the file is
empty and fully sparse. -/
def exampleFS : FS :=
  { fmSize := 64, freeMap := fun i => i < 2, disk := fun _ _ => 0,
    inodeSector := 1,
    inode := { length := 0, blocks := fun _ => 0, is_file := true },
    deny_write_cnt := 0 }

/-- An example user buffer: byte `i` is `i + 1`. -/
def exampleBuf : Nat → Nat := fun i => i + 1

/-! ## Claim C1 — address resolution arithmetic -/

/-- C1.  The claim states the specification's address-resolution rule:
logical block `L = offset/512` is single-indirect for `122 ≤ L <
122+128` at slot `L−122`, and otherwise double-indirect with
`L' = L−122−128`, slots `L'/128` and `L' mod 128`.  The code instead
bounds the single-indirect range by `NUM_BLOCK_POINTERS = 124`,
subtracts `NUM_DIRECT_POINTERS = 122` a second time, and uses 124 for
the division and modulus.  At byte offset `246·512` (logical block
246, inside the claim's single-indirect range) the code resolves
through the doubly-indirect path `[123, 0, 2]` whereas the claim
requires the single-indirect path `[122, 124]`. -/
theorem C1_ofs_to_indicies_code_bug :
    ofs_to_indicies (246 * 512) = [123, 0, 2] ∧
    spec_ofs_to_indicies (246 * 512) = [122, 124] ∧
    ofs_to_indicies (246 * 512) ≠ spec_ofs_to_indicies (246 * 512) := by
  refine ⟨by decide, by decide, by decide⟩

/-! ## Claim C2 — maximum file size -/

/-- C2.  The claim puts the maximum file size at
`(122 + 128 + 128·128)·512 = 8 459 264` bytes (the formula actually
evaluates to 8 516 608; the claim's number matches neither its own
formula nor the code).  The code's `MAX_FILE_BYTES` is
`(122 + 124 + 124·124)·512 = 7 998 464` bytes (it uses
`NUM_BLOCK_POINTERS = 124` where the specification's formula has the
indirect-block capacity 128), and `inode_write_at` already returns a
0-byte short write for a 1-byte write at offset 7 998 464 — an offset
the claimed maximum says lies strictly inside a writable file. -/
theorem C2_max_file_bytes_code_bug :
    MAX_FILE_BYTES = 7998464 ∧
    (122 + 128 + 128 * 128) * 512 = 8516608 ∧
    MAX_FILE_BYTES ≠ 8459264 ∧
    MAX_FILE_BYTES ≠ (122 + 128 + 128 * 128) * 512 ∧
    inode_write_at exampleFS exampleBuf 1 7998464 = (0, exampleFS) := by
  refine ⟨by decide, by decide, by decide, by decide, ?_⟩
  have hd : ¬ (exampleFS.deny_write_cnt ≠ 0) := by decide
  rw [inode_write_at, if_neg hd]
  rw [inode_write_loop]
  have hc : write_chunk_size 1 7998464 ≤ 0 := by decide
  simp [hc]

/-! ## Claim C5 — free-map allocation and release -/

/-- C5.  `free_map_allocate (count, out)` either returns true having
set exactly `count` previously-clear, pairwise-distinct bits (their
sector numbers stored in `out`, not necessarily consecutive), or
returns false with the free map restored exactly to its pre-call state
(every flipped bit rolled back); the rollback's internal release
assertions can never fire (the outer `Option` is always `some`).
`free_map_release (sector)` clears the sector's bit, asserting —
panicking (`none`) precisely otherwise — that the bit was set, and
changes no other bit. -/
theorem C5_free_map_allocate_release :
    (∀ size m cnt, ∃ r, free_map_allocate size m cnt = some r ∧
      (match r with
        | (m', none) => m' = m
        | (m', some outs) =>
            outs.length = cnt ∧ outs.Nodup ∧
            (∀ s ∈ outs, m s = false ∧ s < size) ∧
            m' = fun j => if j ∈ outs then true else m j)) ∧
    (∀ m s m', free_map_release m s = some m' →
      m s = true ∧ m' s = false ∧ ∀ j, j ≠ s → m' j = m j) ∧
    (∀ (m : Nat → Bool) s, free_map_release m s = none ↔ m s = false) := by
  refine ⟨?_, ?_, ?_⟩
  · intro size m cnt
    obtain ⟨r, hr, hprop⟩ := free_map_allocate_go_spec (n := size)
      (b := m) cnt m [] List.nodup_nil (by simp)
      (by funext j; simp)
    refine ⟨r, hr, ?_⟩
    rcases r with ⟨m', _ | outs⟩
    · exact hprop
    · obtain ⟨hlen, hnd, hfresh, hm'⟩ := hprop
      exact ⟨by simpa using hlen, hnd, hfresh, hm'⟩
  · intro m s m' h
    unfold free_map_release at h
    by_cases hms : m s = true
    · rw [if_pos hms] at h
      obtain rfl : bitmap_reset m s = m' := by simpa using h
      refine ⟨hms, by simp [bitmap_reset], ?_⟩
      intro j hj
      simp [bitmap_reset, hj]
    · rw [if_neg hms] at h
      simp at h
  · intro m s
    unfold free_map_release
    by_cases hms : m s = true
    · simp [hms]
    · simp at hms
      simp [hms]

/-- Witness for C5: instantiate the release specification at the
two-sector map `{0,1}` set, releasing sector 1, and observe bit 0 is
untouched. -/
theorem C5_free_map_allocate_release_witness :
    (bitmap_reset (fun i => decide (i < 2)) 1) 0 =
      (fun i => decide (i < 2)) 0 :=
  ((C5_free_map_allocate_release.2.1 (fun i => decide (i < 2)) 1
    (bitmap_reset (fun i => decide (i < 2)) 1)
    (by unfold free_map_release; simp)).2.2) 0 (by simp)

/-! ## Resolution lemmas for the read path -/

lemma gds_walk_child_zero (fs : FS) (is : List Nat) (n d s : Nat) :
    gds_walk fs is n d s 0 = (d, s, 0) := by
  rw [gds_walk]
  simp

/-- `ofs_to_indicies` depends on the byte offset only through its
logical block index. -/
lemma ofs_to_indicies_congr {o o' : Nat}
    (h : o / BLOCK_SECTOR_SIZE = o' / BLOCK_SECTOR_SIZE) :
    ofs_to_indicies o = ofs_to_indicies o' := by
  unfold ofs_to_indicies direct_idx
  rw [h]

/-- The read path of `get_data_sector` never touches the state: no
block is allocated for a read. -/
lemma get_data_sector_read_state (fs : FS) (offset : Nat) :
    (get_data_sector fs offset true).2 = fs := by
  unfold get_data_sector
  simp

lemma get_data_sector_read_congr (fs : FS) {o o' : Nat}
    (h : o / BLOCK_SECTOR_SIZE = o' / BLOCK_SECTOR_SIZE) :
    (get_data_sector fs o true).1 = (get_data_sector fs o' true).1 := by
  unfold get_data_sector
  rw [ofs_to_indicies_congr h]

/-- On a fully sparse inode (all 124 pointers zero) every offset
resolves to sector 0. -/
lemma resolve_zero_of_blocks_zero {fs : FS}
    (hb : ∀ i, fs.inode.blocks i = 0) (offset : Nat) :
    (get_data_sector fs offset true).1 = 0 := by
  unfold get_data_sector get_block_ptr
  simp only [if_pos]
  rw [hb, gds_walk_child_zero]

/-- One unfolding of the read loop in the interesting case. -/
lemma inode_read_at_step (fs : FS) (size offset : Nat)
    (hs : size ≠ 0) (hc : ¬ read_chunk_size fs size offset ≤ 0) :
    inode_read_at fs size offset =
      (if (get_data_sector fs offset true).1 = 0 then
          List.replicate (read_chunk_size fs size offset).toNat 0
        else
          (List.range (read_chunk_size fs size offset).toNat).map
            (fun i => fs.disk (get_data_sector fs offset true).1
              ((offset % BLOCK_SECTOR_SIZE) + i))) ++
      inode_read_at fs (size - (read_chunk_size fs size offset).toNat)
        (offset + (read_chunk_size fs size offset).toNat) := by
  rw [inode_read_at]
  rw [dif_neg hs, dif_neg hc]

lemma read_chunk_size_le_sector (fs : FS) (size offset : Nat) :
    (read_chunk_size fs size offset).toNat +
      offset % BLOCK_SECTOR_SIZE ≤ BLOCK_SECTOR_SIZE := by
  unfold read_chunk_size
  have h := Nat.mod_lt offset (show 0 < BLOCK_SECTOR_SIZE by decide)
  unfold BLOCK_SECTOR_SIZE at *
  omega

lemma read_chunk_size_le_size (fs : FS) (size offset : Nat) :
    (read_chunk_size fs size offset).toNat ≤ size := by
  unfold read_chunk_size
  omega

/-- Any byte of the read result whose block-pointer path contains a
zero pointer (i.e. whose offset resolves to sector 0) comes back as a
zero byte. -/
lemma inode_read_at_sparse_byte :
    ∀ (size : Nat) (fs : FS) (offset j : Nat),
      j < (inode_read_at fs size offset).length →
      (get_data_sector fs (offset + j) true).1 = 0 →
      (inode_read_at fs size offset).getD j 0 = 0 := by
  intro size
  induction size using Nat.strong_induction_on with
  | _ size ih =>
    intro fs offset j hj hres
    by_cases hs : size = 0
    · subst hs
      rw [inode_read_at] at hj
      simp at hj
    by_cases hc : read_chunk_size fs size offset ≤ 0
    · rw [inode_read_at] at hj
      rw [dif_neg hs, dif_pos hc] at hj
      simp at hj
    rw [inode_read_at_step fs size offset hs hc] at hj ⊢
    set c := (read_chunk_size fs size offset).toNat with hcdef
    have hcpos : 0 < c := by
      have : 0 < read_chunk_size fs size offset := by omega
      omega
    have hclen :
        (if (get_data_sector fs offset true).1 = 0 then
            List.replicate c 0
          else
            (List.range c).map
              (fun i => fs.disk (get_data_sector fs offset true).1
                ((offset % BLOCK_SECTOR_SIZE) + i))).length = c := by
      by_cases h0 : (get_data_sector fs offset true).1 = 0 <;> simp [h0]
    by_cases hjc : j < c
    · rw [List.getD_append _ _ _ _ (by omega)]
      have hsame : (offset + j) / BLOCK_SECTOR_SIZE =
          offset / BLOCK_SECTOR_SIZE := by
        have := read_chunk_size_le_sector fs size offset
        unfold BLOCK_SECTOR_SIZE at *
        omega
      have h0 : (get_data_sector fs offset true).1 = 0 := by
        rw [← get_data_sector_read_congr fs hsame]
        exact hres
      rw [if_pos h0]
      simp [List.getD_eq_getElem?_getD]
    · rw [List.getD_append_right _ _ _ _ (by omega)]
      rw [hclen]
      rw [List.length_append, hclen] at hj
      have hle := read_chunk_size_le_size fs size offset
      refine ih (size - c) (by omega) fs (offset + c) (j - c)
        (by omega) ?_
      have : offset + c + (j - c) = offset + j := by omega
      rw [this]
      exact hres

/-- Reading a fully sparse region below the file's length returns
exactly `size` zero bytes. -/
lemma inode_read_at_all_zero :
    ∀ (size : Nat) (fs : FS) (offset : Nat),
      (∀ i, fs.inode.blocks i = 0) →
      offset + size ≤ fs.inode.length →
      inode_read_at fs size offset = List.replicate size 0 := by
  intro size
  induction size using Nat.strong_induction_on with
  | _ size ih =>
    intro fs offset hb hlen
    by_cases hs : size = 0
    · subst hs
      rw [inode_read_at]
      simp
    have hc : ¬ read_chunk_size fs size offset ≤ 0 := by
      unfold read_chunk_size inode_length
      have h := Nat.mod_lt offset (show 0 < BLOCK_SECTOR_SIZE by decide)
      unfold BLOCK_SECTOR_SIZE at *
      omega
    rw [inode_read_at_step fs size offset hs hc]
    set c := (read_chunk_size fs size offset).toNat with hcdef
    have hcpos : 0 < c := by
      have : 0 < read_chunk_size fs size offset := by omega
      omega
    have hle := read_chunk_size_le_size fs size offset
    rw [if_pos (resolve_zero_of_blocks_zero hb offset)]
    rw [ih (size - c) (by omega) fs (offset + c) hb (by omega)]
    rw [← List.replicate_add]
    congr 1
    omega

/-! ## Claim C4 — sparse reads -/

/-- C4.  (i) The read path of `get_data_sector` never modifies the
filesystem state, so a read allocates no block.  (ii) Every byte of an
`inode_read_at` result whose offset resolves through a zero pointer is
returned as 0 (the chunk is `memset` to zero rather than read from a
sector).  (iii) Reading bytes `[0, L)` of a freshly created
(all-pointers-zero) file of length `L` yields exactly `L` zero
bytes. -/
theorem C4_sparse_reads :
    (∀ (fs : FS) (offset : Nat), (get_data_sector fs offset true).2 = fs) ∧
    (∀ (fs : FS) (size offset j : Nat),
      j < (inode_read_at fs size offset).length →
      (get_data_sector fs (offset + j) true).1 = 0 →
      (inode_read_at fs size offset).getD j 0 = 0) ∧
    (∀ (fs : FS) (L : Nat),
      (∀ i, fs.inode.blocks i = 0) → fs.inode.length = L →
      inode_read_at fs L 0 = List.replicate L 0) := by
  refine ⟨get_data_sector_read_state, ?_, ?_⟩
  · intro fs size offset j hj hres
    exact inode_read_at_sparse_byte size fs offset j hj hres
  · intro fs L hb hlen
    exact inode_read_at_all_zero L fs 0 hb (by omega)

/-- Witness for C4: a freshly created file of length 5 with every block
pointer zero reads back as five zero bytes. -/
theorem C4_sparse_reads_witness :
    inode_read_at
      { exampleFS with inode := { exampleFS.inode with length := 5 } } 5 0 =
      List.replicate 5 0 :=
  C4_sparse_reads.2.2
    { exampleFS with inode := { exampleFS.inode with length := 5 } } 5
    (fun _ => rfl) rfl

/-! ## Round-trip machinery (claim C3)

`resolve fs o` abbreviates the sector the read path derives for byte
`o`.  The well-formedness invariant `WF` states that the inode's
pointer graph is a tree whose distinct positions hold distinct nonzero
sectors, that every sector in use is marked in the free map (so fresh
allocations cannot alias it), that bit 0 is set (sector 0 is the
"no block" sentinel and the free-map inode), and that the recorded
length respects `MAX_FILE_BYTES`. -/

/-- The sector holding byte `o`, as the read path derives it. -/
def resolve (fs : FS) (o : Nat) : Nat := (get_data_sector fs o true).1

/-- Number of clear bits in the free map (capacity for allocation). -/
def clearCount (fs : FS) : Nat :=
  (List.range fs.fmSize).countP (fun i => !(fs.freeMap i))

/-- A position in the inode's pointer graph: the inode's own sector,
one of the inode's 124 pointer slots, a slot of the single-indirect
block, a slot of the doubly-indirect block, or a slot of a level-2
indirect block hanging off slot `a` of the doubly-indirect block. -/
inductive Pos where
  | inodeP : Pos
  | inodeSlot (i : Nat) : Pos
  | s1slot (i : Nat) : Pos
  | l2 (a : Nat) : Pos
  | l2slot (a i : Nat) : Pos
deriving DecidableEq

/-- The sector number stored at a position. -/
def sectorAt (fs : FS) : Pos → Nat
  | .inodeP => fs.inodeSector
  | .inodeSlot i => fs.inode.blocks i
  | .s1slot i => fs.disk (fs.inode.blocks SINGLE_INDIRECT_INDEX) i
  | .l2 a => fs.disk (fs.inode.blocks DOUBLE_INDIRECT_INDEX) a
  | .l2slot a i =>
      fs.disk (fs.disk (fs.inode.blocks DOUBLE_INDIRECT_INDEX) a) i

/-- The positions the inode layer can actually address (slot indices in
range, and every ancestor pointer nonzero). -/
def ValidPos (fs : FS) : Pos → Prop
  | .inodeP => True
  | .inodeSlot i => i < NUM_BLOCK_POINTERS
  | .s1slot i => i < NUM_BLOCK_POINTERS ∧
      fs.inode.blocks SINGLE_INDIRECT_INDEX ≠ 0
  | .l2 a => a ≤ NUM_BLOCK_POINTERS ∧
      fs.inode.blocks DOUBLE_INDIRECT_INDEX ≠ 0
  | .l2slot a i => a ≤ NUM_BLOCK_POINTERS ∧ i < NUM_BLOCK_POINTERS ∧
      fs.inode.blocks DOUBLE_INDIRECT_INDEX ≠ 0 ∧
      fs.disk (fs.inode.blocks DOUBLE_INDIRECT_INDEX) a ≠ 0

/-- Well-formedness of the filesystem state. -/
structure WF (fs : FS) : Prop where
  inj : ∀ p q, ValidPos fs p → ValidPos fs q → sectorAt fs p ≠ 0 →
    sectorAt fs p = sectorAt fs q → p = q
  marked : ∀ p, ValidPos fs p → sectorAt fs p ≠ 0 →
    sectorAt fs p < fs.fmSize ∧ fs.freeMap (sectorAt fs p) = true
  zeroMarked : fs.freeMap 0 = true
  lenLe : fs.inode.length ≤ MAX_FILE_BYTES

/-! ### The three shapes of `ofs_to_indicies` -/

lemma ofs_to_indicies_direct {o : Nat} (h : o / 512 < 122) :
    ofs_to_indicies o = [o / 512] := by
  unfold ofs_to_indicies direct_idx
  unfold BLOCK_SECTOR_SIZE NUM_DIRECT_POINTERS
  rw [if_pos h]

lemma ofs_to_indicies_single {o : Nat} (h1 : 122 ≤ o / 512)
    (h2 : o / 512 < 246) :
    ofs_to_indicies o = [122, o / 512 - 122] := by
  unfold ofs_to_indicies direct_idx SINGLE_INDIRECT_INDEX
  unfold BLOCK_SECTOR_SIZE NUM_DIRECT_POINTERS NUM_BLOCK_POINTERS
  rw [if_neg (by omega), if_pos (by omega)]

lemma ofs_to_indicies_double {o : Nat} (h : 246 ≤ o / 512) :
    ofs_to_indicies o =
      [123, (o / 512 - 244) / 124, (o / 512 - 244) % 124] := by
  unfold ofs_to_indicies direct_idx SINGLE_INDIRECT_INDEX
    DOUBLE_INDIRECT_INDEX doubly_indirect_idx singly_indirect_idx
  unfold BLOCK_SECTOR_SIZE NUM_DIRECT_POINTERS NUM_BLOCK_POINTERS
  rw [if_neg (by omega), if_neg (by omega)]
  have : o / 512 - 122 - 122 = o / 512 - 244 := by omega
  rw [this]

/-! ### Walk computations -/

lemma gds_walk_n1 (fs : FS) (is : List Nat) (s ch : Nat) :
    gds_walk fs is 1 0 s ch = (0, s, ch) := by
  rw [gds_walk]
  simp

lemma gds_walk_step (fs : FS) (is : List Nat) (n d s ch : Nat)
    (hd : d < n - 1) (hch : ch ≠ 0) :
    gds_walk fs is n d s ch =
      gds_walk fs is n (d + 1) ch (fs.disk ch (is.getD (d + 1) 0)) := by
  conv_lhs => rw [gds_walk]
  rw [if_pos ⟨hd, hch⟩]

lemma gds_walk_stop (fs : FS) (is : List Nat) (n d s ch : Nat)
    (hd : ¬ d < n - 1) :
    gds_walk fs is n d s ch = (d, s, ch) := by
  rw [gds_walk]
  rw [if_neg (by tauto)]

lemma gds_walk_n2 (fs : FS) (is : List Nat) (s ch : Nat) :
    gds_walk fs is 2 0 s ch =
      if ch = 0 then (0, s, ch)
      else (1, ch, fs.disk ch (is.getD 1 0)) := by
  by_cases hch : ch = 0
  · rw [if_pos hch, hch, gds_walk_child_zero]
  · rw [if_neg hch, gds_walk_step fs is 2 0 s ch (by norm_num) hch,
      gds_walk_stop fs is 2 1 ch _ (by norm_num)]

lemma gds_walk_n3 (fs : FS) (is : List Nat) (s ch : Nat) :
    gds_walk fs is 3 0 s ch =
      if ch = 0 then (0, s, ch)
      else if fs.disk ch (is.getD 1 0) = 0 then (1, ch, 0)
      else (2, fs.disk ch (is.getD 1 0),
        fs.disk (fs.disk ch (is.getD 1 0)) (is.getD 2 0)) := by
  by_cases hch : ch = 0
  · rw [if_pos hch, hch, gds_walk_child_zero]
  · rw [if_neg hch, gds_walk_step fs is 3 0 s ch (by norm_num) hch]
    by_cases hp : fs.disk ch (is.getD 1 0) = 0
    · rw [if_pos hp, hp, gds_walk_child_zero]
    · rw [if_neg hp, gds_walk_step fs is 3 1 ch _ (by norm_num) hp,
        gds_walk_stop fs is 3 2 _ _ (by norm_num)]

/-! ### Resolution by shape -/

lemma resolve_direct {f : FS} {o : Nat} (h : o / 512 < 122) :
    resolve f o = f.inode.blocks (o / 512) := by
  unfold resolve get_data_sector
  rw [ofs_to_indicies_direct h]
  norm_num [get_block_ptr, gds_walk_n1]

lemma resolve_single {f : FS} {o : Nat} (h1 : 122 ≤ o / 512)
    (h2 : o / 512 < 246) :
    resolve f o =
      if f.inode.blocks 122 = 0 then 0
      else f.disk (f.inode.blocks 122) (o / 512 - 122) := by
  unfold resolve get_data_sector
  rw [ofs_to_indicies_single h1 h2]
  by_cases hb : f.inode.blocks 122 = 0 <;>
    norm_num [get_block_ptr, gds_walk_n2, hb]

lemma resolve_double {f : FS} {o : Nat} (h : 246 ≤ o / 512) :
    resolve f o =
      if f.inode.blocks 123 = 0 then 0
      else if f.disk (f.inode.blocks 123) ((o / 512 - 244) / 124) = 0
        then 0
      else f.disk (f.disk (f.inode.blocks 123) ((o / 512 - 244) / 124))
        ((o / 512 - 244) % 124) := by
  unfold resolve get_data_sector
  rw [ofs_to_indicies_double h]
  by_cases hb : f.inode.blocks 123 = 0
  · norm_num [get_block_ptr, gds_walk_n3, hb]
  · by_cases hp : f.disk (f.inode.blocks 123) ((o / 512 - 244) / 124) = 0
    · norm_num [get_block_ptr, gds_walk_n3, hb, hp]
    · norm_num [get_block_ptr, gds_walk_n3, hb, hp]

/-! ### Free-map capacity -/

/-- Number of clear bits below `size`. -/
def clearCountOf (size : Nat) (m : Nat → Bool) : Nat :=
  (List.range size).countP (fun i => !(m i))

lemma clearCount_eq (fs : FS) :
    clearCount fs = clearCountOf fs.fmSize fs.freeMap := rfl

lemma clearCountOf_flip_aux {i : Nat} {m g : Nat → Bool}
    (hf : m i = false) (hg : ∀ j, g j = if j = i then true else m j) :
    ∀ size, i < size →
      clearCountOf size g + 1 = clearCountOf size m := by
  intro size
  induction size with
  | zero => omega
  | succ n ih =>
    intro hi
    unfold clearCountOf at *
    rw [List.range_succ, List.countP_append, List.countP_append]
    by_cases hin : i < n
    · have hne : n ≠ i := by omega
      have hgn : g n = m n := by rw [hg n, if_neg hne]
      have hih := ih hin
      simp only [List.countP_cons, List.countP_nil, hgn]
      omega
    · have hieq : i = n := by omega
      have hpre : (List.range n).countP (fun j => !(g j)) =
          (List.range n).countP (fun j => !(m j)) := by
        apply List.countP_congr
        intro a ha
        have hane : a ≠ i := by
          have := List.mem_range.mp ha
          omega
        rw [hg a, if_neg hane]
      rw [hpre]
      have hgn : g n = true := by rw [hg n, if_pos hieq.symm]
      have hmn : m n = false := by rw [← hieq]; exact hf
      simp [List.countP_cons, List.countP_nil, hgn, hmn]

lemma clearCountOf_flip {size i : Nat} {m : Nat → Bool} (hi : i < size)
    (hf : m i = false) :
    clearCountOf size (fun j => if j = i then true else m j) + 1 =
      clearCountOf size m :=
  clearCountOf_flip_aux hf (fun _ => rfl) size hi

lemma bitmap_scan_and_flip_exists {size : Nat} {m : Nat → Bool}
    (h : ∃ i, i < size ∧ m i = false) :
    ∃ i m1, bitmap_scan_and_flip size m = some (i, m1) := by
  unfold bitmap_scan_and_flip
  rcases hfind : (List.range size).find? (fun i => !(m i)) with _ | j
  · exfalso
    obtain ⟨i, hi, hmi⟩ := h
    have := List.find?_eq_none.mp hfind i (List.mem_range.mpr hi)
    simp [hmi] at this
  · exact ⟨j, _, rfl⟩

lemma free_map_allocate_go_success {size : Nat} :
    ∀ (cnt : Nat) (m : Nat → Bool) (acquired : List Nat),
      cnt ≤ clearCountOf size m →
      ∀ m'', free_map_allocate_go size m acquired cnt ≠ some (m'', none) := by
  intro cnt
  induction cnt with
  | zero =>
    intro m acquired _ m'' h
    rw [free_map_allocate_go] at h
    simp at h
  | succ n ih =>
    intro m acquired hfree m'' h
    have hcp : 0 < clearCountOf size m := by omega
    have hex : ∃ i, i < size ∧ m i = false := by
      obtain ⟨a, ha, hpa⟩ := List.countP_pos_iff.mp hcp
      exact ⟨a, List.mem_range.mp ha, by simpa using hpa⟩
    obtain ⟨i, m1, hscan⟩ := bitmap_scan_and_flip_exists hex
    rw [free_map_allocate_go, hscan] at h
    obtain ⟨hclear, hlt, hm1⟩ := bitmap_scan_and_flip_some hscan
    have hflip := clearCountOf_flip hlt hclear
    rw [← hm1] at hflip
    exact ih m1 (i :: acquired) (by omega) m'' h

/-- With at least `cnt` clear bits, `free_map_allocate` succeeds and
returns `cnt` fresh distinct in-range sectors, setting exactly their
bits. -/
lemma free_map_allocate_success_spec {size : Nat} {m : Nat → Bool}
    {cnt : Nat} (hfree : cnt ≤ clearCountOf size m) :
    ∃ m' outs, free_map_allocate size m cnt = some (m', some outs) ∧
      outs.length = cnt ∧ outs.Nodup ∧
      (∀ s ∈ outs, m s = false ∧ s < size) ∧
      m' = fun j => if j ∈ outs then true else m j := by
  obtain ⟨r, hr, hprop⟩ := free_map_allocate_go_spec (n := size)
    (b := m) cnt m [] List.nodup_nil (by simp) (by funext j; simp)
  rcases r with ⟨m', _ | outs⟩
  · exact absurd hr (free_map_allocate_go_success cnt m [] hfree m')
  · obtain ⟨hlen, hnd, hfr, hm'⟩ := hprop
    exact ⟨m', outs, hr, by simpa using hlen, hnd, hfr, hm'⟩

/-! ### The write path of `get_data_sector`, case by case

Each lemma fixes one shape of the offset's path and one walk outcome
and computes the returned sector and successor state explicitly.  The
sectors handed out by `free_map_allocate` are taken pre-destructured
(`[d]`, `[d, p]`, `[d, p1, p2]`), matching the C stack array
`new_sectors[]`. -/

/-- Write resolution when the data block already exists: no
allocation, state unchanged. -/
lemma gds_write_found {fs : FS} {o : Nat}
    (hr : resolve fs o ≠ 0) :
    get_data_sector fs o false = (resolve fs o, fs) := by
  have hres : (gds_walk fs (ofs_to_indicies o) (ofs_to_indicies o).length 0
      fs.inodeSector (get_block_ptr fs fs.inodeSector
        ((ofs_to_indicies o).getD 0 0) true)).2.2 = resolve fs o := by
    unfold resolve get_data_sector
    simp
  unfold get_data_sector
  simp only [Bool.false_eq_true, if_false]
  rw [hres, if_pos hr]

/-- Direct block absent: allocate one data block, link it from inode
slot `o/512`. -/
lemma gds_write_direct_alloc {fs : FS} {o : Nat} {m' : Nat → Bool}
    {d : Nat}
    (hL : o / 512 < 122) (hb : fs.inode.blocks (o / 512) = 0)
    (halloc : free_map_allocate fs.fmSize fs.freeMap 1 =
      some (m', some [d])) :
    get_data_sector fs o false =
      (d,
        { fs with
          freeMap := m',
          disk := fun t i => if t = d then 0 else fs.disk t i,
          inode := { fs.inode with blocks :=
            fun i => if i = o / 512 then d else fs.inode.blocks i } }) := by
  unfold get_data_sector
  rw [ofs_to_indicies_direct hL]
  norm_num [get_block_ptr, gds_walk_n1, hb]
  rw [halloc]
  norm_num [allocate_new_blocks, allocate_new_blocks_loop, zero_sector,
    set_block_ptr]

/-- Single-indirect shape, indirect root absent: allocate a data block
and the indirect block, link data into the indirect block, then the
indirect block into inode slot 122. -/
lemma gds_write_single_alloc2 {fs : FS} {o : Nat} {m' : Nat → Bool}
    {d p : Nat}
    (h1 : 122 ≤ o / 512) (h2 : o / 512 < 246)
    (hb : fs.inode.blocks 122 = 0)
    (halloc : free_map_allocate fs.fmSize fs.freeMap 2 =
      some (m', some [d, p])) :
    get_data_sector fs o false =
      (d,
        { fs with
          freeMap := m',
          disk := fun s i =>
            if s = p ∧ i = o / 512 - 122 then d
            else if s = p then 0
            else if s = d then 0
            else fs.disk s i,
          inode := { fs.inode with blocks :=
            fun i => if i = 122 then p else fs.inode.blocks i } }) := by
  unfold get_data_sector
  rw [ofs_to_indicies_single h1 h2]
  norm_num [get_block_ptr, gds_walk_n2, hb]
  rw [halloc]
  norm_num [allocate_new_blocks, allocate_new_blocks_loop, zero_sector,
    set_block_ptr]

/-- Single-indirect shape, indirect root present but data pointer
absent: allocate one data block and link it into the indirect block. -/
lemma gds_write_single_alloc1 {fs : FS} {o : Nat} {m' : Nat → Bool}
    {d : Nat}
    (h1 : 122 ≤ o / 512) (h2 : o / 512 < 246)
    (hb : fs.inode.blocks 122 ≠ 0)
    (hc : fs.disk (fs.inode.blocks 122) (o / 512 - 122) = 0)
    (halloc : free_map_allocate fs.fmSize fs.freeMap 1 =
      some (m', some [d])) :
    get_data_sector fs o false =
      (d,
        { fs with
          freeMap := m',
          disk := fun s i =>
            if s = fs.inode.blocks 122 ∧ i = o / 512 - 122 then d
            else if s = d then 0
            else fs.disk s i }) := by
  unfold get_data_sector
  rw [ofs_to_indicies_single h1 h2]
  norm_num [get_block_ptr, gds_walk_n2, hb, hc]
  rw [halloc]
  norm_num [allocate_new_blocks, allocate_new_blocks_loop, zero_sector,
    set_block_ptr]

/-- Doubly-indirect shape, doubly-indirect root absent: allocate the
data block, a level-2 indirect block and the doubly-indirect block and
link the chain bottom-up into inode slot 123. -/
lemma gds_write_double_alloc3 {fs : FS} {o : Nat} {m' : Nat → Bool}
    {d p1 p2 : Nat}
    (h : 246 ≤ o / 512)
    (hb : fs.inode.blocks 123 = 0)
    (halloc : free_map_allocate fs.fmSize fs.freeMap 3 =
      some (m', some [d, p1, p2])) :
    get_data_sector fs o false =
      (d,
        { fs with
          freeMap := m',
          disk := fun s i =>
            if s = p2 ∧ i = (o / 512 - 244) / 124 then p1
            else if s = p2 then 0
            else if s = p1 ∧ i = (o / 512 - 244) % 124 then d
            else if s = p1 then 0
            else if s = d then 0
            else fs.disk s i,
          inode := { fs.inode with blocks :=
            fun i => if i = 123 then p2 else fs.inode.blocks i } }) := by
  unfold get_data_sector
  rw [ofs_to_indicies_double h]
  norm_num [get_block_ptr, gds_walk_n3, hb]
  rw [halloc]
  norm_num [allocate_new_blocks, allocate_new_blocks_loop, zero_sector,
    set_block_ptr]

/-- Doubly-indirect shape, root present, level-2 block absent:
allocate the data block and a level-2 indirect block. -/
lemma gds_write_double_alloc2 {fs : FS} {o : Nat} {m' : Nat → Bool}
    {d p1 : Nat}
    (h : 246 ≤ o / 512)
    (hb : fs.inode.blocks 123 ≠ 0)
    (hc : fs.disk (fs.inode.blocks 123) ((o / 512 - 244) / 124) = 0)
    (halloc : free_map_allocate fs.fmSize fs.freeMap 2 =
      some (m', some [d, p1])) :
    get_data_sector fs o false =
      (d,
        { fs with
          freeMap := m',
          disk := fun s i =>
            if s = fs.inode.blocks 123 ∧ i = (o / 512 - 244) / 124 then p1
            else if s = p1 ∧ i = (o / 512 - 244) % 124 then d
            else if s = p1 then 0
            else if s = d then 0
            else fs.disk s i }) := by
  unfold get_data_sector
  rw [ofs_to_indicies_double h]
  norm_num [get_block_ptr, gds_walk_n3, hb, hc]
  rw [halloc]
  norm_num [allocate_new_blocks, allocate_new_blocks_loop, zero_sector,
    set_block_ptr]

/-- Doubly-indirect shape, root and level-2 block present, data
pointer absent: allocate one data block. -/
lemma gds_write_double_alloc1 {fs : FS} {o : Nat} {m' : Nat → Bool}
    {d : Nat}
    (h : 246 ≤ o / 512)
    (hb : fs.inode.blocks 123 ≠ 0)
    (hc1 : fs.disk (fs.inode.blocks 123) ((o / 512 - 244) / 124) ≠ 0)
    (hc2 : fs.disk (fs.disk (fs.inode.blocks 123) ((o / 512 - 244) / 124))
      ((o / 512 - 244) % 124) = 0)
    (halloc : free_map_allocate fs.fmSize fs.freeMap 1 =
      some (m', some [d])) :
    get_data_sector fs o false =
      (d,
        { fs with
          freeMap := m',
          disk := fun s i =>
            if s = fs.disk (fs.inode.blocks 123) ((o / 512 - 244) / 124) ∧
                i = (o / 512 - 244) % 124 then d
            else if s = d then 0
            else fs.disk s i }) := by
  unfold get_data_sector
  rw [ofs_to_indicies_double h]
  norm_num [get_block_ptr, gds_walk_n3, hb, hc1, hc2]
  rw [halloc]
  norm_num [allocate_new_blocks, allocate_new_blocks_loop, zero_sector,
    set_block_ptr]

/-! ### Data positions and resolution injectivity -/

/-- The tree position holding the data sector for byte `o`. -/
def dataPos (o : Nat) : Pos :=
  if o / 512 < 122 then .inodeSlot (o / 512)
  else if o / 512 < 246 then .s1slot (o / 512 - 122)
  else .l2slot ((o / 512 - 244) / 124) ((o / 512 - 244) % 124)

lemma max_file_bytes_eq : MAX_FILE_BYTES = 15622 * 512 := by decide

/-- A nonzero resolution reads the data position, and every pointer on
the way down is nonzero, making the data position valid. -/
lemma resolve_dataPos {fs : FS} {o : Nat} (ho : o < MAX_FILE_BYTES)
    (hr : resolve fs o ≠ 0) :
    resolve fs o = sectorAt fs (dataPos o) ∧ ValidPos fs (dataPos o) := by
  have hL : o / 512 < 15622 := by
    rw [max_file_bytes_eq] at ho
    omega
  unfold dataPos
  by_cases h1 : o / 512 < 122
  · rw [if_pos h1]
    rw [resolve_direct h1] at hr ⊢
    exact ⟨rfl, by
      show o / 512 < NUM_BLOCK_POINTERS
      unfold NUM_BLOCK_POINTERS
      omega⟩
  · by_cases h2 : o / 512 < 246
    · rw [if_neg h1, if_pos h2]
      rw [resolve_single (by omega) h2] at hr ⊢
      by_cases hb : fs.inode.blocks 122 = 0
      · rw [if_pos hb] at hr
        exact absurd rfl hr
      · rw [if_neg hb] at hr ⊢
        refine ⟨rfl, ?_, ?_⟩
        · show o / 512 - 122 < NUM_BLOCK_POINTERS
          unfold NUM_BLOCK_POINTERS
          omega
        · show fs.inode.blocks SINGLE_INDIRECT_INDEX ≠ 0
          unfold SINGLE_INDIRECT_INDEX NUM_DIRECT_POINTERS
          exact hb
    · rw [if_neg h1, if_neg h2]
      rw [resolve_double (by omega)] at hr ⊢
      by_cases hb : fs.inode.blocks 123 = 0
      · rw [if_pos hb] at hr
        exact absurd rfl hr
      · rw [if_neg hb] at hr ⊢
        by_cases hp : fs.disk (fs.inode.blocks 123)
            ((o / 512 - 244) / 124) = 0
        · rw [if_pos hp] at hr
          exact absurd rfl hr
        · rw [if_neg hp] at hr ⊢
          refine ⟨rfl, ?_, ?_, ?_, ?_⟩
          · show (o / 512 - 244) / 124 ≤ NUM_BLOCK_POINTERS
            unfold NUM_BLOCK_POINTERS
            omega
          · show (o / 512 - 244) % 124 < NUM_BLOCK_POINTERS
            unfold NUM_BLOCK_POINTERS
            omega
          · show fs.inode.blocks DOUBLE_INDIRECT_INDEX ≠ 0
            unfold DOUBLE_INDIRECT_INDEX NUM_DIRECT_POINTERS
            exact hb
          · show fs.disk (fs.inode.blocks DOUBLE_INDIRECT_INDEX) _ ≠ 0
            unfold DOUBLE_INDIRECT_INDEX NUM_DIRECT_POINTERS
            exact hp

lemma dataPos_inj {o o' : Nat} (h : dataPos o = dataPos o') :
    o / 512 = o' / 512 := by
  unfold dataPos at h
  by_cases h1 : o / 512 < 122 <;> by_cases h1' : o' / 512 < 122 <;>
    by_cases h2 : o / 512 < 246 <;> by_cases h2' : o' / 512 < 246 <;>
    simp [h1, h1', h2, h2'] at h
  all_goals omega

/-- Distinct logical blocks resolve to distinct sectors (or to 0). -/
lemma resolve_inj {fs : FS} (hwf : WF fs) {o o' : Nat}
    (ho : o < MAX_FILE_BYTES) (ho' : o' < MAX_FILE_BYTES)
    (hL : o / 512 ≠ o' / 512) (hr : resolve fs o ≠ 0) :
    resolve fs o ≠ resolve fs o' := by
  intro heq
  have hr' : resolve fs o' ≠ 0 := by rw [← heq]; exact hr
  obtain ⟨he1, hv1⟩ := resolve_dataPos ho hr
  obtain ⟨he2, hv2⟩ := resolve_dataPos ho' hr'
  have := hwf.inj (dataPos o) (dataPos o') hv1 hv2
    (by rw [← he1]; exact hr) (by rw [← he1, ← he2]; exact heq)
  exact hL (dataPos_inj this)

/-! ### Per-scenario write postconditions -/

lemma validPos_inodeSlot (fs : FS) (i : Nat) :
    ValidPos fs (.inodeSlot i) ↔ i < 124 := Iff.rfl

lemma validPos_s1slot (fs : FS) (i : Nat) :
    ValidPos fs (.s1slot i) ↔
      (i < 124 ∧ fs.inode.blocks 122 ≠ 0) := Iff.rfl

lemma validPos_l2 (fs : FS) (a : Nat) :
    ValidPos fs (.l2 a) ↔
      (a ≤ 124 ∧ fs.inode.blocks 123 ≠ 0) := Iff.rfl

lemma validPos_l2slot (fs : FS) (a i : Nat) :
    ValidPos fs (.l2slot a i) ↔
      (a ≤ 124 ∧ i < 124 ∧ fs.inode.blocks 123 ≠ 0 ∧
        fs.disk (fs.inode.blocks 123) a ≠ 0) := Iff.rfl

lemma sectorAt_inodeP (fs : FS) : sectorAt fs .inodeP = fs.inodeSector :=
  rfl

lemma sectorAt_inodeSlot (fs : FS) (i : Nat) :
    sectorAt fs (.inodeSlot i) = fs.inode.blocks i := rfl

lemma sectorAt_s1slot (fs : FS) (i : Nat) :
    sectorAt fs (.s1slot i) = fs.disk (fs.inode.blocks 122) i := rfl

lemma sectorAt_l2 (fs : FS) (a : Nat) :
    sectorAt fs (.l2 a) = fs.disk (fs.inode.blocks 123) a := rfl

lemma sectorAt_l2slot (fs : FS) (a i : Nat) :
    sectorAt fs (.l2slot a i) =
      fs.disk (fs.disk (fs.inode.blocks 123) a) i := rfl

lemma WF.fresh_ne {fs : FS} (hwf : WF fs) {s : Nat}
    (hclear : fs.freeMap s = false) :
    ∀ p, ValidPos fs p → sectorAt fs p ≠ 0 → sectorAt fs p ≠ s := by
  intro p hv hnz heq
  have := (hwf.marked p hv hnz).2
  rw [heq, hclear] at this
  cases this

lemma WF.fresh_ne_zero {fs : FS} (hwf : WF fs) {s : Nat}
    (hclear : fs.freeMap s = false) : s ≠ 0 := by
  intro h
  rw [h, hwf.zeroMarked] at hclear
  cases hclear

/-- What one chunk of the write path guarantees: a nonzero data sector,
well-formedness preserved, the sector resolvable afterwards, all
previously-resolvable offsets stable, previously-resolvable sectors'
contents untouched, inode metadata untouched, and at most three free
sectors consumed. -/
def WritePost (fs fs' : FS) (o s : Nat) : Prop :=
  s ≠ 0 ∧ WF fs' ∧ resolve fs' o = s ∧
  (∀ o', o' < MAX_FILE_BYTES → resolve fs o' ≠ 0 →
    resolve fs' o' = resolve fs o') ∧
  (∀ o', o' < MAX_FILE_BYTES → resolve fs o' ≠ 0 →
    ∀ i, fs'.disk (resolve fs o') i = fs.disk (resolve fs o') i) ∧
  fs'.inode.length = fs.inode.length ∧
  fs'.inodeSector = fs.inodeSector ∧
  fs'.fmSize = fs.fmSize ∧
  fs'.deny_write_cnt = fs.deny_write_cnt ∧
  clearCount fs ≤ clearCount fs' + 3

/-- Trivial postcondition when the sector already exists. -/
lemma writePost_found {fs : FS} {o : Nat} (hwf : WF fs)
    (hr : resolve fs o ≠ 0) : WritePost fs fs o (resolve fs o) := by
  refine ⟨hr, hwf, rfl, fun _ _ _ => rfl, fun _ _ _ _ => rfl,
    rfl, rfl, rfl, rfl, by omega⟩

lemma gds_post_direct_alloc {fs : FS} {o : Nat} {m' : Nat → Bool}
    {d : Nat} (hwf : WF fs)
    (hL : o / 512 < 122) (hb : fs.inode.blocks (o / 512) = 0)
    (hd_clear : fs.freeMap d = false) (hd_lt : d < fs.fmSize)
    (hm' : m' = fun j => if j ∈ ([d] : List Nat) then true
      else fs.freeMap j) :
    WritePost fs
      { fs with
        freeMap := m',
        disk := fun t i => if t = d then 0 else fs.disk t i,
        inode := { fs.inode with blocks :=
          fun i => if i = o / 512 then d else fs.inode.blocks i } }
      o d := by
  set fs' : FS :=
    { fs with
      freeMap := m',
      disk := fun t i => if t = d then 0 else fs.disk t i,
      inode := { fs.inode with blocks :=
        fun i => if i = o / 512 then d else fs.inode.blocks i } }
    with hfs'
  have hd0 : d ≠ 0 := hwf.fresh_ne_zero hd_clear
  have hfresh := hwf.fresh_ne hd_clear
  have hb122 : fs.inode.blocks 122 ≠ d := by
    by_cases hz : fs.inode.blocks 122 = 0
    · rw [hz]; exact fun h => hd0 h.symm
    · exact hwf.fresh_ne hd_clear (.inodeSlot 122) (by
        show 122 < NUM_BLOCK_POINTERS
        decide) hz
  have hb123 : fs.inode.blocks 123 ≠ d := by
    by_cases hz : fs.inode.blocks 123 = 0
    · rw [hz]; exact fun h => hd0 h.symm
    · exact hwf.fresh_ne hd_clear (.inodeSlot 123) (by
        show 123 < NUM_BLOCK_POINTERS
        decide) hz
  have hdisk122 : ∀ i, fs'.disk (fs.inode.blocks 122) i =
      fs.disk (fs.inode.blocks 122) i := by
    intro i
    show (if fs.inode.blocks 122 = d then 0 else _) = _
    rw [if_neg hb122]
  have hdisk123 : ∀ i, fs'.disk (fs.inode.blocks 123) i =
      fs.disk (fs.inode.blocks 123) i := by
    intro i
    show (if fs.inode.blocks 123 = d then 0 else _) = _
    rw [if_neg hb123]
  have hblocks : ∀ i, i ≠ o / 512 → fs'.inode.blocks i =
      fs.inode.blocks i := by
    intro i hi
    show (if i = o / 512 then d else _) = _
    rw [if_neg hi]
  have hblocks122 : fs'.inode.blocks 122 = fs.inode.blocks 122 :=
    hblocks 122 (by omega)
  have hblocks123 : fs'.inode.blocks 123 = fs.inode.blocks 123 :=
    hblocks 123 (by omega)
  have hl2 : ∀ a, fs.inode.blocks 123 ≠ 0 → a ≤ 124 →
      fs.disk (fs.inode.blocks 123) a ≠ d := by
    intro a h123 ha
    by_cases hz : fs.disk (fs.inode.blocks 123) a = 0
    · rw [hz]; exact fun h => hd0 h.symm
    · exact hwf.fresh_ne hd_clear (.l2 a)
        (by exact ⟨by unfold NUM_BLOCK_POINTERS; omega, h123⟩) hz
  have hVP : ∀ p, ValidPos fs' p ↔ ValidPos fs p := by
    intro p
    cases p with
    | inodeP => exact Iff.rfl
    | inodeSlot i => exact Iff.rfl
    | s1slot i =>
      show (i < NUM_BLOCK_POINTERS ∧ fs'.inode.blocks 122 ≠ 0) ↔ _
      rw [hblocks122]
      exact Iff.rfl
    | l2 a =>
      show (a ≤ NUM_BLOCK_POINTERS ∧ fs'.inode.blocks 123 ≠ 0) ↔ _
      rw [hblocks123]
      exact Iff.rfl
    | l2slot a i =>
      rw [validPos_l2slot, validPos_l2slot, hblocks123, hdisk123 a]
  have hSA : ∀ p, ValidPos fs p →
      sectorAt fs' p =
        if p = .inodeSlot (o / 512) then d else sectorAt fs p := by
    intro p hv
    cases p with
    | inodeP => rw [if_neg (by intro h; cases h)]; rfl
    | inodeSlot i =>
      show (if i = o / 512 then d else fs.inode.blocks i) = _
      by_cases hi : i = o / 512
      · rw [if_pos hi, if_pos (by rw [hi])]
      · rw [if_neg hi, if_neg (by intro h; cases h; exact hi rfl)]
        rfl
    | s1slot i =>
      rw [if_neg (by intro h; cases h)]
      show fs'.disk (fs'.inode.blocks 122) i = _
      rw [hblocks122, hdisk122]
      rfl
    | l2 a =>
      rw [if_neg (by intro h; cases h)]
      show fs'.disk (fs'.inode.blocks 123) a = _
      rw [hblocks123, hdisk123]
      rfl
    | l2slot a i =>
      rw [if_neg (by intro h; cases h)]
      obtain ⟨ha, hi, h123, hq⟩ := hv
      show fs'.disk (fs'.disk (fs'.inode.blocks 123) a) i = _
      rw [hblocks123, hdisk123]
      show (if fs.disk (fs.inode.blocks 123) a = d then 0 else _) = _
      rw [if_neg (hl2 a h123 (by unfold NUM_BLOCK_POINTERS at ha; omega))]
      rfl
  have hwf' : WF fs' := by
    refine ⟨?_, ?_, ?_, ?_⟩
    · intro p q hvp hvq hnz heq
      rw [hVP] at hvp hvq
      rw [hSA p hvp] at hnz heq
      rw [hSA q hvq] at heq
      by_cases hp : p = .inodeSlot (o / 512) <;>
        by_cases hq : q = .inodeSlot (o / 512)
      · rw [hp, hq]
      · rw [if_pos hp] at heq
        rw [if_neg hq] at heq
        exfalso
        by_cases hqz : sectorAt fs q = 0
        · rw [hqz] at heq; exact hd0 heq
        · exact hfresh q hvq hqz heq.symm
      · rw [if_neg hp] at heq hnz
        rw [if_pos hq] at heq
        exact absurd heq (hfresh p hvp hnz)
      · rw [if_neg hp] at heq hnz
        rw [if_neg hq] at heq
        exact hwf.inj p q hvp hvq hnz heq
    · intro p hv hnz
      rw [hVP] at hv
      rw [hSA p hv] at hnz ⊢
      by_cases hp : p = .inodeSlot (o / 512)
      · rw [if_pos hp] at hnz ⊢
        refine ⟨hd_lt, ?_⟩
        show m' d = true
        rw [hm']
        simp
      · rw [if_neg hp] at hnz ⊢
        obtain ⟨h1, h2⟩ := hwf.marked p hv hnz
        refine ⟨h1, ?_⟩
        show m' (sectorAt fs p) = true
        rw [hm']
        simp only [List.mem_singleton]
        rw [if_neg (by
          intro h
          exact hfresh p hv hnz h), h2]
    · show m' 0 = true
      rw [hm']
      simp only [List.mem_singleton]
      rw [if_neg (fun h => hd0 h.symm), hwf.zeroMarked]
    · exact hwf.lenLe
  refine ⟨hd0, hwf', ?_, ?_, ?_, rfl, rfl, rfl, rfl, ?_⟩
  · rw [resolve_direct hL]
    show (if o / 512 = o / 512 then d else _) = d
    rw [if_pos rfl]
  · intro o' ho' hr'
    by_cases h1 : o' / 512 < 122
    · rw [resolve_direct (f := fs) h1] at hr'
      rw [resolve_direct (f := fs') h1, resolve_direct (f := fs) h1]
      by_cases he : o' / 512 = o / 512
      · rw [he] at hr'
        exact absurd hb hr'
      · show (if o' / 512 = o / 512 then d else _) = _
        rw [if_neg he]
    · by_cases h2 : o' / 512 < 246
      · rw [resolve_single (f := fs') (by omega) h2,
          resolve_single (f := fs) (by omega) h2]
        rw [hblocks122, hdisk122]
      · rw [resolve_double (f := fs) (by omega)] at hr'
        rw [resolve_double (f := fs') (by omega),
          resolve_double (f := fs) (by omega)]
        rw [hblocks123, hdisk123]
        by_cases hz : fs.inode.blocks 123 = 0
        · rw [if_pos hz] at hr'
          exact absurd rfl hr'
        · simp only [if_neg hz] at hr' ⊢
          by_cases hp : fs.disk (fs.inode.blocks 123)
              ((o' / 512 - 244) / 124) = 0
          · rw [if_pos hp] at hr'
            exact absurd rfl hr'
          · simp only [if_neg hp] at hr' ⊢
            have hQ : fs.disk (fs.inode.blocks 123)
                ((o' / 512 - 244) / 124) ≠ d :=
              hl2 _ hz (by rw [max_file_bytes_eq] at ho'; omega)
            show (if fs.disk (fs.inode.blocks 123)
                ((o' / 512 - 244) / 124) = d then 0 else _) = _
            rw [if_neg hQ]
  · intro o' ho' hr' i
    obtain ⟨he, hv⟩ := resolve_dataPos ho' hr'
    have : resolve fs o' ≠ d := by
      rw [he]
      exact hfresh _ hv (by rw [← he]; exact hr')
    show (if resolve fs o' = d then 0 else _) = _
    rw [if_neg this]
  · have hflip := clearCountOf_flip_aux (g := m') hd_clear
      (by
        intro j
        rw [hm']
        simp only [List.mem_singleton]) fs.fmSize hd_lt
    rw [clearCount_eq, clearCount_eq]
    show clearCountOf fs.fmSize fs.freeMap ≤
      clearCountOf fs.fmSize m' + 3
    omega

lemma clearCountOf_congr {size : Nat} {m m' : Nat → Bool}
    (h : ∀ j, m j = m' j) : clearCountOf size m = clearCountOf size m' := by
  unfold clearCountOf
  apply List.countP_congr
  intro a _
  rw [h a]

lemma clearCountOf_set_list {n : Nat} :
    ∀ (outs : List Nat) (m : Nat → Bool), outs.Nodup →
      (∀ s ∈ outs, m s = false ∧ s < n) →
      clearCountOf n (fun j => if j ∈ outs then true else m j) +
        outs.length = clearCountOf n m := by
  intro outs
  induction outs with
  | nil =>
    intro m _ _
    simp only [List.length_nil, Nat.add_zero]
    apply clearCountOf_congr
    intro j
    simp
  | cons a rest ih =>
    intro m hnd hcl
    have hna : a ∉ rest := (List.nodup_cons.mp hnd).1
    set m1 : Nat → Bool := fun j => if j = a then true else m j with hm1
    have hstep : clearCountOf n
        (fun j => if j ∈ a :: rest then true else m j) =
        clearCountOf n (fun j => if j ∈ rest then true else m1 j) := by
      apply clearCountOf_congr
      intro j
      by_cases hr : j ∈ rest
      · simp [hr, hm1]
      · by_cases hj : j = a
        · simp [hj, hr, hm1]
        · simp [hj, hr, hm1]
    have hih := ih m1 (List.nodup_cons.mp hnd).2
      (by
        intro s hs
        have hne : s ≠ a := fun h => hna (h ▸ hs)
        refine ⟨?_, (hcl s (List.mem_cons_of_mem a hs)).2⟩
        show (if s = a then true else m s) = false
        rw [if_neg hne]
        exact (hcl s (List.mem_cons_of_mem a hs)).1)
    have hflip : clearCountOf n m1 + 1 = clearCountOf n m :=
      clearCountOf_flip_aux (i := a) (m := m) (hcl a (by simp)).1
        (fun _ => rfl) n (hcl a (by simp)).2
    rw [hstep, List.length_cons]
    omega

/-- Generic well-formedness preservation: if the successor state's
valid positions each hold either one of finitely many fresh new
sectors, or 0, or their old (still-valid) sector, and the free map has
grown by exactly the new sectors, the tree invariant carries over. -/
lemma WF_of_update {fs fs' : FS} (hwf : WF fs)
    (hfm : fs'.fmSize = fs.fmSize)
    (hlen : fs'.inode.length = fs.inode.length)
    (news : List (Pos × Nat))
    (hvals : ∀ pr ∈ news,
      pr.2 ≠ 0 ∧ pr.2 < fs.fmSize ∧ fs.freeMap pr.2 = false)
    (hvnd : (news.map Prod.snd).Nodup)
    (hmark : ∀ j, (j ∈ news.map Prod.snd ∨ fs.freeMap j = true) →
      fs'.freeMap j = true)
    (hchar : ∀ q, ValidPos fs' q →
      (∃ pr, pr ∈ news ∧ q = pr.1 ∧ sectorAt fs' q = pr.2) ∨
      sectorAt fs' q = 0 ∨
      (sectorAt fs' q = sectorAt fs q ∧ ValidPos fs q)) :
    WF fs' := by
  have hprinj : ∀ pr ∈ news, ∀ pr' ∈ news, pr.2 = pr'.2 → pr = pr' :=
    fun pr hpr pr' hpr' h => List.inj_on_of_nodup_map hvnd hpr hpr' h
  refine ⟨?_, ?_, ?_, ?_⟩
  · intro q r hvq hvr hnz heq
    rcases hchar q hvq with ⟨pq, hpq, hq1, hq2⟩ | hq0 | ⟨hq2, hqv⟩
    · rcases hchar r hvr with ⟨pr, hpr, hr1, hr2⟩ | hr0 | ⟨hr2, hrv⟩
      · have : pq = pr := hprinj pq hpq pr hpr (by
          rw [← hq2, ← hr2, heq])
        rw [hq1, hr1, this]
      · rw [hq2] at heq
        rw [hr0] at heq
        exact absurd heq (hvals pq hpq).1
      · exfalso
        rw [hq2] at heq
        rw [hr2] at heq
        exact hwf.fresh_ne (hvals pq hpq).2.2 r hrv
          (by rw [← heq]; exact (hvals pq hpq).1) heq.symm
    · exact absurd hq0 hnz
    · rcases hchar r hvr with ⟨pr, hpr, hr1, hr2⟩ | hr0 | ⟨hr2, hrv⟩
      · exfalso
        rw [hq2] at heq hnz
        rw [hr2] at heq
        exact hwf.fresh_ne (hvals pr hpr).2.2 q hqv hnz heq
      · rw [hq2] at heq hnz
        rw [hr0] at heq
        exact absurd heq hnz
      · rw [hq2] at heq hnz
        rw [hr2] at heq
        exact hwf.inj q r hqv hrv hnz heq
  · intro q hvq hnz
    rw [hfm]
    rcases hchar q hvq with ⟨pq, hpq, hq1, hq2⟩ | hq0 | ⟨hq2, hqv⟩
    · rw [hq2]
      refine ⟨(hvals pq hpq).2.1, ?_⟩
      apply hmark
      left
      exact List.mem_map.mpr ⟨pq, hpq, rfl⟩
    · exact absurd hq0 hnz
    · rw [hq2] at hnz ⊢
      obtain ⟨h1, h2⟩ := hwf.marked q hqv hnz
      exact ⟨h1, hmark _ (Or.inr h2)⟩
  · exact hmark 0 (Or.inr hwf.zeroMarked)
  · rw [hlen]
    exact hwf.lenLe

lemma gds_post_single_alloc2 {fs : FS} {o : Nat} {m' : Nat → Bool}
    {d p : Nat} (hwf : WF fs)
    (h1 : 122 ≤ o / 512) (h2 : o / 512 < 246)
    (hb : fs.inode.blocks 122 = 0)
    (hd_clear : fs.freeMap d = false) (hd_lt : d < fs.fmSize)
    (hp_clear : fs.freeMap p = false) (hp_lt : p < fs.fmSize)
    (hdp : d ≠ p)
    (hm' : m' = fun j => if j ∈ ([d, p] : List Nat) then true
      else fs.freeMap j) :
    WritePost fs
      { fs with
        freeMap := m',
        disk := fun s i =>
          if s = p ∧ i = o / 512 - 122 then d
          else if s = p then 0
          else if s = d then 0
          else fs.disk s i,
        inode := { fs.inode with blocks :=
          fun i => if i = 122 then p else fs.inode.blocks i } }
      o d := by
  set fs' : FS :=
    { fs with
      freeMap := m',
      disk := fun s i =>
        if s = p ∧ i = o / 512 - 122 then d
        else if s = p then 0
        else if s = d then 0
        else fs.disk s i,
      inode := { fs.inode with blocks :=
        fun i => if i = 122 then p else fs.inode.blocks i } }
    with hfs'
  have hd0 : d ≠ 0 := hwf.fresh_ne_zero hd_clear
  have hp0 : p ≠ 0 := hwf.fresh_ne_zero hp_clear
  have hfresh2 : ∀ q, ValidPos fs q → sectorAt fs q ≠ 0 →
      sectorAt fs q ≠ d ∧ sectorAt fs q ≠ p :=
    fun q hv hz => ⟨hwf.fresh_ne hd_clear q hv hz,
      hwf.fresh_ne hp_clear q hv hz⟩
  have hB122 : fs'.inode.blocks 122 = p := by
    show (if 122 = 122 then p else fs.inode.blocks 122) = p
    rw [if_pos rfl]
  have hB : ∀ i, i ≠ 122 → fs'.inode.blocks i = fs.inode.blocks i := by
    intro i hi
    show (if i = 122 then p else _) = _
    rw [if_neg hi]
  have hD : ∀ x, x ≠ d → x ≠ p → ∀ i, fs'.disk x i = fs.disk x i := by
    intro x hxd hxp i
    show (if x = p ∧ i = o / 512 - 122 then d
      else if x = p then 0 else if x = d then 0 else fs.disk x i) = _
    rw [if_neg (fun h => hxp h.1), if_neg hxp, if_neg hxd]
  have hDp : ∀ i, fs'.disk p i = if i = o / 512 - 122 then d else 0 := by
    intro i
    by_cases hi : i = o / 512 - 122
    · show (if p = p ∧ i = o / 512 - 122 then d else _) = _
      rw [if_pos ⟨rfl, hi⟩, if_pos hi]
    · show (if p = p ∧ i = o / 512 - 122 then d
        else if p = p then 0 else _) = _
      rw [if_neg (fun h => hi h.2), if_pos rfl, if_neg hi]
  have h123 : fs.inode.blocks 123 ≠ 0 →
      fs.inode.blocks 123 ≠ d ∧ fs.inode.blocks 123 ≠ p :=
    fun hz => hfresh2 (.inodeSlot 123)
      ((validPos_inodeSlot fs 123).mpr (by omega)) hz
  have hchar : ∀ q, ValidPos fs' q →
      (∃ pr, pr ∈ ([(Pos.inodeSlot 122, p),
          (Pos.s1slot (o / 512 - 122), d)] : List (Pos × Nat)) ∧
        q = pr.1 ∧ sectorAt fs' q = pr.2) ∨
      sectorAt fs' q = 0 ∨
      (sectorAt fs' q = sectorAt fs q ∧ ValidPos fs q) := by
    intro q hvq
    cases q with
    | inodeP => exact Or.inr (Or.inr ⟨rfl, trivial⟩)
    | inodeSlot i =>
      by_cases hi : i = 122
      · refine Or.inl ⟨(Pos.inodeSlot 122, p), by simp, by rw [hi], ?_⟩
        rw [sectorAt_inodeSlot, hi, hB122]
      · refine Or.inr (Or.inr ⟨?_, hvq⟩)
        rw [sectorAt_inodeSlot, sectorAt_inodeSlot, hB i hi]
    | s1slot i =>
      by_cases hi : i = o / 512 - 122
      · refine Or.inl ⟨(Pos.s1slot (o / 512 - 122), d), by simp,
          by rw [hi], ?_⟩
        rw [sectorAt_s1slot, hB122, hDp, if_pos hi]
      · refine Or.inr (Or.inl ?_)
        rw [sectorAt_s1slot, hB122, hDp, if_neg hi]
    | l2 a =>
      obtain ⟨ha, h123'⟩ := (validPos_l2 fs' a).mp hvq
      rw [hB 123 (by omega)] at h123'
      refine Or.inr (Or.inr ⟨?_, (validPos_l2 fs a).mpr ⟨ha, h123'⟩⟩)
      rw [sectorAt_l2, sectorAt_l2, hB 123 (by omega),
        hD _ (h123 h123').1 (h123 h123').2]
    | l2slot a i =>
      obtain ⟨ha, hi, h123', hQ'⟩ := (validPos_l2slot fs' a i).mp hvq
      rw [hB 123 (by omega)] at h123' hQ'
      rw [hD _ (h123 h123').1 (h123 h123').2] at hQ'
      have hQfr := hfresh2 (.l2 a) ((validPos_l2 fs a).mpr ⟨ha, h123'⟩)
        (by rw [sectorAt_l2]; exact hQ')
      rw [sectorAt_l2] at hQfr
      refine Or.inr (Or.inr ⟨?_,
        (validPos_l2slot fs a i).mpr ⟨ha, hi, h123', hQ'⟩⟩)
      rw [sectorAt_l2slot, sectorAt_l2slot, hB 123 (by omega),
        hD _ (h123 h123').1 (h123 h123').2, hD _ hQfr.1 hQfr.2]
  have hwf' : WF fs' :=
    WF_of_update hwf rfl rfl
      [(Pos.inodeSlot 122, p), (Pos.s1slot (o / 512 - 122), d)]
      (by
        intro pr hpr
        rcases List.mem_cons.mp hpr with rfl | hpr
        · exact ⟨hp0, hp_lt, hp_clear⟩
        · rw [List.mem_singleton] at hpr
          rw [hpr]
          exact ⟨hd0, hd_lt, hd_clear⟩)
      (by simp [Ne.symm hdp])
      (by
        intro j hj
        have hval : m' j = (if j ∈ ([d, p] : List Nat) then true
            else fs.freeMap j) := by rw [hm']
        show m' j = true
        rw [hval]
        rcases hj with hj | hj
        · simp only [List.map_cons, List.map_nil] at hj
          rcases List.mem_cons.mp hj with rfl | hj
          · simp
          · rw [List.mem_singleton] at hj
            rw [hj]
            simp
        · by_cases hmem : j ∈ ([d, p] : List Nat)
          · rw [if_pos hmem]
          · rw [if_neg hmem]
            exact hj)
      hchar
  refine ⟨hd0, hwf', ?_, ?_, ?_, rfl, rfl, rfl, rfl, ?_⟩
  · rw [resolve_single (f := fs') h1 h2, hB122, if_neg hp0, hDp,
      if_pos rfl]
  · intro o' ho' hr'
    by_cases hL1 : o' / 512 < 122
    · rw [resolve_direct (f := fs') hL1, resolve_direct (f := fs) hL1,
        hB _ (by omega)]
    · by_cases hL2 : o' / 512 < 246
      · rw [resolve_single (f := fs) (by omega) hL2, if_pos hb] at hr'
        exact absurd rfl hr'
      · rw [resolve_double (f := fs) (by omega)] at hr'
        rw [resolve_double (f := fs') (by omega),
          resolve_double (f := fs) (by omega)]
        rw [hB 123 (by omega)]
        by_cases hz : fs.inode.blocks 123 = 0
        · rw [if_pos hz] at hr'
          exact absurd rfl hr'
        · rw [if_neg hz] at hr'
          rw [if_neg hz, if_neg hz]
          rw [hD _ (h123 hz).1 (h123 hz).2]
          by_cases hq : fs.disk (fs.inode.blocks 123)
              ((o' / 512 - 244) / 124) = 0
          · rw [if_pos hq] at hr'
            exact absurd rfl hr'
          · rw [if_neg hq] at hr'
            rw [if_neg hq, if_neg hq]
            have ha' : (o' / 512 - 244) / 124 ≤ 124 := by
              rw [max_file_bytes_eq] at ho'
              omega
            have hQfr := hfresh2 (.l2 ((o' / 512 - 244) / 124))
              ((validPos_l2 fs _).mpr ⟨ha', hz⟩)
              (by rw [sectorAt_l2]; exact hq)
            rw [sectorAt_l2] at hQfr
            rw [hD _ hQfr.1 hQfr.2]
  · intro o' ho' hr' i
    obtain ⟨he, hv⟩ := resolve_dataPos ho' hr'
    have hfr := hfresh2 _ hv (by rw [← he]; exact hr')
    rw [← he] at hfr
    exact hD _ hfr.1 hfr.2 i
  · have hcc := clearCountOf_set_list (n := fs.fmSize) [d, p]
      fs.freeMap (by simp [hdp])
      (by
        intro s hs
        rcases List.mem_cons.mp hs with rfl | hs
        · exact ⟨hd_clear, hd_lt⟩
        · rw [List.mem_singleton] at hs
          rw [hs]
          exact ⟨hp_clear, hp_lt⟩)
    rw [clearCount_eq, clearCount_eq]
    show clearCountOf fs.fmSize fs.freeMap ≤
      clearCountOf fs.fmSize m' + 3
    rw [hm']
    simp only [List.length_cons, List.length_nil] at hcc
    omega

lemma WF.ne_pos {fs : FS} (hwf : WF fs) {q r : Pos}
    (hq : ValidPos fs q) (hr : ValidPos fs r)
    (hnz : sectorAt fs q ≠ 0) (hne : q ≠ r) :
    sectorAt fs q ≠ sectorAt fs r :=
  fun heq => hne (hwf.inj q r hq hr hnz heq)

lemma dataPos_ne_inodeSlot_ge {o k : Nat} (hk : 122 ≤ k) :
    dataPos o ≠ .inodeSlot k := by
  unfold dataPos
  by_cases h1 : o / 512 < 122
  · rw [if_pos h1]
    intro h
    cases h
    omega
  · by_cases h2 : o / 512 < 246
    · rw [if_neg h1, if_pos h2]
      intro h
      cases h
    · rw [if_neg h1, if_neg h2]
      intro h
      cases h

lemma dataPos_ne_l2 {o a : Nat} : dataPos o ≠ .l2 a := by
  unfold dataPos
  by_cases h1 : o / 512 < 122
  · rw [if_pos h1]
    intro h
    cases h
  · by_cases h2 : o / 512 < 246
    · rw [if_neg h1, if_pos h2]
      intro h
      cases h
    · rw [if_neg h1, if_neg h2]
      intro h
      cases h

lemma gds_post_single_alloc1 {fs : FS} {o : Nat} {m' : Nat → Bool}
    {d : Nat} (hwf : WF fs)
    (h1 : 122 ≤ o / 512) (h2 : o / 512 < 246)
    (hb : fs.inode.blocks 122 ≠ 0)
    (hc : fs.disk (fs.inode.blocks 122) (o / 512 - 122) = 0)
    (hd_clear : fs.freeMap d = false) (hd_lt : d < fs.fmSize)
    (hm' : m' = fun j => if j ∈ ([d] : List Nat) then true
      else fs.freeMap j) :
    WritePost fs
      { fs with
        freeMap := m',
        disk := fun s i =>
          if s = fs.inode.blocks 122 ∧ i = o / 512 - 122 then d
          else if s = d then 0
          else fs.disk s i }
      o d := by
  set fs' : FS :=
    { fs with
      freeMap := m',
      disk := fun s i =>
        if s = fs.inode.blocks 122 ∧ i = o / 512 - 122 then d
        else if s = d then 0
        else fs.disk s i }
    with hfs'
  have hd0 : d ≠ 0 := hwf.fresh_ne_zero hd_clear
  have hfresh := hwf.fresh_ne hd_clear
  have hv122 : ValidPos fs (.inodeSlot 122) :=
    (validPos_inodeSlot fs 122).mpr (by omega)
  have hB1d : fs.inode.blocks 122 ≠ d :=
    hfresh (.inodeSlot 122) hv122 hb
  have hD : ∀ x, x ≠ fs.inode.blocks 122 → x ≠ d →
      ∀ i, fs'.disk x i = fs.disk x i := by
    intro x hxB hxd i
    show (if x = fs.inode.blocks 122 ∧ i = o / 512 - 122 then d
      else if x = d then 0 else fs.disk x i) = _
    rw [if_neg (fun h => hxB h.1), if_neg hxd]
  have hDB1 : ∀ i, i ≠ o / 512 - 122 →
      fs'.disk (fs.inode.blocks 122) i =
        fs.disk (fs.inode.blocks 122) i := by
    intro i hi
    show (if fs.inode.blocks 122 = fs.inode.blocks 122 ∧
        i = o / 512 - 122 then d
      else if fs.inode.blocks 122 = d then 0 else _) = _
    rw [if_neg (fun h => hi h.2), if_neg hB1d]
  have hDB1i : fs'.disk (fs.inode.blocks 122) (o / 512 - 122) = d := by
    show (if fs.inode.blocks 122 = fs.inode.blocks 122 ∧
        o / 512 - 122 = o / 512 - 122 then d else _) = _
    rw [if_pos ⟨rfl, rfl⟩]
  have h123 : fs.inode.blocks 123 ≠ 0 →
      fs.inode.blocks 123 ≠ fs.inode.blocks 122 ∧
        fs.inode.blocks 123 ≠ d := by
    intro hz
    have hv123 : ValidPos fs (.inodeSlot 123) :=
      (validPos_inodeSlot fs 123).mpr (by omega)
    refine ⟨?_, hfresh (.inodeSlot 123) hv123 hz⟩
    exact hwf.ne_pos hv123 hv122 hz (by intro h; cases h)
  have hchar : ∀ q, ValidPos fs' q →
      (∃ pr, pr ∈ ([(Pos.s1slot (o / 512 - 122), d)] : List (Pos × Nat)) ∧
        q = pr.1 ∧ sectorAt fs' q = pr.2) ∨
      sectorAt fs' q = 0 ∨
      (sectorAt fs' q = sectorAt fs q ∧ ValidPos fs q) := by
    intro q hvq
    cases q with
    | inodeP => exact Or.inr (Or.inr ⟨rfl, trivial⟩)
    | inodeSlot i => exact Or.inr (Or.inr ⟨rfl, hvq⟩)
    | s1slot i =>
      by_cases hi : i = o / 512 - 122
      · refine Or.inl ⟨(Pos.s1slot (o / 512 - 122), d), by simp,
          by rw [hi], ?_⟩
        rw [sectorAt_s1slot]
        show fs'.disk (fs.inode.blocks 122) i = d
        rw [hi, hDB1i]
      · refine Or.inr (Or.inr ⟨?_, hvq⟩)
        rw [sectorAt_s1slot, sectorAt_s1slot]
        show fs'.disk (fs.inode.blocks 122) i = _
        rw [hDB1 i hi]
    | l2 a =>
      obtain ⟨ha, h123'⟩ := (validPos_l2 fs' a).mp hvq
      refine Or.inr (Or.inr ⟨?_, (validPos_l2 fs a).mpr ⟨ha, h123'⟩⟩)
      rw [sectorAt_l2, sectorAt_l2]
      show fs'.disk (fs.inode.blocks 123) a = _
      rw [hD _ (h123 h123').1 (h123 h123').2]
    | l2slot a i =>
      obtain ⟨ha, hi, h123', hQ'⟩ := (validPos_l2slot fs' a i).mp hvq
      have hQeq : fs'.disk (fs.inode.blocks 123) a =
          fs.disk (fs.inode.blocks 123) a :=
        hD _ (h123 h123').1 (h123 h123').2 a
      rw [show fs'.inode.blocks 123 = fs.inode.blocks 123 from rfl,
        hQeq] at hQ'
      have hvl2 : ValidPos fs (.l2 a) := (validPos_l2 fs a).mpr ⟨ha, h123'⟩
      have hQB1 : fs.disk (fs.inode.blocks 123) a ≠
          fs.inode.blocks 122 := by
        have := hwf.ne_pos hvl2 hv122 (by rw [sectorAt_l2]; exact hQ')
          (by intro h; cases h)
        rw [sectorAt_l2, sectorAt_inodeSlot] at this
        exact this
      have hQd : fs.disk (fs.inode.blocks 123) a ≠ d := by
        have := hfresh (.l2 a) hvl2 (by rw [sectorAt_l2]; exact hQ')
        rw [sectorAt_l2] at this
        exact this
      refine Or.inr (Or.inr ⟨?_,
        (validPos_l2slot fs a i).mpr ⟨ha, hi, h123', hQ'⟩⟩)
      rw [sectorAt_l2slot, sectorAt_l2slot]
      show fs'.disk (fs'.disk (fs.inode.blocks 123) a) i = _
      rw [hQeq, hD _ hQB1 hQd]
  have hwf' : WF fs' :=
    WF_of_update hwf rfl rfl [(Pos.s1slot (o / 512 - 122), d)]
      (by
        intro pr hpr
        rw [List.mem_singleton] at hpr
        rw [hpr]
        exact ⟨hd0, hd_lt, hd_clear⟩)
      (by simp)
      (by
        intro j hj
        have hval : m' j = (if j ∈ ([d] : List Nat) then true
            else fs.freeMap j) := by rw [hm']
        show m' j = true
        rw [hval]
        rcases hj with hj | hj
        · simp only [List.map_cons, List.map_nil] at hj
          rw [List.mem_singleton] at hj
          rw [hj]
          simp
        · by_cases hmem : j ∈ ([d] : List Nat)
          · rw [if_pos hmem]
          · rw [if_neg hmem]
            exact hj)
      hchar
  refine ⟨hd0, hwf', ?_, ?_, ?_, rfl, rfl, rfl, rfl, ?_⟩
  · rw [resolve_single (f := fs') h1 h2]
    show (if fs.inode.blocks 122 = 0 then 0
      else fs'.disk (fs.inode.blocks 122) (o / 512 - 122)) = d
    rw [if_neg hb, hDB1i]
  · intro o' ho' hr'
    by_cases hL1 : o' / 512 < 122
    · rw [resolve_direct (f := fs') hL1, resolve_direct (f := fs) hL1]
    · by_cases hL2 : o' / 512 < 246
      · rw [resolve_single (f := fs) (by omega) hL2] at hr'
        rw [resolve_single (f := fs') (by omega) hL2,
          resolve_single (f := fs) (by omega) hL2]
        rw [if_neg hb] at hr'
        rw [show fs'.inode.blocks 122 = fs.inode.blocks 122 from rfl]
        rw [if_neg hb, if_neg hb]
        by_cases hi : o' / 512 - 122 = o / 512 - 122
        · rw [hi] at hr'
          rw [hc] at hr'
          exact absurd rfl hr'
        · exact hDB1 _ hi
      · rw [resolve_double (f := fs) (by omega)] at hr'
        rw [resolve_double (f := fs') (by omega),
          resolve_double (f := fs) (by omega)]
        rw [show fs'.inode.blocks 123 = fs.inode.blocks 123 from rfl]
        by_cases hz : fs.inode.blocks 123 = 0
        · rw [if_pos hz] at hr'
          exact absurd rfl hr'
        · rw [if_neg hz] at hr'
          rw [if_neg hz, if_neg hz]
          rw [hD _ (h123 hz).1 (h123 hz).2]
          by_cases hq : fs.disk (fs.inode.blocks 123)
              ((o' / 512 - 244) / 124) = 0
          · rw [if_pos hq] at hr'
            exact absurd rfl hr'
          · rw [if_neg hq] at hr'
            rw [if_neg hq, if_neg hq]
            have ha' : (o' / 512 - 244) / 124 ≤ 124 := by
              rw [max_file_bytes_eq] at ho'
              omega
            have hvl2 : ValidPos fs (.l2 ((o' / 512 - 244) / 124)) :=
              (validPos_l2 fs _).mpr ⟨ha', hz⟩
            have hQB1 : fs.disk (fs.inode.blocks 123)
                ((o' / 512 - 244) / 124) ≠ fs.inode.blocks 122 := by
              have := hwf.ne_pos hvl2 hv122
                (by rw [sectorAt_l2]; exact hq) (by intro h; cases h)
              rw [sectorAt_l2, sectorAt_inodeSlot] at this
              exact this
            have hQd : fs.disk (fs.inode.blocks 123)
                ((o' / 512 - 244) / 124) ≠ d := by
              have := hfresh (.l2 _) hvl2 (by rw [sectorAt_l2]; exact hq)
              rw [sectorAt_l2] at this
              exact this
            rw [hD _ hQB1 hQd]
  · intro o' ho' hr' i
    obtain ⟨he, hv⟩ := resolve_dataPos ho' hr'
    have hsd : resolve fs o' ≠ d := by
      rw [he]
      exact hfresh _ hv (by rw [← he]; exact hr')
    have hsB1 : resolve fs o' ≠ fs.inode.blocks 122 := by
      rw [he]
      have := hwf.ne_pos hv hv122 (by rw [← he]; exact hr')
        (dataPos_ne_inodeSlot_ge (by omega))
      rw [sectorAt_inodeSlot] at this
      exact this
    exact hD _ hsB1 hsd i
  · have hcc := clearCountOf_set_list (n := fs.fmSize) [d]
      fs.freeMap (by simp)
      (by
        intro s hs
        rw [List.mem_singleton] at hs
        rw [hs]
        exact ⟨hd_clear, hd_lt⟩)
    rw [clearCount_eq, clearCount_eq]
    show clearCountOf fs.fmSize fs.freeMap ≤
      clearCountOf fs.fmSize m' + 3
    rw [hm']
    simp only [List.length_cons, List.length_nil] at hcc
    omega

lemma gds_post_double_alloc1 {fs : FS} {o : Nat} {m' : Nat → Bool}
    {d : Nat} (hwf : WF fs) (ho : o < MAX_FILE_BYTES)
    (h : 246 ≤ o / 512)
    (hb : fs.inode.blocks 123 ≠ 0)
    (hc1 : fs.disk (fs.inode.blocks 123) ((o / 512 - 244) / 124) ≠ 0)
    (hc2 : fs.disk (fs.disk (fs.inode.blocks 123) ((o / 512 - 244) / 124))
      ((o / 512 - 244) % 124) = 0)
    (hd_clear : fs.freeMap d = false) (hd_lt : d < fs.fmSize)
    (hm' : m' = fun j => if j ∈ ([d] : List Nat) then true
      else fs.freeMap j) :
    WritePost fs
      { fs with
        freeMap := m',
        disk := fun s i =>
          if s = fs.disk (fs.inode.blocks 123) ((o / 512 - 244) / 124) ∧
              i = (o / 512 - 244) % 124 then d
          else if s = d then 0
          else fs.disk s i }
      o d := by
  set A := (o / 512 - 244) / 124 with hA
  set B := (o / 512 - 244) % 124 with hB
  set P := fs.disk (fs.inode.blocks 123) A with hP
  set fs' : FS :=
    { fs with
      freeMap := m',
      disk := fun s i =>
        if s = fs.disk (fs.inode.blocks 123) ((o / 512 - 244) / 124) ∧
            i = (o / 512 - 244) % 124 then d
        else if s = d then 0
        else fs.disk s i }
    with hfs'
  have hAle : A ≤ 124 := by
    rw [hA, max_file_bytes_eq] at *
    omega
  have hd0 : d ≠ 0 := hwf.fresh_ne_zero hd_clear
  have hfresh := hwf.fresh_ne hd_clear
  have hv123 : ValidPos fs (.inodeSlot 123) :=
    (validPos_inodeSlot fs 123).mpr (by omega)
  have hv122 : ValidPos fs (.inodeSlot 122) :=
    (validPos_inodeSlot fs 122).mpr (by omega)
  have hvlA : ValidPos fs (.l2 A) := (validPos_l2 fs A).mpr ⟨hAle, hb⟩
  have hPsect : sectorAt fs (.l2 A) = P := by rw [sectorAt_l2, hP]
  have hPd : P ≠ d := by
    have := hfresh (.l2 A) hvlA (by rw [hPsect]; exact hc1)
    rw [hPsect] at this
    exact this
  have hD : ∀ x, x ≠ P → x ≠ d → ∀ i, fs'.disk x i = fs.disk x i := by
    intro x hxP hxd i
    show (if x = fs.disk (fs.inode.blocks 123) ((o / 512 - 244) / 124) ∧
        i = (o / 512 - 244) % 124 then d
      else if x = d then 0 else fs.disk x i) = _
    rw [if_neg (fun hh => hxP (by rw [hP, hA]; exact hh.1)),
      if_neg hxd]
  have hDP : ∀ i, i ≠ B → fs'.disk P i = fs.disk P i := by
    intro i hi
    show (if P = fs.disk (fs.inode.blocks 123) ((o / 512 - 244) / 124) ∧
        i = (o / 512 - 244) % 124 then d
      else if P = d then 0 else fs.disk P i) = _
    rw [if_neg (fun hh => hi (by rw [hB]; exact hh.2)), if_neg hPd]
  have hDPB : fs'.disk P B = d := by
    show (if P = fs.disk (fs.inode.blocks 123) ((o / 512 - 244) / 124) ∧
        B = (o / 512 - 244) % 124 then d else _) = _
    rw [if_pos ⟨by rw [hP, hA], by rw [hB]⟩]
  have h123P : fs.inode.blocks 123 ≠ P := by
    have := hwf.ne_pos hv123 hvlA hb (by intro hh; cases hh)
    rw [sectorAt_inodeSlot, hPsect] at this
    exact this
  have h123d : fs.inode.blocks 123 ≠ d := hfresh (.inodeSlot 123) hv123 hb
  have h122 : fs.inode.blocks 122 ≠ 0 →
      fs.inode.blocks 122 ≠ P ∧ fs.inode.blocks 122 ≠ d := by
    intro hz
    refine ⟨?_, hfresh (.inodeSlot 122) hv122 hz⟩
    have := hwf.ne_pos hv122 hvlA hz (by intro hh; cases hh)
    rw [sectorAt_inodeSlot, hPsect] at this
    exact this
  have hQa : ∀ a, a ≤ 124 → a ≠ A → fs.disk (fs.inode.blocks 123) a ≠ 0 →
      fs.disk (fs.inode.blocks 123) a ≠ P ∧
        fs.disk (fs.inode.blocks 123) a ≠ d := by
    intro a ha hne hz
    have hvla : ValidPos fs (.l2 a) := (validPos_l2 fs a).mpr ⟨ha, hb⟩
    constructor
    · have := hwf.ne_pos hvla hvlA (by rw [sectorAt_l2]; exact hz)
        (by intro hh; cases hh; exact hne rfl)
      rw [sectorAt_l2, hPsect] at this
      exact this
    · have := hfresh (.l2 a) hvla (by rw [sectorAt_l2]; exact hz)
      rw [sectorAt_l2] at this
      exact this
  have hchar : ∀ q, ValidPos fs' q →
      (∃ pr, pr ∈ ([(Pos.l2slot A B, d)] : List (Pos × Nat)) ∧
        q = pr.1 ∧ sectorAt fs' q = pr.2) ∨
      sectorAt fs' q = 0 ∨
      (sectorAt fs' q = sectorAt fs q ∧ ValidPos fs q) := by
    intro q hvq
    cases q with
    | inodeP => exact Or.inr (Or.inr ⟨rfl, trivial⟩)
    | inodeSlot i => exact Or.inr (Or.inr ⟨rfl, hvq⟩)
    | s1slot i =>
      obtain ⟨hi, h122'⟩ := (validPos_s1slot fs' i).mp hvq
      refine Or.inr (Or.inr ⟨?_, (validPos_s1slot fs i).mpr ⟨hi, h122'⟩⟩)
      rw [sectorAt_s1slot, sectorAt_s1slot]
      show fs'.disk (fs.inode.blocks 122) i = _
      rw [hD _ (h122 h122').1 (h122 h122').2]
    | l2 a =>
      obtain ⟨ha, h123'⟩ := (validPos_l2 fs' a).mp hvq
      refine Or.inr (Or.inr ⟨?_, (validPos_l2 fs a).mpr ⟨ha, h123'⟩⟩)
      rw [sectorAt_l2, sectorAt_l2]
      show fs'.disk (fs.inode.blocks 123) a = _
      rw [hD _ h123P h123d]
    | l2slot a i =>
      obtain ⟨ha, hi, h123', hQ'⟩ := (validPos_l2slot fs' a i).mp hvq
      have hQeq : fs'.disk (fs.inode.blocks 123) a =
          fs.disk (fs.inode.blocks 123) a := hD _ h123P h123d a
      rw [show fs'.inode.blocks 123 = fs.inode.blocks 123 from rfl,
        hQeq] at hQ'
      by_cases haA : a = A
      · by_cases hiB : i = B
        · refine Or.inl ⟨(Pos.l2slot A B, d), by simp,
            by rw [haA, hiB], ?_⟩
          rw [sectorAt_l2slot]
          show fs'.disk (fs'.disk (fs.inode.blocks 123) a) i = d
          rw [hQeq, haA, hiB, ← hP, hDPB]
        · refine Or.inr (Or.inr ⟨?_,
            (validPos_l2slot fs a i).mpr ⟨ha, hi, h123', hQ'⟩⟩)
          rw [sectorAt_l2slot, sectorAt_l2slot]
          show fs'.disk (fs'.disk (fs.inode.blocks 123) a) i = _
          rw [hQeq, haA, ← hP, hDP i hiB]
      · refine Or.inr (Or.inr ⟨?_,
          (validPos_l2slot fs a i).mpr ⟨ha, hi, h123', hQ'⟩⟩)
        rw [sectorAt_l2slot, sectorAt_l2slot]
        show fs'.disk (fs'.disk (fs.inode.blocks 123) a) i = _
        rw [hQeq, hD _ (hQa a ha haA hQ').1 (hQa a ha haA hQ').2]
  have hwf' : WF fs' :=
    WF_of_update hwf rfl rfl [(Pos.l2slot A B, d)]
      (by
        intro pr hpr
        rw [List.mem_singleton] at hpr
        rw [hpr]
        exact ⟨hd0, hd_lt, hd_clear⟩)
      (by simp)
      (by
        intro j hj
        have hval : m' j = (if j ∈ ([d] : List Nat) then true
            else fs.freeMap j) := by rw [hm']
        show m' j = true
        rw [hval]
        rcases hj with hj | hj
        · simp only [List.map_cons, List.map_nil] at hj
          rw [List.mem_singleton] at hj
          rw [hj]
          simp
        · by_cases hmem : j ∈ ([d] : List Nat)
          · rw [if_pos hmem]
          · rw [if_neg hmem]
            exact hj)
      hchar
  refine ⟨hd0, hwf', ?_, ?_, ?_, rfl, rfl, rfl, rfl, ?_⟩
  · rw [resolve_double (f := fs') h]
    show (if fs.inode.blocks 123 = 0 then 0
      else if fs'.disk (fs.inode.blocks 123) ((o / 512 - 244) / 124) = 0
        then 0
      else fs'.disk (fs'.disk (fs.inode.blocks 123) ((o / 512 - 244) / 124))
        ((o / 512 - 244) % 124)) = d
    rw [if_neg hb, hD _ h123P h123d, ← hA, ← hP, if_neg hc1, ← hB, hDPB]
  · intro o' ho' hr'
    by_cases hL1 : o' / 512 < 122
    · rw [resolve_direct (f := fs') hL1, resolve_direct (f := fs) hL1]
    · by_cases hL2 : o' / 512 < 246
      · rw [resolve_single (f := fs) (by omega) hL2] at hr'
        rw [resolve_single (f := fs') (by omega) hL2,
          resolve_single (f := fs) (by omega) hL2]
        by_cases hz : fs.inode.blocks 122 = 0
        · rw [if_pos hz] at hr'
          exact absurd rfl hr'
        · rw [show fs'.inode.blocks 122 = fs.inode.blocks 122 from rfl]
          rw [if_neg hz, if_neg hz]
          exact hD _ (h122 hz).1 (h122 hz).2 _
      · rw [resolve_double (f := fs) (by omega)] at hr'
        rw [resolve_double (f := fs') (by omega),
          resolve_double (f := fs) (by omega)]
        rw [show fs'.inode.blocks 123 = fs.inode.blocks 123 from rfl]
        by_cases hz : fs.inode.blocks 123 = 0
        · rw [if_pos hz] at hr'
          exact absurd rfl hr'
        · rw [if_neg hz] at hr'
          rw [if_neg hz, if_neg hz]
          rw [hD _ h123P h123d]
          by_cases hq : fs.disk (fs.inode.blocks 123)
              ((o' / 512 - 244) / 124) = 0
          · rw [if_pos hq] at hr'
            exact absurd rfl hr'
          · rw [if_neg hq] at hr'
            rw [if_neg hq, if_neg hq]
            have ha' : (o' / 512 - 244) / 124 ≤ 124 := by
              rw [max_file_bytes_eq] at ho'
              omega
            by_cases haA : (o' / 512 - 244) / 124 = A
            · rw [haA, ← hP]
              by_cases hiB : (o' / 512 - 244) % 124 = B
              · rw [haA, ← hP, hiB, hB] at hr'
                rw [← hB] at hr'
                rw [hc2] at hr'
                exact absurd rfl hr'
              · exact hDP _ hiB
            · exact hD _ (hQa _ ha' haA hq).1 (hQa _ ha' haA hq).2 _
  · intro o' ho' hr' i
    obtain ⟨he, hv⟩ := resolve_dataPos ho' hr'
    have hsd : resolve fs o' ≠ d := by
      rw [he]
      exact hfresh _ hv (by rw [← he]; exact hr')
    have hsP : resolve fs o' ≠ P := by
      rw [he]
      have := hwf.ne_pos hv hvlA (by rw [← he]; exact hr') dataPos_ne_l2
      rw [hPsect] at this
      exact this
    exact hD _ hsP hsd i
  · have hcc := clearCountOf_set_list (n := fs.fmSize) [d]
      fs.freeMap (by simp)
      (by
        intro s hs
        rw [List.mem_singleton] at hs
        rw [hs]
        exact ⟨hd_clear, hd_lt⟩)
    rw [clearCount_eq, clearCount_eq]
    show clearCountOf fs.fmSize fs.freeMap ≤
      clearCountOf fs.fmSize m' + 3
    rw [hm']
    simp only [List.length_cons, List.length_nil] at hcc
    omega

lemma gds_post_double_alloc2 {fs : FS} {o : Nat} {m' : Nat → Bool}
    {d p1 : Nat} (hwf : WF fs) (ho : o < MAX_FILE_BYTES)
    (h : 246 ≤ o / 512)
    (hb : fs.inode.blocks 123 ≠ 0)
    (hc : fs.disk (fs.inode.blocks 123) ((o / 512 - 244) / 124) = 0)
    (hd_clear : fs.freeMap d = false) (hd_lt : d < fs.fmSize)
    (hp_clear : fs.freeMap p1 = false) (hp_lt : p1 < fs.fmSize)
    (hdp : d ≠ p1)
    (hm' : m' = fun j => if j ∈ ([d, p1] : List Nat) then true
      else fs.freeMap j) :
    WritePost fs
      { fs with
        freeMap := m',
        disk := fun s i =>
          if s = fs.inode.blocks 123 ∧ i = (o / 512 - 244) / 124 then p1
          else if s = p1 ∧ i = (o / 512 - 244) % 124 then d
          else if s = p1 then 0
          else if s = d then 0
          else fs.disk s i }
      o d := by
  set A := (o / 512 - 244) / 124 with hA
  set B := (o / 512 - 244) % 124 with hB
  set fs' : FS :=
    { fs with
      freeMap := m',
      disk := fun s i =>
        if s = fs.inode.blocks 123 ∧ i = (o / 512 - 244) / 124 then p1
        else if s = p1 ∧ i = (o / 512 - 244) % 124 then d
        else if s = p1 then 0
        else if s = d then 0
        else fs.disk s i }
    with hfs'
  have hAle : A ≤ 124 := by
    rw [hA, max_file_bytes_eq] at *
    omega
  have hd0 : d ≠ 0 := hwf.fresh_ne_zero hd_clear
  have hp0 : p1 ≠ 0 := hwf.fresh_ne_zero hp_clear
  have hfresh2 : ∀ q, ValidPos fs q → sectorAt fs q ≠ 0 →
      sectorAt fs q ≠ d ∧ sectorAt fs q ≠ p1 :=
    fun q hv hz => ⟨hwf.fresh_ne hd_clear q hv hz,
      hwf.fresh_ne hp_clear q hv hz⟩
  have hv123 : ValidPos fs (.inodeSlot 123) :=
    (validPos_inodeSlot fs 123).mpr (by omega)
  have hv122 : ValidPos fs (.inodeSlot 122) :=
    (validPos_inodeSlot fs 122).mpr (by omega)
  have h123fr : fs.inode.blocks 123 ≠ d ∧ fs.inode.blocks 123 ≠ p1 := by
    have := hfresh2 (.inodeSlot 123) hv123 hb
    rw [sectorAt_inodeSlot] at this
    exact this
  have h123p1 : p1 ≠ fs.inode.blocks 123 := fun hh => h123fr.2 hh.symm
  have hdB123 : d ≠ fs.inode.blocks 123 := fun hh => h123fr.1 hh.symm
  have hD : ∀ x, x ≠ fs.inode.blocks 123 → x ≠ p1 → x ≠ d →
      ∀ i, fs'.disk x i = fs.disk x i := by
    intro x hx123 hxp hxd i
    show (if x = fs.inode.blocks 123 ∧ i = (o / 512 - 244) / 124 then p1
      else if x = p1 ∧ i = (o / 512 - 244) % 124 then d
      else if x = p1 then 0
      else if x = d then 0
      else fs.disk x i) = _
    rw [if_neg (fun hh => hx123 hh.1), if_neg (fun hh => hxp hh.1),
      if_neg hxp, if_neg hxd]
  have hD123 : ∀ i, i ≠ A →
      fs'.disk (fs.inode.blocks 123) i =
        fs.disk (fs.inode.blocks 123) i := by
    intro i hi
    show (if fs.inode.blocks 123 = fs.inode.blocks 123 ∧
        i = (o / 512 - 244) / 124 then p1
      else if fs.inode.blocks 123 = p1 ∧ i = (o / 512 - 244) % 124 then d
      else if fs.inode.blocks 123 = p1 then 0
      else if fs.inode.blocks 123 = d then 0
      else _) = _
    rw [if_neg (fun hh => hi (by rw [hA]; exact hh.2)),
      if_neg (fun hh => h123fr.2 hh.1), if_neg h123fr.2,
      if_neg h123fr.1]
  have hD123A : fs'.disk (fs.inode.blocks 123) A = p1 := by
    show (if fs.inode.blocks 123 = fs.inode.blocks 123 ∧
        A = (o / 512 - 244) / 124 then p1 else _) = _
    rw [if_pos ⟨rfl, by rw [hA]⟩]
  have hDp1 : ∀ i, fs'.disk p1 i = if i = B then d else 0 := by
    intro i
    by_cases hi : i = B
    · show (if p1 = fs.inode.blocks 123 ∧ i = (o / 512 - 244) / 124 then p1
        else if p1 = p1 ∧ i = (o / 512 - 244) % 124 then d
        else _) = _
      rw [if_neg (fun hh => h123p1 hh.1),
        if_pos ⟨rfl, by rw [← hB]; exact hi⟩, if_pos hi]
    · show (if p1 = fs.inode.blocks 123 ∧ i = (o / 512 - 244) / 124 then p1
        else if p1 = p1 ∧ i = (o / 512 - 244) % 124 then d
        else if p1 = p1 then 0
        else _) = _
      rw [if_neg (fun hh => h123p1 hh.1),
        if_neg (fun hh => hi (by rw [hB]; exact hh.2)),
        if_pos rfl, if_neg hi]
  have h122 : fs.inode.blocks 122 ≠ 0 →
      fs.inode.blocks 122 ≠ fs.inode.blocks 123 ∧
      fs.inode.blocks 122 ≠ p1 ∧ fs.inode.blocks 122 ≠ d := by
    intro hz
    have hne := hwf.ne_pos hv122 hv123 hz (by intro hh; cases hh)
    rw [sectorAt_inodeSlot, sectorAt_inodeSlot] at hne
    have := hfresh2 (.inodeSlot 122) hv122 hz
    rw [sectorAt_inodeSlot] at this
    exact ⟨hne, this.2, this.1⟩
  have hQa : ∀ a, a ≤ 124 → fs.disk (fs.inode.blocks 123) a ≠ 0 →
      fs.disk (fs.inode.blocks 123) a ≠ fs.inode.blocks 123 ∧
      fs.disk (fs.inode.blocks 123) a ≠ p1 ∧
      fs.disk (fs.inode.blocks 123) a ≠ d := by
    intro a ha hz
    have hvla : ValidPos fs (.l2 a) := (validPos_l2 fs a).mpr ⟨ha, hb⟩
    have hne := hwf.ne_pos hvla hv123 (by rw [sectorAt_l2]; exact hz)
      (by intro hh; cases hh)
    rw [sectorAt_l2, sectorAt_inodeSlot] at hne
    have hfr := hfresh2 (.l2 a) hvla (by rw [sectorAt_l2]; exact hz)
    rw [sectorAt_l2] at hfr
    exact ⟨hne, hfr.2, hfr.1⟩
  have hchar : ∀ q, ValidPos fs' q →
      (∃ pr, pr ∈ ([(Pos.l2 A, p1), (Pos.l2slot A B, d)] :
          List (Pos × Nat)) ∧
        q = pr.1 ∧ sectorAt fs' q = pr.2) ∨
      sectorAt fs' q = 0 ∨
      (sectorAt fs' q = sectorAt fs q ∧ ValidPos fs q) := by
    intro q hvq
    cases q with
    | inodeP => exact Or.inr (Or.inr ⟨rfl, trivial⟩)
    | inodeSlot i => exact Or.inr (Or.inr ⟨rfl, hvq⟩)
    | s1slot i =>
      obtain ⟨hi, h122'⟩ := (validPos_s1slot fs' i).mp hvq
      refine Or.inr (Or.inr ⟨?_, (validPos_s1slot fs i).mpr ⟨hi, h122'⟩⟩)
      rw [sectorAt_s1slot, sectorAt_s1slot]
      show fs'.disk (fs.inode.blocks 122) i = _
      rw [hD _ (h122 h122').1 (h122 h122').2.1 (h122 h122').2.2]
    | l2 a =>
      obtain ⟨ha, h123'⟩ := (validPos_l2 fs' a).mp hvq
      by_cases haA : a = A
      · refine Or.inl ⟨(Pos.l2 A, p1), by simp, by rw [haA], ?_⟩
        rw [sectorAt_l2]
        show fs'.disk (fs.inode.blocks 123) a = p1
        rw [haA, hD123A]
      · refine Or.inr (Or.inr ⟨?_, (validPos_l2 fs a).mpr ⟨ha, h123'⟩⟩)
        rw [sectorAt_l2, sectorAt_l2]
        show fs'.disk (fs.inode.blocks 123) a = _
        rw [hD123 a haA]
    | l2slot a i =>
      obtain ⟨ha, hi, h123', hQ'⟩ := (validPos_l2slot fs' a i).mp hvq
      by_cases haA : a = A
      · by_cases hiB : i = B
        · refine Or.inl ⟨(Pos.l2slot A B, d), by simp,
            by rw [haA, hiB], ?_⟩
          rw [sectorAt_l2slot]
          show fs'.disk (fs'.disk (fs.inode.blocks 123) a) i = d
          rw [haA, hD123A, hDp1, if_pos hiB]
        · refine Or.inr (Or.inl ?_)
          rw [sectorAt_l2slot]
          show fs'.disk (fs'.disk (fs.inode.blocks 123) a) i = 0
          rw [haA, hD123A, hDp1, if_neg hiB]
      · have hQeq : fs'.disk (fs.inode.blocks 123) a =
            fs.disk (fs.inode.blocks 123) a := hD123 a haA
        rw [show fs'.inode.blocks 123 = fs.inode.blocks 123 from rfl,
          hQeq] at hQ'
        refine Or.inr (Or.inr ⟨?_,
          (validPos_l2slot fs a i).mpr ⟨ha, hi, h123', hQ'⟩⟩)
        rw [sectorAt_l2slot, sectorAt_l2slot]
        show fs'.disk (fs'.disk (fs.inode.blocks 123) a) i = _
        rw [hQeq, hD _ (hQa a ha hQ').1 (hQa a ha hQ').2.1
          (hQa a ha hQ').2.2]
  have hwf' : WF fs' :=
    WF_of_update hwf rfl rfl [(Pos.l2 A, p1), (Pos.l2slot A B, d)]
      (by
        intro pr hpr
        rcases List.mem_cons.mp hpr with rfl | hpr
        · exact ⟨hp0, hp_lt, hp_clear⟩
        · rw [List.mem_singleton] at hpr
          rw [hpr]
          exact ⟨hd0, hd_lt, hd_clear⟩)
      (by simp [Ne.symm hdp])
      (by
        intro j hj
        have hval : m' j = (if j ∈ ([d, p1] : List Nat) then true
            else fs.freeMap j) := by rw [hm']
        show m' j = true
        rw [hval]
        rcases hj with hj | hj
        · simp only [List.map_cons, List.map_nil] at hj
          rcases List.mem_cons.mp hj with rfl | hj
          · simp
          · rw [List.mem_singleton] at hj
            rw [hj]
            simp
        · by_cases hmem : j ∈ ([d, p1] : List Nat)
          · rw [if_pos hmem]
          · rw [if_neg hmem]
            exact hj)
      hchar
  refine ⟨hd0, hwf', ?_, ?_, ?_, rfl, rfl, rfl, rfl, ?_⟩
  · rw [resolve_double (f := fs') h]
    show (if fs.inode.blocks 123 = 0 then 0
      else if fs'.disk (fs.inode.blocks 123) ((o / 512 - 244) / 124) = 0
        then 0
      else fs'.disk (fs'.disk (fs.inode.blocks 123) ((o / 512 - 244) / 124))
        ((o / 512 - 244) % 124)) = d
    rw [if_neg hb, ← hA, hD123A, if_neg hp0, hDp1, hB, if_pos rfl]
  · intro o' ho' hr'
    by_cases hL1 : o' / 512 < 122
    · rw [resolve_direct (f := fs') hL1, resolve_direct (f := fs) hL1]
    · by_cases hL2 : o' / 512 < 246
      · rw [resolve_single (f := fs) (by omega) hL2] at hr'
        rw [resolve_single (f := fs') (by omega) hL2,
          resolve_single (f := fs) (by omega) hL2]
        by_cases hz : fs.inode.blocks 122 = 0
        · rw [if_pos hz] at hr'
          exact absurd rfl hr'
        · rw [show fs'.inode.blocks 122 = fs.inode.blocks 122 from rfl]
          rw [if_neg hz, if_neg hz]
          exact hD _ (h122 hz).1 (h122 hz).2.1 (h122 hz).2.2 _
      · rw [resolve_double (f := fs) (by omega)] at hr'
        rw [resolve_double (f := fs') (by omega),
          resolve_double (f := fs) (by omega)]
        rw [show fs'.inode.blocks 123 = fs.inode.blocks 123 from rfl]
        rw [if_neg hb] at hr'
        rw [if_neg hb, if_neg hb]
        by_cases haA : (o' / 512 - 244) / 124 = A
        · rw [haA, hc] at hr'
          rw [if_pos rfl] at hr'
          exact absurd rfl hr'
        · rw [hD123 _ haA]
          by_cases hq : fs.disk (fs.inode.blocks 123)
              ((o' / 512 - 244) / 124) = 0
          · rw [if_pos hq] at hr'
            exact absurd rfl hr'
          · rw [if_neg hq] at hr'
            rw [if_neg hq, if_neg hq]
            have ha' : (o' / 512 - 244) / 124 ≤ 124 := by
              rw [max_file_bytes_eq] at ho'
              omega
            exact hD _ (hQa _ ha' hq).1 (hQa _ ha' hq).2.1
              (hQa _ ha' hq).2.2 _
  · intro o' ho' hr' i
    obtain ⟨he, hv⟩ := resolve_dataPos ho' hr'
    have hfr := hfresh2 _ hv (by rw [← he]; exact hr')
    rw [← he] at hfr
    have hs123 : resolve fs o' ≠ fs.inode.blocks 123 := by
      rw [he]
      have := hwf.ne_pos hv hv123 (by rw [← he]; exact hr')
        (dataPos_ne_inodeSlot_ge (by omega))
      rw [sectorAt_inodeSlot] at this
      exact this
    exact hD _ hs123 hfr.2 hfr.1 i
  · have hcc := clearCountOf_set_list (n := fs.fmSize) [d, p1]
      fs.freeMap (by simp [hdp])
      (by
        intro s hs
        rcases List.mem_cons.mp hs with rfl | hs
        · exact ⟨hd_clear, hd_lt⟩
        · rw [List.mem_singleton] at hs
          rw [hs]
          exact ⟨hp_clear, hp_lt⟩)
    rw [clearCount_eq, clearCount_eq]
    show clearCountOf fs.fmSize fs.freeMap ≤
      clearCountOf fs.fmSize m' + 3
    rw [hm']
    simp only [List.length_cons, List.length_nil] at hcc
    omega

lemma gds_post_double_alloc3 {fs : FS} {o : Nat} {m' : Nat → Bool}
    {d p1 p2 : Nat} (hwf : WF fs)
    (h : 246 ≤ o / 512)
    (hb : fs.inode.blocks 123 = 0)
    (hd_clear : fs.freeMap d = false) (hd_lt : d < fs.fmSize)
    (hp1_clear : fs.freeMap p1 = false) (hp1_lt : p1 < fs.fmSize)
    (hp2_clear : fs.freeMap p2 = false) (hp2_lt : p2 < fs.fmSize)
    (hdp1 : d ≠ p1) (hdp2 : d ≠ p2) (hp12 : p1 ≠ p2)
    (hm' : m' = fun j => if j ∈ ([d, p1, p2] : List Nat) then true
      else fs.freeMap j) :
    WritePost fs
      { fs with
        freeMap := m',
        disk := fun s i =>
          if s = p2 ∧ i = (o / 512 - 244) / 124 then p1
          else if s = p2 then 0
          else if s = p1 ∧ i = (o / 512 - 244) % 124 then d
          else if s = p1 then 0
          else if s = d then 0
          else fs.disk s i,
        inode := { fs.inode with blocks :=
          fun i => if i = 123 then p2 else fs.inode.blocks i } }
      o d := by
  set A := (o / 512 - 244) / 124 with hA
  set B := (o / 512 - 244) % 124 with hB
  set fs' : FS :=
    { fs with
      freeMap := m',
      disk := fun s i =>
        if s = p2 ∧ i = (o / 512 - 244) / 124 then p1
        else if s = p2 then 0
        else if s = p1 ∧ i = (o / 512 - 244) % 124 then d
        else if s = p1 then 0
        else if s = d then 0
        else fs.disk s i,
      inode := { fs.inode with blocks :=
        fun i => if i = 123 then p2 else fs.inode.blocks i } }
    with hfs'
  have hd0 : d ≠ 0 := hwf.fresh_ne_zero hd_clear
  have hp10 : p1 ≠ 0 := hwf.fresh_ne_zero hp1_clear
  have hp20 : p2 ≠ 0 := hwf.fresh_ne_zero hp2_clear
  have hfresh3 : ∀ q, ValidPos fs q → sectorAt fs q ≠ 0 →
      sectorAt fs q ≠ d ∧ sectorAt fs q ≠ p1 ∧ sectorAt fs q ≠ p2 :=
    fun q hv hz => ⟨hwf.fresh_ne hd_clear q hv hz,
      hwf.fresh_ne hp1_clear q hv hz, hwf.fresh_ne hp2_clear q hv hz⟩
  have hB123 : fs'.inode.blocks 123 = p2 := by
    show (if 123 = 123 then p2 else fs.inode.blocks 123) = p2
    rw [if_pos rfl]
  have hBi : ∀ i, i ≠ 123 → fs'.inode.blocks i = fs.inode.blocks i := by
    intro i hi
    show (if i = 123 then p2 else _) = _
    rw [if_neg hi]
  have hD : ∀ x, x ≠ p2 → x ≠ p1 → x ≠ d →
      ∀ i, fs'.disk x i = fs.disk x i := by
    intro x h2 h1 hd i
    show (if x = p2 ∧ i = (o / 512 - 244) / 124 then p1
      else if x = p2 then 0
      else if x = p1 ∧ i = (o / 512 - 244) % 124 then d
      else if x = p1 then 0
      else if x = d then 0
      else fs.disk x i) = _
    rw [if_neg (fun hh => h2 hh.1), if_neg h2,
      if_neg (fun hh => h1 hh.1), if_neg h1, if_neg hd]
  have hDp2 : ∀ a, fs'.disk p2 a = if a = A then p1 else 0 := by
    intro a
    by_cases ha : a = A
    · show (if p2 = p2 ∧ a = (o / 512 - 244) / 124 then p1 else _) = _
      rw [if_pos ⟨rfl, by rw [← hA]; exact ha⟩, if_pos ha]
    · show (if p2 = p2 ∧ a = (o / 512 - 244) / 124 then p1
        else if p2 = p2 then 0 else _) = _
      rw [if_neg (fun hh => ha (by rw [hA]; exact hh.2)), if_pos rfl,
        if_neg ha]
  have hDp1 : ∀ i, fs'.disk p1 i = if i = B then d else 0 := by
    intro i
    by_cases hi : i = B
    · show (if p1 = p2 ∧ i = (o / 512 - 244) / 124 then p1
        else if p1 = p2 then 0
        else if p1 = p1 ∧ i = (o / 512 - 244) % 124 then d
        else _) = _
      rw [if_neg (fun hh => hp12 hh.1), if_neg hp12,
        if_pos ⟨rfl, by rw [← hB]; exact hi⟩, if_pos hi]
    · show (if p1 = p2 ∧ i = (o / 512 - 244) / 124 then p1
        else if p1 = p2 then 0
        else if p1 = p1 ∧ i = (o / 512 - 244) % 124 then d
        else if p1 = p1 then 0
        else _) = _
      rw [if_neg (fun hh => hp12 hh.1), if_neg hp12,
        if_neg (fun hh => hi (by rw [hB]; exact hh.2)), if_pos rfl,
        if_neg hi]
  have hv122 : ValidPos fs (.inodeSlot 122) :=
    (validPos_inodeSlot fs 122).mpr (by omega)
  have h122 : fs.inode.blocks 122 ≠ 0 →
      fs.inode.blocks 122 ≠ p2 ∧ fs.inode.blocks 122 ≠ p1 ∧
        fs.inode.blocks 122 ≠ d := by
    intro hz
    have := hfresh3 (.inodeSlot 122) hv122 hz
    rw [sectorAt_inodeSlot] at this
    exact ⟨this.2.2, this.2.1, this.1⟩
  have hchar : ∀ q, ValidPos fs' q →
      (∃ pr, pr ∈ ([(Pos.inodeSlot 123, p2), (Pos.l2 A, p1),
          (Pos.l2slot A B, d)] : List (Pos × Nat)) ∧
        q = pr.1 ∧ sectorAt fs' q = pr.2) ∨
      sectorAt fs' q = 0 ∨
      (sectorAt fs' q = sectorAt fs q ∧ ValidPos fs q) := by
    intro q hvq
    cases q with
    | inodeP => exact Or.inr (Or.inr ⟨rfl, trivial⟩)
    | inodeSlot i =>
      by_cases hi : i = 123
      · refine Or.inl ⟨(Pos.inodeSlot 123, p2), by simp, by rw [hi], ?_⟩
        rw [sectorAt_inodeSlot, hi, hB123]
      · refine Or.inr (Or.inr ⟨?_, hvq⟩)
        rw [sectorAt_inodeSlot, sectorAt_inodeSlot, hBi i hi]
    | s1slot i =>
      obtain ⟨hi, h122'⟩ := (validPos_s1slot fs' i).mp hvq
      rw [hBi 122 (by omega)] at h122'
      refine Or.inr (Or.inr ⟨?_, (validPos_s1slot fs i).mpr ⟨hi, h122'⟩⟩)
      rw [sectorAt_s1slot, sectorAt_s1slot, hBi 122 (by omega),
        hD _ (h122 h122').1 (h122 h122').2.1 (h122 h122').2.2]
    | l2 a =>
      by_cases ha : a = A
      · refine Or.inl ⟨(Pos.l2 A, p1), by simp, by rw [ha], ?_⟩
        rw [sectorAt_l2, hB123, hDp2, if_pos ha]
      · refine Or.inr (Or.inl ?_)
        rw [sectorAt_l2, hB123, hDp2, if_neg ha]
    | l2slot a i =>
      obtain ⟨ha, hi, h123', hQ'⟩ := (validPos_l2slot fs' a i).mp hvq
      rw [hB123, hDp2] at hQ'
      by_cases haA : a = A
      · by_cases hiB : i = B
        · refine Or.inl ⟨(Pos.l2slot A B, d), by simp,
            by rw [haA, hiB], ?_⟩
          rw [sectorAt_l2slot, hB123, hDp2, if_pos haA, hDp1,
            if_pos hiB]
        · refine Or.inr (Or.inl ?_)
          rw [sectorAt_l2slot, hB123, hDp2, if_pos haA, hDp1,
            if_neg hiB]
      · rw [if_neg haA] at hQ'
        exact absurd rfl hQ'
  have hwf' : WF fs' :=
    WF_of_update hwf rfl rfl
      [(Pos.inodeSlot 123, p2), (Pos.l2 A, p1), (Pos.l2slot A B, d)]
      (by
        intro pr hpr
        rcases List.mem_cons.mp hpr with rfl | hpr
        · exact ⟨hp20, hp2_lt, hp2_clear⟩
        rcases List.mem_cons.mp hpr with rfl | hpr
        · exact ⟨hp10, hp1_lt, hp1_clear⟩
        rw [List.mem_singleton] at hpr
        rw [hpr]
        exact ⟨hd0, hd_lt, hd_clear⟩)
      (by simp [Ne.symm hdp1, Ne.symm hdp2, Ne.symm hp12, hp12])
      (by
        intro j hj
        have hval : m' j = (if j ∈ ([d, p1, p2] : List Nat) then true
            else fs.freeMap j) := by rw [hm']
        show m' j = true
        rw [hval]
        rcases hj with hj | hj
        · simp only [List.map_cons, List.map_nil] at hj
          rcases List.mem_cons.mp hj with rfl | hj
          · simp
          rcases List.mem_cons.mp hj with rfl | hj
          · simp
          rw [List.mem_singleton] at hj
          rw [hj]
          simp
        · by_cases hmem : j ∈ ([d, p1, p2] : List Nat)
          · rw [if_pos hmem]
          · rw [if_neg hmem]
            exact hj)
      hchar
  refine ⟨hd0, hwf', ?_, ?_, ?_, rfl, rfl, rfl, rfl, ?_⟩
  · rw [resolve_double (f := fs') h, hB123, if_neg hp20, hDp2,
      ← hA, if_pos rfl, if_neg hp10, hDp1, ← hB, if_pos rfl]
  · intro o' ho' hr'
    by_cases hL1 : o' / 512 < 122
    · rw [resolve_direct (f := fs') hL1, resolve_direct (f := fs) hL1,
        hBi _ (by omega)]
    · by_cases hL2 : o' / 512 < 246
      · rw [resolve_single (f := fs) (by omega) hL2] at hr'
        rw [resolve_single (f := fs') (by omega) hL2,
          resolve_single (f := fs) (by omega) hL2]
        rw [hBi 122 (by omega)]
        by_cases hz : fs.inode.blocks 122 = 0
        · rw [if_pos hz] at hr'
          exact absurd rfl hr'
        · rw [if_neg hz, if_neg hz]
          exact hD _ (h122 hz).1 (h122 hz).2.1 (h122 hz).2.2 _
      · rw [resolve_double (f := fs) (by omega), if_pos hb] at hr'
        exact absurd rfl hr'
  · intro o' ho' hr' i
    obtain ⟨he, hv⟩ := resolve_dataPos ho' hr'
    have hfr := hfresh3 _ hv (by rw [← he]; exact hr')
    rw [← he] at hfr
    exact hD _ hfr.2.2 hfr.2.1 hfr.1 i
  · have hcc := clearCountOf_set_list (n := fs.fmSize) [d, p1, p2]
      fs.freeMap (by simp [hdp1, hdp2, hp12])
      (by
        intro s hs
        rcases List.mem_cons.mp hs with rfl | hs
        · exact ⟨hd_clear, hd_lt⟩
        rcases List.mem_cons.mp hs with rfl | hs
        · exact ⟨hp1_clear, hp1_lt⟩
        rw [List.mem_singleton] at hs
        rw [hs]
        exact ⟨hp2_clear, hp2_lt⟩)
    rw [clearCount_eq, clearCount_eq]
    show clearCountOf fs.fmSize fs.freeMap ≤
      clearCountOf fs.fmSize m' + 3
    rw [hm']
    simp only [List.length_cons, List.length_nil] at hcc
    omega

/-- Master specification of the write path of `get_data_sector`: with
three free sectors available, every offset below `MAX_FILE_BYTES` can
be resolved for writing. -/
lemma get_data_sector_write_post {fs : FS} (hwf : WF fs) {o : Nat}
    (ho : o < MAX_FILE_BYTES) (hfree : 3 ≤ clearCount fs) :
    WritePost fs (get_data_sector fs o false).2 o
      (get_data_sector fs o false).1 := by
  have hfree' : ∀ cnt, cnt ≤ 3 →
      cnt ≤ clearCountOf fs.fmSize fs.freeMap := by
    intro cnt hc
    rw [clearCount_eq] at hfree
    omega
  by_cases hr : resolve fs o = 0
  · by_cases hL1 : o / 512 < 122
    · rw [resolve_direct hL1] at hr
      obtain ⟨m', outs, halloc, hlen, hnd, hfr, hm'⟩ :=
        free_map_allocate_success_spec (hfree' 1 (by omega))
      match outs, hlen with
      | [d], _ =>
        rw [gds_write_direct_alloc hL1 hr halloc]
        exact gds_post_direct_alloc hwf hL1 hr
          (hfr d (by simp)).1 (hfr d (by simp)).2 hm'
    · by_cases hL2 : o / 512 < 246
      · rw [resolve_single (by omega) hL2] at hr
        by_cases hbz : fs.inode.blocks 122 = 0
        · obtain ⟨m', outs, halloc, hlen, hnd, hfr, hm'⟩ :=
            free_map_allocate_success_spec (hfree' 2 (by omega))
          match outs, hlen with
          | [d, p], _ =>
            have hdp : d ≠ p := by
              have := List.nodup_cons.mp hnd
              simpa using this.1
            rw [gds_write_single_alloc2 (by omega) hL2 hbz halloc]
            exact gds_post_single_alloc2 hwf (by omega) hL2 hbz
              (hfr d (by simp)).1 (hfr d (by simp)).2
              (hfr p (by simp)).1 (hfr p (by simp)).2 hdp hm'
        · rw [if_neg hbz] at hr
          obtain ⟨m', outs, halloc, hlen, hnd, hfr, hm'⟩ :=
            free_map_allocate_success_spec (hfree' 1 (by omega))
          match outs, hlen with
          | [d], _ =>
            rw [gds_write_single_alloc1 (by omega) hL2 hbz hr halloc]
            exact gds_post_single_alloc1 hwf (by omega) hL2 hbz hr
              (hfr d (by simp)).1 (hfr d (by simp)).2 hm'
      · rw [resolve_double (by omega)] at hr
        by_cases hbz : fs.inode.blocks 123 = 0
        · obtain ⟨m', outs, halloc, hlen, hnd, hfr, hm'⟩ :=
            free_map_allocate_success_spec (hfree' 3 (by omega))
          match outs, hlen with
          | [d, p1, p2], _ =>
            have hdp1 : d ≠ p1 := by
              have := List.nodup_cons.mp hnd
              simp at this
              exact this.1.1
            have hdp2 : d ≠ p2 := by
              have := List.nodup_cons.mp hnd
              simp at this
              exact this.1.2
            have hp12 : p1 ≠ p2 := by
              have := List.nodup_cons.mp hnd
              simp at this
              exact this.2
            rw [gds_write_double_alloc3 (by omega) hbz halloc]
            exact gds_post_double_alloc3 hwf (by omega) hbz
              (hfr d (by simp)).1 (hfr d (by simp)).2
              (hfr p1 (by simp)).1 (hfr p1 (by simp)).2
              (hfr p2 (by simp)).1 (hfr p2 (by simp)).2
              hdp1 hdp2 hp12 hm'
        · rw [if_neg hbz] at hr
          by_cases hpz : fs.disk (fs.inode.blocks 123)
              ((o / 512 - 244) / 124) = 0
          · obtain ⟨m', outs, halloc, hlen, hnd, hfr, hm'⟩ :=
              free_map_allocate_success_spec (hfree' 2 (by omega))
            match outs, hlen with
            | [d, p1], _ =>
              have hdp : d ≠ p1 := by
                have := List.nodup_cons.mp hnd
                simpa using this.1
              rw [gds_write_double_alloc2 (by omega) hbz hpz halloc]
              exact gds_post_double_alloc2 hwf ho (by omega) hbz hpz
                (hfr d (by simp)).1 (hfr d (by simp)).2
                (hfr p1 (by simp)).1 (hfr p1 (by simp)).2 hdp hm'
          · rw [if_neg hpz] at hr
            obtain ⟨m', outs, halloc, hlen, hnd, hfr, hm'⟩ :=
              free_map_allocate_success_spec (hfree' 1 (by omega))
            match outs, hlen with
            | [d], _ =>
              rw [gds_write_double_alloc1 (by omega) hbz hpz hr halloc]
              exact gds_post_double_alloc1 hwf ho (by omega) hbz hpz hr
                (hfr d (by simp)).1 (hfr d (by simp)).2 hm'
  · have hgw := gds_write_found hr
    rw [hgw]
    exact writePost_found hwf hr

/-! ### The data copy and length update of the write loop -/

/-- Updating only the length field (under `MAX_FILE_BYTES`) preserves
well-formedness: no pointer moves. -/
lemma WF_update_len {fs : FS} (hwf : WF fs) {len' : Nat}
    (h : len' ≤ MAX_FILE_BYTES) :
    WF { fs with inode := { fs.inode with length := len' } } :=
  ⟨fun p q => hwf.inj p q, fun p => hwf.marked p, hwf.zeroMarked, h⟩

/-- Resolution ignores the length field. -/
lemma resolve_update_len (fs : FS) (len' o : Nat) :
    resolve { fs with inode := { fs.inode with length := len' } } o =
      resolve fs o := by
  set fs' : FS := { fs with inode := { fs.inode with length := len' } }
  by_cases hL1 : o / 512 < 122
  · rw [resolve_direct (f := fs') hL1, resolve_direct (f := fs) hL1]
  · by_cases hL2 : o / 512 < 246
    · rw [resolve_single (f := fs') (by omega) hL2,
        resolve_single (f := fs) (by omega) hL2]
    · rw [resolve_double (f := fs') (by omega),
        resolve_double (f := fs) (by omega)]

/-- Overwriting bytes of the (nonzero) data sector that `o` resolves
to — what the loop's `memcpy` into the cache entry does — preserves
well-formedness and resolution, and touches no other sector. -/
lemma WF_update_data {fs : FS} (hwf : WF fs) {o : Nat}
    (ho : o < MAX_FILE_BYTES) (hr : resolve fs o ≠ 0)
    {D' : Nat → Nat → Nat}
    (hD' : ∀ t i, t ≠ resolve fs o → D' t i = fs.disk t i) :
    WF { fs with disk := D' } ∧
    (∀ o', o' < MAX_FILE_BYTES →
      resolve { fs with disk := D' } o' = resolve fs o') := by
  obtain ⟨he, hv⟩ := resolve_dataPos ho hr
  set fs' : FS := { fs with disk := D' } with hfs'
  have hv122 : ValidPos fs (.inodeSlot 122) :=
    (validPos_inodeSlot fs 122).mpr (by omega)
  have hv123 : ValidPos fs (.inodeSlot 123) :=
    (validPos_inodeSlot fs 123).mpr (by omega)
  have h122 : fs.inode.blocks 122 ≠ 0 →
      fs.inode.blocks 122 ≠ resolve fs o := by
    intro hz
    have := hwf.ne_pos hv122 hv (by rw [sectorAt_inodeSlot]; exact hz)
      (fun hh => dataPos_ne_inodeSlot_ge (k := 122) (by omega) hh.symm)
    rw [sectorAt_inodeSlot, ← he] at this
    exact this
  have h123 : fs.inode.blocks 123 ≠ 0 →
      fs.inode.blocks 123 ≠ resolve fs o := by
    intro hz
    have := hwf.ne_pos hv123 hv (by rw [sectorAt_inodeSlot]; exact hz)
      (fun hh => dataPos_ne_inodeSlot_ge (k := 123) (by omega) hh.symm)
    rw [sectorAt_inodeSlot, ← he] at this
    exact this
  have hQ : ∀ a, a ≤ 124 → fs.inode.blocks 123 ≠ 0 →
      fs.disk (fs.inode.blocks 123) a ≠ 0 →
      fs.disk (fs.inode.blocks 123) a ≠ resolve fs o := by
    intro a ha hz hq
    have hvla : ValidPos fs (.l2 a) := (validPos_l2 fs a).mpr ⟨ha, hz⟩
    have := hwf.ne_pos hvla hv (by rw [sectorAt_l2]; exact hq)
      (fun hh => dataPos_ne_l2 hh.symm)
    rw [sectorAt_l2, ← he] at this
    exact this
  have hSA : ∀ p, ValidPos fs p → sectorAt fs' p = sectorAt fs p := by
    intro p hvp
    cases p with
    | inodeP => rfl
    | inodeSlot i => rfl
    | s1slot i =>
      obtain ⟨hi, hz⟩ := (validPos_s1slot fs i).mp hvp
      rw [sectorAt_s1slot, sectorAt_s1slot]
      show D' (fs.inode.blocks 122) i = _
      rw [hD' _ _ (h122 hz)]
    | l2 a =>
      obtain ⟨ha, hz⟩ := (validPos_l2 fs a).mp hvp
      rw [sectorAt_l2, sectorAt_l2]
      show D' (fs.inode.blocks 123) a = _
      rw [hD' _ _ (h123 hz)]
    | l2slot a i =>
      obtain ⟨ha, hi, hz, hq⟩ := (validPos_l2slot fs a i).mp hvp
      rw [sectorAt_l2slot, sectorAt_l2slot]
      show D' (D' (fs.inode.blocks 123) a) i = _
      rw [hD' _ _ (h123 hz), hD' _ _ (hQ a ha hz hq)]
  have hVP : ∀ p, ValidPos fs' p ↔ ValidPos fs p := by
    intro p
    cases p with
    | inodeP => exact Iff.rfl
    | inodeSlot i => exact Iff.rfl
    | s1slot i => exact Iff.rfl
    | l2 a => exact Iff.rfl
    | l2slot a i =>
      rw [validPos_l2slot, validPos_l2slot]
      constructor
      · rintro ⟨h1, h2, h3, h4⟩
        show _ ∧ _ ∧ _ ∧ fs.disk (fs.inode.blocks 123) a ≠ 0
        have : fs'.disk (fs.inode.blocks 123) a =
            fs.disk (fs.inode.blocks 123) a := hD' _ _ (h123 h3)
        rw [this] at h4
        exact ⟨h1, h2, h3, h4⟩
      · rintro ⟨h1, h2, h3, h4⟩
        refine ⟨h1, h2, h3, ?_⟩
        show D' (fs.inode.blocks 123) a ≠ 0
        rw [hD' _ _ (h123 h3)]
        exact h4
  constructor
  · refine ⟨?_, ?_, hwf.zeroMarked, hwf.lenLe⟩
    · intro p q hvp hvq hnz heq
      rw [hVP] at hvp hvq
      rw [hSA p hvp] at hnz heq
      rw [hSA q hvq] at heq
      exact hwf.inj p q hvp hvq hnz heq
    · intro p hvp hnz
      rw [hVP] at hvp
      rw [hSA p hvp] at hnz ⊢
      exact hwf.marked p hvp hnz
  · intro o' ho'
    by_cases hL1 : o' / 512 < 122
    · rw [resolve_direct (f := fs') hL1, resolve_direct (f := fs) hL1]
    · by_cases hL2 : o' / 512 < 246
      · rw [resolve_single (f := fs') (by omega) hL2,
          resolve_single (f := fs) (by omega) hL2]
        by_cases hz : fs.inode.blocks 122 = 0
        · rw [show fs'.inode.blocks 122 = fs.inode.blocks 122 from rfl]
          rw [if_pos hz, if_pos hz]
        · rw [show fs'.inode.blocks 122 = fs.inode.blocks 122 from rfl]
          rw [if_neg hz, if_neg hz]
          show D' (fs.inode.blocks 122) _ = _
          rw [hD' _ _ (h122 hz)]
      · rw [resolve_double (f := fs') (by omega),
          resolve_double (f := fs) (by omega)]
        rw [show fs'.inode.blocks 123 = fs.inode.blocks 123 from rfl]
        by_cases hz : fs.inode.blocks 123 = 0
        · rw [if_pos hz, if_pos hz]
        · rw [if_neg hz, if_neg hz]
          have hQeq : fs'.disk (fs.inode.blocks 123)
              ((o' / 512 - 244) / 124) =
              fs.disk (fs.inode.blocks 123) ((o' / 512 - 244) / 124) :=
            hD' _ _ (h123 hz)
          rw [hQeq]
          by_cases hq : fs.disk (fs.inode.blocks 123)
              ((o' / 512 - 244) / 124) = 0
          · rw [if_pos hq, if_pos hq]
          · rw [if_neg hq, if_neg hq]
            have hA124 : (o' / 512 - 244) / 124 ≤ 124 := by
              have hM : MAX_FILE_BYTES = 7998464 := rfl
              omega
            show D' _ _ = _
            rw [hD' _ _ (hQ _ hA124 hz hq)]

/-! ### Exact characterization of `inode_read_at` within the length -/

/-- Inside the file's length, `inode_read_at` returns, byte for byte,
the content of the resolved data sector (or 0 where the pointer path
is sparse). -/
lemma inode_read_at_exact :
    ∀ (size : Nat) (fs : FS) (offset : Nat),
      offset + size ≤ fs.inode.length →
      inode_read_at fs size offset =
        (List.range size).map (fun j =>
          if resolve fs (offset + j) = 0 then 0
          else fs.disk (resolve fs (offset + j))
            ((offset + j) % BLOCK_SECTOR_SIZE)) := by
  intro size
  induction size using Nat.strong_induction_on with
  | _ size ih =>
    intro fs offset hlen
    by_cases hs : size = 0
    · subst hs
      rw [inode_read_at]
      simp
    have hc : ¬ read_chunk_size fs size offset ≤ 0 := by
      unfold read_chunk_size inode_length
      have h := Nat.mod_lt offset (show 0 < BLOCK_SECTOR_SIZE by decide)
      unfold BLOCK_SECTOR_SIZE at *
      omega
    rw [inode_read_at_step fs size offset hs hc]
    set c := (read_chunk_size fs size offset).toNat with hcdef
    have hcpos : 0 < c := by
      have : 0 < read_chunk_size fs size offset := by omega
      omega
    have hle := read_chunk_size_le_size fs size offset
    have hsec := read_chunk_size_le_sector fs size offset
    rw [← hcdef] at hle hsec
    have hmod := Nat.mod_lt offset (show 0 < BLOCK_SECTOR_SIZE by decide)
    have hchunk :
        (if (get_data_sector fs offset true).1 = 0 then
            List.replicate c 0
          else
            (List.range c).map
              (fun i => fs.disk (get_data_sector fs offset true).1
                ((offset % BLOCK_SECTOR_SIZE) + i))) =
          (List.range c).map (fun j =>
            if resolve fs (offset + j) = 0 then 0
            else fs.disk (resolve fs (offset + j))
              ((offset + j) % BLOCK_SECTOR_SIZE)) := by
      have hres : ∀ j, j < c →
          resolve fs (offset + j) = resolve fs offset := by
        intro j hj
        unfold resolve
        exact get_data_sector_read_congr fs
          (by unfold BLOCK_SECTOR_SIZE at *; omega)
      by_cases h0 : (get_data_sector fs offset true).1 = 0
      · rw [if_pos h0]
        have h0' : resolve fs offset = 0 := h0
        have : ∀ j ∈ List.range c,
            (if resolve fs (offset + j) = 0 then 0
              else fs.disk (resolve fs (offset + j))
                ((offset + j) % BLOCK_SECTOR_SIZE)) = 0 := by
          intro j hj
          rw [List.mem_range] at hj
          rw [hres j hj]
          rw [if_pos h0']
        rw [List.map_congr_left this]
        simp [List.map_const']
      · rw [if_neg h0]
        have h0' : ¬ resolve fs offset = 0 := h0
        refine List.map_congr_left ?_
        intro j hj
        rw [List.mem_range] at hj
        rw [hres j hj]
        rw [if_neg h0']
        show fs.disk (resolve fs offset) _ = _
        congr 1
        unfold BLOCK_SECTOR_SIZE at *
        omega
    rw [hchunk]
    rw [ih (size - c) (by omega) fs (offset + c) (by omega)]
    have hsplit : List.range size =
        List.range c ++ (List.range (size - c)).map (fun j => c + j) := by
      have : size = c + (size - c) := by omega
      rw [this, List.range_add]
      simp [Function.comp]
    rw [hsplit, List.map_append, List.map_map]
    congr 1
    refine List.map_congr_left ?_
    intro j hj
    simp only [Function.comp_apply]
    rw [show offset + (c + j) = offset + c + j by omega]

/-! ### The write loop -/

/-- One unfolding of the write loop in the successful case: resolve
(allocating), copy the chunk into the data sector, extend the length
when the chunk passes the recorded end of file, and recurse. -/
lemma inode_write_loop_step (fs : FS) (buffer : Nat → Nat)
    (size offset bw : Nat) (hs : size ≠ 0)
    (hc : ¬ write_chunk_size size offset ≤ 0)
    (hz : (get_data_sector fs offset false).1 ≠ 0) :
    inode_write_loop fs buffer size offset bw =
      inode_write_loop
        (if offset + (write_chunk_size size offset).toNat >
            fs.inode.length then
          { (get_data_sector fs offset false).2 with
            disk := fun s i =>
              if s = (get_data_sector fs offset false).1 ∧
                  (offset % BLOCK_SECTOR_SIZE) ≤ i ∧
                  i < (offset % BLOCK_SECTOR_SIZE) +
                    (write_chunk_size size offset).toNat then
                buffer (bw + (i - (offset % BLOCK_SECTOR_SIZE)))
              else (get_data_sector fs offset false).2.disk s i,
            inode := { (get_data_sector fs offset false).2.inode with
              length := offset + (write_chunk_size size offset).toNat } }
        else
          { (get_data_sector fs offset false).2 with
            disk := fun s i =>
              if s = (get_data_sector fs offset false).1 ∧
                  (offset % BLOCK_SECTOR_SIZE) ≤ i ∧
                  i < (offset % BLOCK_SECTOR_SIZE) +
                    (write_chunk_size size offset).toNat then
                buffer (bw + (i - (offset % BLOCK_SECTOR_SIZE)))
              else (get_data_sector fs offset false).2.disk s i })
        buffer (size - (write_chunk_size size offset).toNat)
        (offset + (write_chunk_size size offset).toNat)
        (bw + (write_chunk_size size offset).toNat) := by
  rw [inode_write_loop, dif_neg hs, dif_neg hc]
  simp only [if_neg (show ¬ (get_data_sector fs offset false).1 = 0
    from hz)]

lemma inode_write_loop_zero (fs : FS) (buffer : Nat → Nat)
    (offset bw : Nat) :
    inode_write_loop fs buffer 0 offset bw = (bw, fs) := by
  rw [inode_write_loop]
  simp

/-- The write loop's invariant: starting from a well-formed state with
the whole range below `MAX_FILE_BYTES` and enough free sectors, the
loop writes everything, preserves well-formedness, extends the length
to cover the written range, leaves every written byte readable from
its (nonzero) resolved sector, and does not disturb data of blocks
strictly before the starting block. -/
def WriteLoopGood (m : Nat) : Prop :=
  ∀ (fs : FS) (buffer : Nat → Nat) (offset bw : Nat),
    WF fs → 1 ≤ m → offset + m ≤ MAX_FILE_BYTES →
    3 * m ≤ clearCount fs →
    (inode_write_loop fs buffer m offset bw).1 = bw + m ∧
    WF (inode_write_loop fs buffer m offset bw).2 ∧
    (inode_write_loop fs buffer m offset bw).2.inode.length =
      max fs.inode.length (offset + m) ∧
    (∀ j, j < m →
      resolve (inode_write_loop fs buffer m offset bw).2 (offset + j) ≠ 0 ∧
      (inode_write_loop fs buffer m offset bw).2.disk
        (resolve (inode_write_loop fs buffer m offset bw).2 (offset + j))
        ((offset + j) % BLOCK_SECTOR_SIZE) = buffer (bw + j)) ∧
    (∀ o', o' < MAX_FILE_BYTES → resolve fs o' ≠ 0 →
      o' / BLOCK_SECTOR_SIZE < offset / BLOCK_SECTOR_SIZE →
      resolve (inode_write_loop fs buffer m offset bw).2 o' =
        resolve fs o' ∧
      ∀ i, (inode_write_loop fs buffer m offset bw).2.disk
        (resolve fs o') i = fs.disk (resolve fs o') i)

/-- The recursive step of the loop invariant, for an abstract
description `fs₃` of the state one chunk hands to the next
iteration. -/
lemma inode_write_loop_tail {size : Nat}
    (ih : ∀ m, m < size → WriteLoopGood m)
    {fs fs₁ fs₃ : FS} {buffer : Nat → Nat} {offset bw c s₀ : Nat}
    (hwf1 : WF fs₁)
    (hz0 : s₀ ≠ 0)
    (hres1 : resolve fs₁ offset = s₀)
    (hstab1 : ∀ o', o' < MAX_FILE_BYTES → resolve fs o' ≠ 0 →
      resolve fs₁ o' = resolve fs o')
    (hpres1 : ∀ o', o' < MAX_FILE_BYTES → resolve fs o' ≠ 0 →
      ∀ i, fs₁.disk (resolve fs o') i = fs.disk (resolve fs o') i)
    (hc1 : 1 ≤ c) (hcle : c ≤ size)
    (hcsec : offset % BLOCK_SECTOR_SIZE + c ≤ BLOCK_SECTOR_SIZE)
    (hcfull : c = size ∨
      offset % BLOCK_SECTOR_SIZE + c = BLOCK_SECTOR_SIZE)
    (hmax : offset + size ≤ MAX_FILE_BYTES)
    (hfree3 : 3 * (size - c) ≤ clearCount fs₃)
    (h3wf : WF fs₃)
    (h3len : fs₃.inode.length = max fs.inode.length (offset + c))
    (h3res : ∀ o'', o'' < MAX_FILE_BYTES →
      resolve fs₃ o'' = resolve fs₁ o'')
    (h3disk : ∀ t i, fs₃.disk t i =
      if t = s₀ ∧ offset % BLOCK_SECTOR_SIZE ≤ i ∧
          i < offset % BLOCK_SECTOR_SIZE + c then
        buffer (bw + (i - offset % BLOCK_SECTOR_SIZE))
      else fs₁.disk t i) :
    (inode_write_loop fs₃ buffer (size - c) (offset + c) (bw + c)).1 =
      bw + size ∧
    WF (inode_write_loop fs₃ buffer (size - c) (offset + c) (bw + c)).2 ∧
    (inode_write_loop fs₃ buffer (size - c) (offset + c)
      (bw + c)).2.inode.length = max fs.inode.length (offset + size) ∧
    (∀ j, j < size →
      resolve (inode_write_loop fs₃ buffer (size - c) (offset + c)
        (bw + c)).2 (offset + j) ≠ 0 ∧
      (inode_write_loop fs₃ buffer (size - c) (offset + c) (bw + c)).2.disk
        (resolve (inode_write_loop fs₃ buffer (size - c) (offset + c)
          (bw + c)).2 (offset + j))
        ((offset + j) % BLOCK_SECTOR_SIZE) = buffer (bw + j)) ∧
    (∀ o', o' < MAX_FILE_BYTES → resolve fs o' ≠ 0 →
      o' / BLOCK_SECTOR_SIZE < offset / BLOCK_SECTOR_SIZE →
      resolve (inode_write_loop fs₃ buffer (size - c) (offset + c)
        (bw + c)).2 o' = resolve fs o' ∧
      ∀ i, (inode_write_loop fs₃ buffer (size - c) (offset + c)
        (bw + c)).2.disk (resolve fs o') i =
        fs.disk (resolve fs o') i) := by
  have hresj : ∀ j, j < c → resolve fs₃ (offset + j) = s₀ := by
    intro j hj
    rw [h3res (offset + j) (by omega), ← hres1]
    unfold resolve
    exact get_data_sector_read_congr fs₁
      (by unfold BLOCK_SECTOR_SIZE at *; omega)
  have hdiskj : ∀ j, j < c →
      fs₃.disk s₀ ((offset + j) % BLOCK_SECTOR_SIZE) = buffer (bw + j) := by
    intro j hj
    have hmodj : (offset + j) % BLOCK_SECTOR_SIZE =
        offset % BLOCK_SECTOR_SIZE + j := by
      unfold BLOCK_SECTOR_SIZE at *
      omega
    rw [hmodj, h3disk]
    rw [if_pos ⟨rfl, by omega, by omega⟩]
    congr 1
    omega
  have hQL3 : ∀ o', o' < MAX_FILE_BYTES → resolve fs o' ≠ 0 →
      o' / BLOCK_SECTOR_SIZE < offset / BLOCK_SECTOR_SIZE →
      resolve fs₃ o' = resolve fs o' ∧
      ∀ i, fs₃.disk (resolve fs o') i = fs.disk (resolve fs o') i := by
    intro o' ho' hr' hblk
    have hst := hstab1 o' ho' hr'
    have hne : resolve fs₁ o' ≠ resolve fs₁ offset :=
      resolve_inj hwf1 ho' (by omega)
        (by unfold BLOCK_SECTOR_SIZE at hblk; omega)
        (by rw [hst]; exact hr')
    rw [hres1] at hne
    have hne' : resolve fs o' ≠ s₀ := by rw [← hst]; exact hne
    constructor
    · rw [h3res o' ho', hst]
    · intro i
      rw [h3disk]
      rw [if_neg (fun h => hne' h.1)]
      exact hpres1 o' ho' hr' i
  by_cases hsz : size - c = 0
  · rw [hsz, inode_write_loop_zero]
    refine ⟨?_, h3wf, ?_, ?_, ?_⟩
    · show bw + c = bw + size
      omega
    · show fs₃.inode.length = _
      rw [h3len]
      omega
    · intro j hj
      have hjc : j < c := by omega
      constructor
      · show resolve fs₃ (offset + j) ≠ 0
        rw [hresj j hjc]
        exact hz0
      · show fs₃.disk (resolve fs₃ (offset + j)) _ = _
        rw [hresj j hjc]
        exact hdiskj j hjc
    · intro o' ho' hr' hblk
      exact hQL3 o' ho' hr' hblk
  · have hco : offset % BLOCK_SECTOR_SIZE + c = BLOCK_SECTOR_SIZE := by
      rcases hcfull with h | h
      · omega
      · exact h
    obtain ⟨ih1, ih2, ih3, ih4, ih5⟩ :=
      ih (size - c) (by omega) fs₃ buffer (offset + c) (bw + c)
        h3wf (by omega) (by omega) hfree3
    refine ⟨?_, ih2, ?_, ?_, ?_⟩
    · rw [ih1]
      omega
    · rw [ih3, h3len]
      omega
    · intro j hj
      by_cases hjc : j < c
      · have hblk : (offset + j) / BLOCK_SECTOR_SIZE <
            (offset + c) / BLOCK_SECTOR_SIZE := by
          unfold BLOCK_SECTOR_SIZE at *
          omega
        have hr3 : resolve fs₃ (offset + j) ≠ 0 := by
          rw [hresj j hjc]
          exact hz0
        have h5 := ih5 (offset + j) (by omega) hr3 hblk
        constructor
        · rw [h5.1, hresj j hjc]
          exact hz0
        · rw [h5.1, hresj j hjc]
          have h52 := h5.2 ((offset + j) % BLOCK_SECTOR_SIZE)
          rw [hresj j hjc] at h52
          rw [h52]
          exact hdiskj j hjc
      · have h4 := ih4 (j - c) (by omega)
        have harg : offset + c + (j - c) = offset + j := by omega
        have harg2 : bw + c + (j - c) = bw + j := by omega
        rw [harg, harg2] at h4
        exact h4
    · intro o' ho' hr' hblk
      have h3 := hQL3 o' ho' hr' hblk
      have hblk3 : o' / BLOCK_SECTOR_SIZE <
          (offset + c) / BLOCK_SECTOR_SIZE := by
        unfold BLOCK_SECTOR_SIZE at *
        omega
      have hr3 : resolve fs₃ o' ≠ 0 := by
        rw [h3.1]
        exact hr'
      have h5 := ih5 o' ho' hr3 hblk3
      constructor
      · rw [h5.1, h3.1]
      · intro i
        have h52 := h5.2 i
        rw [h3.1] at h52
        rw [h52]
        exact h3.2 i

/-- The write loop satisfies its invariant for every size. -/
lemma inode_write_loop_spec : ∀ size, WriteLoopGood size := by
  intro size
  induction size using Nat.strong_induction_on with
  | _ size ih =>
    intro fs buffer offset bw hwf hs1 hmax hfree
    have hM : MAX_FILE_BYTES = 7998464 := rfl
    have hs : size ≠ 0 := by omega
    have hc : ¬ write_chunk_size size offset ≤ 0 := by
      unfold write_chunk_size
      rw [hM] at hmax ⊢
      unfold BLOCK_SECTOR_SIZE
      omega
    have hcfacts : 1 ≤ (write_chunk_size size offset).toNat ∧
        (write_chunk_size size offset).toNat ≤ size ∧
        offset % BLOCK_SECTOR_SIZE +
          (write_chunk_size size offset).toNat ≤ BLOCK_SECTOR_SIZE ∧
        ((write_chunk_size size offset).toNat = size ∨
          offset % BLOCK_SECTOR_SIZE +
            (write_chunk_size size offset).toNat = BLOCK_SECTOR_SIZE) := by
      unfold write_chunk_size
      rw [hM] at hmax ⊢
      unfold BLOCK_SECTOR_SIZE
      omega
    obtain ⟨hz0, hwf1, hres1, hstab1, hpres1, hlen1, hisec1, hfm1,
      hdeny1, hcc1⟩ :=
      get_data_sector_write_post hwf
        (show offset < MAX_FILE_BYTES by omega)
        (show 3 ≤ clearCount fs by omega)
    rw [inode_write_loop_step fs buffer size offset bw hs hc hz0]
    set c := (write_chunk_size size offset).toNat with hcdef
    obtain ⟨hc1, hcle, hcsec, hcfull⟩ := hcfacts
    set fs₁ := (get_data_sector fs offset false).2 with hfs₁def
    set s₀ := (get_data_sector fs offset false).1 with hs₀def
    set D := fun s i =>
      if s = s₀ ∧ offset % BLOCK_SECTOR_SIZE ≤ i ∧
          i < offset % BLOCK_SECTOR_SIZE + c then
        buffer (bw + (i - offset % BLOCK_SECTOR_SIZE))
      else fs₁.disk s i with hDdef
    have hD : ∀ t i, t ≠ resolve fs₁ offset → D t i = fs₁.disk t i := by
      intro t i ht
      rw [hres1] at ht
      show (if t = s₀ ∧ offset % BLOCK_SECTOR_SIZE ≤ i ∧
          i < offset % BLOCK_SECTOR_SIZE + c then
        buffer (bw + (i - offset % BLOCK_SECTOR_SIZE))
      else fs₁.disk t i) = fs₁.disk t i
      rw [if_neg (fun h => ht h.1)]
    have hupd := WF_update_data hwf1
      (show offset < MAX_FILE_BYTES by omega)
      (show resolve fs₁ offset ≠ 0 by rw [hres1]; exact hz0) hD
    by_cases hext : offset + c > fs.inode.length
    · rw [if_pos hext]
      set fs₃ : FS :=
        { fs₁ with
          disk := D,
          inode := { fs₁.inode with length := offset + c } }
        with hfs₃def
      have e₂ : fs₃ =
          { ({ fs₁ with disk := D } : FS) with inode :=
            { ({ fs₁ with disk := D } : FS).inode with
              length := offset + c } } := rfl
      have h3wf : WF fs₃ := by
        rw [e₂]
        exact WF_update_len hupd.1 (by omega)
      have h3res : ∀ o'', o'' < MAX_FILE_BYTES →
          resolve fs₃ o'' = resolve fs₁ o'' := by
        intro o'' ho''
        rw [e₂, resolve_update_len]
        exact hupd.2 o'' ho''
      have h3len : fs₃.inode.length = max fs.inode.length (offset + c) := by
        show offset + c = _
        omega
      have h3disk : ∀ t i, fs₃.disk t i =
          if t = s₀ ∧ offset % BLOCK_SECTOR_SIZE ≤ i ∧
              i < offset % BLOCK_SECTOR_SIZE + c then
            buffer (bw + (i - offset % BLOCK_SECTOR_SIZE))
          else fs₁.disk t i := fun _ _ => rfl
      have hfree3 : 3 * (size - c) ≤ clearCount fs₃ := by
        have hcc : clearCount fs₃ = clearCount fs₁ := rfl
        rw [hcc]
        omega
      exact inode_write_loop_tail ih hwf1 hz0 hres1 hstab1 hpres1
        hc1 hcle hcsec hcfull hmax hfree3 h3wf h3len h3res h3disk
    · rw [if_neg hext]
      have h3len : ({ fs₁ with disk := D } : FS).inode.length =
          max fs.inode.length (offset + c) := by
        show fs₁.inode.length = _
        rw [hlen1]
        omega
      have h3disk : ∀ t i, ({ fs₁ with disk := D } : FS).disk t i =
          if t = s₀ ∧ offset % BLOCK_SECTOR_SIZE ≤ i ∧
              i < offset % BLOCK_SECTOR_SIZE + c then
            buffer (bw + (i - offset % BLOCK_SECTOR_SIZE))
          else fs₁.disk t i := fun _ _ => rfl
      have hfree3 : 3 * (size - c) ≤
          clearCount ({ fs₁ with disk := D } : FS) := by
        have hcc : clearCount ({ fs₁ with disk := D } : FS) =
            clearCount fs₁ := rfl
        rw [hcc]
        omega
      exact inode_write_loop_tail ih hwf1 hz0 hres1 hstab1 hpres1
        hc1 hcle hcsec hcfull hmax hfree3 hupd.1 h3len
        (fun o'' ho'' => hupd.2 o'' ho'') h3disk

/-- The freshly formatted example state is well-formed: the only
nonzero sector in the pointer graph is the inode's own sector. -/
lemma WF_exampleFS : WF exampleFS := by
  constructor
  · intro p q hp hq hnz heq
    cases p <;> cases q <;> simp [sectorAt, exampleFS] at hnz heq ⊢
  · intro p hp hnz
    cases p <;> simp [sectorAt, exampleFS] at hnz ⊢
  · rfl
  · exact Nat.zero_le _

/-! ## Claim C3 — write/read round trip -/

/-- C3.  Write/read round trip: from any well-formed state that is not
write-denied, writing the `size` bytes `buffer 0, …, buffer (size−1)`
at `offset` (entirely below `MAX_FILE_BYTES`, with enough clear bits in
the free map to allocate the at most three blocks each chunk may need)
writes all of them, and reading `size` bytes back from `offset` returns
exactly that buffer.  The offset range covers direct, single-indirect
and double-indirect blocks. -/
theorem C3_write_read_round_trip (fs : FS) (buffer : Nat → Nat)
    (size offset : Nat) (hwf : WF fs)
    (hdeny : fs.deny_write_cnt = 0)
    (hmax : offset + size ≤ MAX_FILE_BYTES)
    (hfree : 3 * size ≤ clearCount fs) :
    (inode_write_at fs buffer size offset).1 = size ∧
    inode_read_at (inode_write_at fs buffer size offset).2 size offset =
      (List.range size).map buffer := by
  rw [inode_write_at, if_neg (fun h => h hdeny)]
  by_cases hs : size = 0
  · subst hs
    rw [inode_write_loop_zero]
    constructor
    · rfl
    · rw [inode_read_at]
      simp
  · obtain ⟨el1, el2, el3, el4, el5⟩ :=
      inode_write_loop_spec size fs buffer offset 0 hwf (by omega)
        hmax hfree
    constructor
    · rw [el1]
      omega
    · have hlen : offset + size ≤
          (inode_write_loop fs buffer size offset 0).2.inode.length := by
        rw [el3]
        omega
      rw [inode_read_at_exact size _ offset hlen]
      refine List.map_congr_left ?_
      intro j hj
      rw [List.mem_range] at hj
      obtain ⟨h1, h2⟩ := el4 j hj
      rw [if_neg h1, h2]
      congr 1
      omega

/-- Witness for C3 at a doubly-indirect offset: writing two bytes at
byte offset 300·512 of the fresh example state and reading them back
returns them. -/
theorem C3_write_read_round_trip_witness :
    (inode_write_at exampleFS exampleBuf 2 153600).1 = 2 ∧
    inode_read_at (inode_write_at exampleFS exampleBuf 2 153600).2
      2 153600 = (List.range 2).map exampleBuf :=
  C3_write_read_round_trip exampleFS exampleBuf 2 153600 WF_exampleFS
    rfl (by decide) (by decide)

/-! ## Claim C7 — deny-write

`inode.c` guards writes with `deny_write_lock`: `inode_write_at`
returns 0 at once when `deny_write_cnt` is nonzero, otherwise bumps
`write_cnt` for the duration of the loop; `inode_deny_write` blocks on
the `no_writers` condition until `write_cnt == 0` and then increments
`deny_write_cnt`; `inode_allow_write` decrements it.  The comments fix
the usage contract: deny is called at most once per opener, and every
denier calls allow before closing.  The synchronization is modelled as
a state machine whose state lists each opener's outstanding-deny flag
(so `open_cnt` is the list length and `deny_write_cnt` the number of
set flags) together with the in-flight writer count. -/

structure InodeSync where
  openers : List Bool
  write_cnt : Nat

def InodeSync.open_cnt (s : InodeSync) : Nat := s.openers.length

def InodeSync.deny_write_cnt (s : InodeSync) : Nat :=
  s.openers.countP id

/-- The transitions of the deny-write protocol.  The guard
`s.write_cnt = 0` on `deny` is the `no_writers` condition-variable
wait; the guard `s.deny_write_cnt = 0` on `wstart` is the early-return
check at the top of `inode_write_at`; `close` and `allow` carry the
commented usage contract (a closer has no outstanding deny; only a
denier calls allow). -/
inductive DenyStep : InodeSync → InodeSync → Prop
  | openStep (s : InodeSync) :
      DenyStep s ⟨false :: s.openers, s.write_cnt⟩
  | closeStep (s : InodeSync) (i : Nat) (h : s.openers[i]? = some false) :
      DenyStep s ⟨s.openers.eraseIdx i, s.write_cnt⟩
  | denyStep (s : InodeSync) (i : Nat) (hw : s.write_cnt = 0)
      (h : s.openers[i]? = some false) :
      DenyStep s ⟨s.openers.set i true, s.write_cnt⟩
  | allowStep (s : InodeSync) (i : Nat) (h : s.openers[i]? = some true) :
      DenyStep s ⟨s.openers.set i false, s.write_cnt⟩
  | wstartStep (s : InodeSync) (hd : s.deny_write_cnt = 0) :
      DenyStep s ⟨s.openers, s.write_cnt + 1⟩
  | wendStep (s : InodeSync) (hw : s.write_cnt ≠ 0) :
      DenyStep s ⟨s.openers, s.write_cnt - 1⟩

lemma countP_set_true : ∀ (l : List Bool) (i : Nat),
    l[i]? = some false →
    (l.set i true).countP id = l.countP id + 1 := by
  intro l
  induction l with
  | nil =>
    intro i h
    simp at h
  | cons b t ihl =>
    intro i h
    cases i with
    | zero =>
      simp at h
      subst h
      simp [List.countP_cons]
    | succ n =>
      simp only [List.getElem?_cons_succ] at h
      simp only [List.set_cons_succ, List.countP_cons]
      rw [ihl n h]
      omega
lemma countP_set_false : ∀ (l : List Bool) (i : Nat),
    l[i]? = some true →
    (l.set i false).countP id + 1 = l.countP id := by
  intro l
  induction l with
  | nil =>
    intro i h
    simp at h
  | cons b t ihl =>
    intro i h
    cases i with
    | zero =>
      simp at h
      subst h
      simp [List.countP_cons]
    | succ n =>
      simp only [List.getElem?_cons_succ] at h
      simp only [List.set_cons_succ, List.countP_cons]
      rw [← ihl n h]
      omega

lemma countP_eraseIdx_false : ∀ (l : List Bool) (i : Nat),
    l[i]? = some false →
    (l.eraseIdx i).countP id = l.countP id := by
  intro l
  induction l with
  | nil =>
    intro i h
    simp at h
  | cons b t ihl =>
    intro i h
    cases i with
    | zero =>
      simp at h
      subst h
      simp [List.countP_cons]
    | succ n =>
      simp only [List.getElem?_cons_succ] at h
      simp only [List.eraseIdx_cons_succ, List.countP_cons]
      rw [ihl n h]

/-- C7.  (i) A write initiated while `deny_write_cnt > 0` returns 0
bytes and leaves the whole filesystem state (contents and length)
unchanged.  (ii) `deny_write_cnt` never exceeds `open_cnt`.  (iii) The
only transition that raises `deny_write_cnt` is `inode_deny_write`,
which fires only once `write_cnt = 0` — after all in-flight writers
have finished — and increments the counter by exactly one.  (iv) The
only transition that lowers it is `inode_allow_write`, which decrements
it by exactly one.  (v) A writer can enter the write loop only while
`deny_write_cnt = 0`. -/
theorem C7_deny_write :
    (∀ (fs : FS) (buffer : Nat → Nat) (size offset : Nat),
      fs.deny_write_cnt ≠ 0 →
      inode_write_at fs buffer size offset = (0, fs)) ∧
    (∀ s : InodeSync, s.deny_write_cnt ≤ s.open_cnt) ∧
    (∀ s s' : InodeSync, DenyStep s s' →
      s.deny_write_cnt < s'.deny_write_cnt →
      s.write_cnt = 0 ∧ s'.deny_write_cnt = s.deny_write_cnt + 1) ∧
    (∀ s s' : InodeSync, DenyStep s s' →
      s'.deny_write_cnt < s.deny_write_cnt →
      s'.deny_write_cnt + 1 = s.deny_write_cnt) ∧
    (∀ s s' : InodeSync, DenyStep s s' →
      s.write_cnt < s'.write_cnt → s.deny_write_cnt = 0) := by
  refine ⟨?_, ?_, ?_, ?_, ?_⟩
  · intro fs buffer size offset hd
    rw [inode_write_at, if_pos hd]
  · intro s
    exact List.countP_le_length _
  · intro s s' hstep hlt
    cases hstep with
    | openStep =>
      have hlt' : s.openers.countP id <
          (false :: s.openers).countP id := hlt
      rw [List.countP_cons] at hlt'
      simp at hlt'
    | closeStep i h =>
      have hlt' : s.openers.countP id <
          (s.openers.eraseIdx i).countP id := hlt
      rw [countP_eraseIdx_false s.openers i h] at hlt'
      exact absurd hlt' (by omega)
    | denyStep i hw h =>
      exact ⟨hw, countP_set_true s.openers i h⟩
    | allowStep i h =>
      have hlt' : s.openers.countP id <
          (s.openers.set i false).countP id := hlt
      have := countP_set_false s.openers i h
      omega
    | wstartStep hd =>
      exact absurd (show s.deny_write_cnt < s.deny_write_cnt from hlt)
        (by omega)
    | wendStep hw =>
      exact absurd (show s.deny_write_cnt < s.deny_write_cnt from hlt)
        (by omega)
  · intro s s' hstep hlt
    cases hstep with
    | openStep =>
      have hlt' : (false :: s.openers).countP id <
          s.openers.countP id := hlt
      rw [List.countP_cons] at hlt'
      omega
    | closeStep i h =>
      have hlt' : (s.openers.eraseIdx i).countP id <
          s.openers.countP id := hlt
      rw [countP_eraseIdx_false s.openers i h] at hlt'
      exact absurd hlt' (by omega)
    | denyStep i hw h =>
      have hlt' : (s.openers.set i true).countP id <
          s.openers.countP id := hlt
      have := countP_set_true s.openers i h
      omega
    | allowStep i h =>
      exact countP_set_false s.openers i h
    | wstartStep hd =>
      exact absurd (show s.deny_write_cnt < s.deny_write_cnt from hlt)
        (by omega)
    | wendStep hw =>
      exact absurd (show s.deny_write_cnt < s.deny_write_cnt from hlt)
        (by omega)
  · intro s s' hstep hlt
    cases hstep with
    | openStep =>
      exact absurd (show s.write_cnt < s.write_cnt from hlt) (by omega)
    | closeStep i h =>
      exact absurd (show s.write_cnt < s.write_cnt from hlt) (by omega)
    | denyStep i hw h =>
      exact absurd (show s.write_cnt < s.write_cnt from hlt) (by omega)
    | allowStep i h =>
      exact absurd (show s.write_cnt < s.write_cnt from hlt) (by omega)
    | wstartStep hd => exact hd
    | wendStep hw =>
      exact absurd (show s.write_cnt < s.write_cnt - 1 from hlt)
        (by omega)

/-- Witness for C7: on the example state with one outstanding deny, a
5-byte write at offset 0 returns 0 bytes and changes nothing. -/
theorem C7_deny_write_witness :
    inode_write_at { exampleFS with deny_write_cnt := 1 } exampleBuf 5 0 =
      (0, { exampleFS with deny_write_cnt := 1 }) :=
  C7_deny_write.1 { exampleFS with deny_write_cnt := 1 } exampleBuf 5 0
    (by decide)

/-! ## Claim C10 — cache get/release pairing

`cache.h` declares `enum cache_use_type` with `EXCL` as its first
member, so `EXCL` has value 0.  `get_entry_sync` (cache.c) increments
`shared_refs` (and sets `accessed`) on a `SHARE` acquire and leaves the
counters alone on an uncontended `EXCL` acquire;
`cache_release_entry`'s switch decrements `shared_refs` only in the
`SHARE` case.  `free_block` (inode.c) acquires each indirect block with
`SHARE` but releases it with the literal `false` as the mode argument,
which converts to 0, i.e. `EXCL`. -/

inductive CacheUseType where
  | EXCL : CacheUseType
  | SHARE : CacheUseType
deriving DecidableEq

/-- The C implicit conversion of an integer to `enum cache_use_type`:
value 0 is the first enumerator, `EXCL`. -/
def cache_use_type_of_nat (n : Nat) : CacheUseType :=
  if n = 0 then .EXCL else .SHARE

/-- The per-entry metadata `get_entry_sync`/`cache_release_entry`
manipulate. -/
structure CacheEntry where
  shared_refs : Int
  accessed : Bool
  dirty : Bool

/-- `get_entry_sync (entry, type, write_back)` on the uncontended path
(no waiters; the condition-variable waits do not change these
counters): `SHARE` bumps `shared_refs` and marks the entry accessed,
`EXCL` leaves the counters alone; afterwards the entry is marked
accessed unless `write_back` is set. -/
def get_entry_sync (e : CacheEntry) (type : CacheUseType)
    (write_back : Bool) : CacheEntry :=
  let e1 := match type with
    | .EXCL => e
    | .SHARE => { e with shared_refs := e.shared_refs + 1,
                         accessed := true }
  if !write_back then { e1 with accessed := true } else e1

/-- `cache_release_entry (entry, type, dirty)`: the switch decrements
`shared_refs` in the `SHARE` case only, then the dirty flag is merged
in. -/
def cache_release_entry (e : CacheEntry) (type : CacheUseType)
    (dirty : Bool) : CacheEntry :=
  let e1 := match type with
    | .EXCL => e
    | .SHARE => { e with shared_refs := e.shared_refs - 1 }
  if dirty then { e1 with dirty := true } else e1

/-- C10.  The claim says every successful `cache_get_entry` is released
with the same mode it was acquired with, so `shared_refs` returns to
its previous value.  A matched SHARE/SHARE pair indeed restores
`shared_refs` (third conjunct) — but `free_block` releases the indirect
block it acquired with `SHARE` passing the literal `false`, which is
enum value 0 = `EXCL` (first conjunct), and that pairing leaves
`shared_refs` one higher than before (second conjunct), so the entry's
shared-reference count never returns to zero. -/
theorem C10_free_block_release_mode_code_bug :
    cache_use_type_of_nat (Bool.toNat false) = CacheUseType.EXCL ∧
    (∀ (e : CacheEntry) (d : Bool),
      (cache_release_entry (get_entry_sync e .SHARE false)
        (cache_use_type_of_nat (Bool.toNat false)) d).shared_refs =
        e.shared_refs + 1) ∧
    (∀ (e : CacheEntry) (d : Bool),
      (cache_release_entry (get_entry_sync e .SHARE false)
        .SHARE d).shared_refs = e.shared_refs) := by
  refine ⟨rfl, ?_, ?_⟩
  · intro e d
    cases d <;> rfl
  · intro e d
    cases d <;> show e.shared_refs + 1 - 1 = e.shared_refs <;> omega

/-! ## Claim C9 — bounded clock eviction scan

`evict_cache_entry` (cache.c) walks the clock hand over the 64-entry
cache.  An allocated entry with its accessed bit set gets that bit
cleared (first chance); an allocated entry with the bit clear is the
victim — written back first if dirty — and the hand advances past it;
an unallocated entry is skipped.  `loop_cnt` increments each time the
hand returns to its starting position and the loop ends after
`MAX_CLOCK_LOOPS = 2`, returning NULL; `cache_add_sector` panics on a
NULL return.  The loop is embedded with an explicit fuel of
`2·CACHE_SIZE + 1` iterations; `none` marks fuel exhaustion and is
proved unreachable, which is the claim's bound of two full passes. -/

def CACHE_SIZE : Nat := 64

def MAX_CLOCK_LOOPS : Nat := 2

/-- One buffer-cache slot's eviction-relevant metadata. -/
structure CacheSlot where
  sector : Nat
  allocated : Bool
  accessed : Bool
  dirty : Bool

/-- Cache array, clock hand, and the log of sectors written back. -/
structure CacheState where
  entries : Nat → CacheSlot
  hand : Nat
  writes : List Nat

/-- `tick_clock_hand`. -/
def advance (s : CacheState) : CacheState :=
  { s with hand := (s.hand + 1) % CACHE_SIZE }

/-- `clock_hand->accessed = false`. -/
def clear_accessed (s : CacheState) : CacheState :=
  { s with entries := fun i =>
      if i = s.hand then { s.entries s.hand with accessed := false }
      else s.entries i }

/-- The dirty check before returning a victim: `block_write` (logged)
and `dirty = false`. -/
def write_back (s : CacheState) : CacheState :=
  if (s.entries s.hand).dirty then
    { s with
      entries := fun i =>
        if i = s.hand then { s.entries s.hand with dirty := false }
        else s.entries i,
      writes := (s.entries s.hand).sector :: s.writes }
  else s

lemma advance_hand (s : CacheState) :
    (advance s).hand = (s.hand + 1) % CACHE_SIZE := rfl

lemma clear_accessed_hand (s : CacheState) :
    (clear_accessed s).hand = s.hand := rfl

/-- The `while (loop_cnt < MAX_CLOCK_LOOPS)` loop of
`evict_cache_entry`, with fuel; `none` is fuel exhaustion, `some
(none, s)` the loop ending victimless (the C NULL return), `some
(some v, s)` eviction of the entry at index `v`. -/
def evict_loop (s : CacheState) (clock_start loop_cnt : Nat) :
    Nat → Option (Option Nat × CacheState)
  | 0 => none
  | fuel + 1 =>
    if loop_cnt < MAX_CLOCK_LOOPS then
      if (s.entries s.hand).allocated then
        if (s.entries s.hand).accessed then
          evict_loop (advance (clear_accessed s)) clock_start
            (if (advance (clear_accessed s)).hand = clock_start then
              loop_cnt + 1
            else loop_cnt) fuel
        else some (some s.hand, advance (write_back s))
      else
        evict_loop (advance s) clock_start
          (if (advance s).hand = clock_start then loop_cnt + 1
          else loop_cnt) fuel
    else some (none, s)

/-- `evict_cache_entry`: run the clock loop from the current hand with
`loop_cnt = 0`; two full passes (plus the final guard check) is
`2·CACHE_SIZE + 1` iterations of fuel. -/
def evict_cache_entry (s : CacheState) :
    Option (Option Nat × CacheState) :=
  evict_loop s s.hand 0 (2 * CACHE_SIZE + 1)

/-- The eviction path of `cache_add_sector` (taken when
`cached_count = CACHE_SIZE`): a NULL victim from `evict_cache_entry`
is the `PANIC` path, modelled as `none`. -/
def cache_add_sector_evict (s : CacheState) : Option (Nat × CacheState) :=
  match evict_cache_entry s with
  | some (some v, s') => some (v, s')
  | _ => none

/-- Fuel no smaller than `(1 − loop_cnt)·64` plus the distance from the
hand to the start position never runs out: the loop always reaches a
return within two passes. -/
lemma evict_loop_terminates :
    ∀ (fuel : Nat) (s : CacheState) (start cnt : Nat),
      start < CACHE_SIZE → s.hand < CACHE_SIZE →
      (if 2 ≤ cnt then 1 else
        (1 - cnt) * CACHE_SIZE +
          (start + (CACHE_SIZE - 1) - s.hand) % CACHE_SIZE + 2) ≤ fuel →
      evict_loop s start cnt fuel ≠ none := by
  intro fuel
  induction fuel with
  | zero =>
    intro s start cnt h1 h2 h3
    unfold CACHE_SIZE at h3
    split at h3 <;> omega
  | succ fuel ihf =>
    intro s start cnt h1 h2 h3
    rw [evict_loop]
    by_cases hcnt : cnt < MAX_CLOCK_LOOPS
    · rw [if_pos hcnt]
      by_cases halloc : (s.entries s.hand).allocated
      · rw [if_pos halloc]
        by_cases hacc : (s.entries s.hand).accessed
        · rw [if_pos hacc]
          refine ihf _ _ _ h1 ?_ ?_
          · show (s.hand + 1) % CACHE_SIZE < CACHE_SIZE
            unfold CACHE_SIZE
            omega
          · rw [advance_hand, clear_accessed_hand]
            unfold MAX_CLOCK_LOOPS at hcnt
            unfold CACHE_SIZE at *
            by_cases hwrap : (s.hand + 1) % 64 = start
            · simp only [if_pos hwrap]
              rw [if_neg (by omega)] at h3
              split <;> omega
            · simp only [if_neg hwrap]
              rw [if_neg (by omega)] at h3
              split <;> omega
        · rw [if_neg hacc]
          simp
      · rw [if_neg halloc]
        refine ihf _ _ _ h1 ?_ ?_
        · show (s.hand + 1) % CACHE_SIZE < CACHE_SIZE
          unfold CACHE_SIZE
          omega
        · rw [advance_hand]
          unfold MAX_CLOCK_LOOPS at hcnt
          unfold CACHE_SIZE at *
          by_cases hwrap : (s.hand + 1) % 64 = start
          · simp only [if_pos hwrap]
            rw [if_neg (by omega)] at h3
            split <;> omega
          · simp only [if_neg hwrap]
            rw [if_neg (by omega)] at h3
            split <;> omega
    · rw [if_neg hcnt]
      simp

/-- With every slot unallocated the loop skips everything, finishes its
two passes and ends victimless, entries untouched. -/
lemma evict_loop_all_unallocated :
    ∀ (fuel : Nat) (s : CacheState) (start cnt : Nat),
      start < CACHE_SIZE → s.hand < CACHE_SIZE →
      (if 2 ≤ cnt then 1 else
        (1 - cnt) * CACHE_SIZE +
          (start + (CACHE_SIZE - 1) - s.hand) % CACHE_SIZE + 2) ≤ fuel →
      (∀ i, (s.entries i).allocated = false) →
      ∃ s', evict_loop s start cnt fuel = some (none, s') ∧
        s'.entries = s.entries := by
  intro fuel
  induction fuel with
  | zero =>
    intro s start cnt h1 h2 h3 hun
    unfold CACHE_SIZE at h3
    split at h3 <;> omega
  | succ fuel ihf =>
    intro s start cnt h1 h2 h3 hun
    rw [evict_loop]
    by_cases hcnt : cnt < MAX_CLOCK_LOOPS
    · rw [if_pos hcnt]
      rw [if_neg (by rw [hun s.hand]; exact Bool.false_ne_true)]
      have hstep := ihf (advance s) start
        (if (advance s).hand = start then cnt + 1 else cnt) h1
        (by show (s.hand + 1) % CACHE_SIZE < CACHE_SIZE
            unfold CACHE_SIZE
            omega)
        (by rw [advance_hand]
            unfold MAX_CLOCK_LOOPS at hcnt
            unfold CACHE_SIZE at *
            by_cases hwrap : (s.hand + 1) % 64 = start
            · simp only [if_pos hwrap]
              rw [if_neg (by omega)] at h3
              split <;> omega
            · simp only [if_neg hwrap]
              rw [if_neg (by omega)] at h3
              split <;> omega)
        hun
      obtain ⟨s', hs', he⟩ := hstep
      exact ⟨s', hs', he⟩
    · rw [if_neg hcnt]
      exact ⟨s, rfl, rfl⟩

/-- C9.  (i) Starting from any valid hand position, the clock loop
returns within the `2·CACHE_SIZE + 1`-iteration fuel (the scan is
bounded to two full passes).  (ii) An allocated, accessed entry is
given its first chance: the accessed bit is cleared and the scan moves
on.  (iii) An allocated, non-accessed entry is the victim: it is
returned with the hand advanced past it, and if it was dirty its
sector is written back (logged) and its dirty bit cleared before the
return.  (iv) With no allocated entry at all, both passes fail, the
loop returns the C NULL, and `cache_add_sector`'s eviction path
panics. -/
theorem C9_eviction_bounded_scan :
    (∀ s : CacheState, s.hand < CACHE_SIZE →
      evict_cache_entry s ≠ none) ∧
    (∀ (s : CacheState) (start cnt fuel : Nat),
      cnt < MAX_CLOCK_LOOPS →
      (s.entries s.hand).allocated = true →
      (s.entries s.hand).accessed = true →
      evict_loop s start cnt (fuel + 1) =
        evict_loop (advance (clear_accessed s)) start
          (if (advance (clear_accessed s)).hand = start then cnt + 1
          else cnt) fuel ∧
      ((clear_accessed s).entries s.hand).accessed = false) ∧
    (∀ (s : CacheState) (start cnt fuel : Nat),
      cnt < MAX_CLOCK_LOOPS →
      (s.entries s.hand).allocated = true →
      (s.entries s.hand).accessed = false →
      evict_loop s start cnt (fuel + 1) =
        some (some s.hand, advance (write_back s)) ∧
      ((s.entries s.hand).dirty = true →
        (write_back s).writes = (s.entries s.hand).sector :: s.writes ∧
        ((write_back s).entries s.hand).dirty = false)) ∧
    (∀ s : CacheState, s.hand < CACHE_SIZE →
      (∀ i, (s.entries i).allocated = false) →
      ∃ s', evict_cache_entry s = some (none, s') ∧
        cache_add_sector_evict s = none) := by
  refine ⟨?_, ?_, ?_, ?_⟩
  · intro s h
    show evict_loop s s.hand 0 (2 * CACHE_SIZE + 1) ≠ none
    refine evict_loop_terminates _ _ _ _ h h ?_
    unfold CACHE_SIZE
    split <;> omega
  · intro s start cnt fuel hcnt halloc hacc
    constructor
    · rw [evict_loop, if_pos hcnt, if_pos halloc, if_pos hacc]
    · unfold clear_accessed
      simp
  · intro s start cnt fuel hcnt halloc hacc
    constructor
    · rw [evict_loop, if_pos hcnt, if_pos halloc,
        if_neg (by rw [hacc]; exact Bool.false_ne_true)]
    · intro hdirty
      unfold write_back
      rw [if_pos hdirty]
      constructor
      · rfl
      · simp
  · intro s h hun
    obtain ⟨s', hs', _⟩ := evict_loop_all_unallocated
      (2 * CACHE_SIZE + 1) s s.hand 0 h h
      (by unfold CACHE_SIZE; split <;> omega) hun
    have hs'' : evict_cache_entry s = some (none, s') := hs'
    refine ⟨s', hs'', ?_⟩
    unfold cache_add_sector_evict
    rw [hs'']

/-- Witness for C9 at a concrete all-unallocated cache: eviction finds
no victim in two passes and `cache_add_sector` panics. -/
theorem C9_eviction_bounded_scan_witness :
    ∃ s', evict_cache_entry
        ⟨fun _ => ⟨0, false, false, false⟩, 0, []⟩ = some (none, s') ∧
      cache_add_sector_evict
        ⟨fun _ => ⟨0, false, false, false⟩, 0, []⟩ = none :=
  C9_eviction_bounded_scan.2.2.2
    ⟨fun _ => ⟨0, false, false, false⟩, 0, []⟩
    (by decide) (fun _ => rfl)

/-! ## Claim C6 — eviction disposal policy

`spt_evict_upage` (vm/page.c) switches on the SPTE's page type: an
MMAP page is written back to its file region only when dirty; an EXEC
page `break`s out (no write at all) when
`filesys_page && (!writable || !dirty)` and otherwise falls through to
the default case; the default (reached by TMP and the remaining EXEC
pages) flips `filesys_page` to false and stores a fresh swap slot from
`swap_write`; finally `in_memory` is cleared in every path.  The C
`union disk_info` is embedded with both members present, as in memory;
`swap_write`'s scan-and-flip of a fresh slot is abstracted by the slot
number it returns. -/

inductive PageType where
  | EXEC : PageType
  | MMAP : PageType
  | TMP : PageType
deriving DecidableEq

structure FilesysInfo where
  file : Nat
  ofs : Nat
  writable : Bool

structure DiskInfo where
  filesys_info : FilesysInfo
  swap_id : Nat

structure Spte where
  type : PageType
  filesys_page : Bool
  disk_info : DiskInfo
  in_memory : Bool

/-- What the eviction does with the page's contents. -/
inductive EvictAction where
  | writeFile (file ofs : Nat) : EvictAction
  | writeSwap (slot : Nat) : EvictAction
  | dropped : EvictAction
deriving DecidableEq

/-- `spt_evict_upage`, given the page's pagedir dirty bit and the slot
`swap_write` would hand out.  Returns the disposal action and the
updated SPTE. -/
def spt_evict_upage (spte : Spte) (dirty : Bool) (fresh : Nat) :
    EvictAction × Spte :=
  match spte.type with
  | .MMAP =>
    ((if dirty then
        .writeFile spte.disk_info.filesys_info.file
          spte.disk_info.filesys_info.ofs
      else .dropped),
      { spte with in_memory := false })
  | .EXEC =>
    if spte.filesys_page &&
        (!spte.disk_info.filesys_info.writable || !dirty) then
      (.dropped, { spte with in_memory := false })
    else
      (.writeSwap fresh,
        { spte with
          filesys_page := false,
          disk_info := { spte.disk_info with swap_id := fresh },
          in_memory := false })
  | .TMP =>
    (.writeSwap fresh,
      { spte with
        filesys_page := false,
        disk_info := { spte.disk_info with swap_id := fresh },
        in_memory := false })

/-- C6 counterexample.  A dirty EXEC page — which the claim says is
always written to a fresh swap slot with `filesys_page` flipped — is
dropped with no write at all, `filesys_page` left true, when it is
filesystem-backed and its region is read-only: the code's guard is
`filesys_page && (!writable || !dirty)`, not the claim's dirty-bit
test. -/
theorem C6_eviction_policy_counterexample :
    (spt_evict_upage ⟨.EXEC, true, ⟨⟨0, 0, false⟩, 0⟩, true⟩
      true 7).1 = .dropped ∧
    EvictAction.dropped ≠ .writeSwap 7 ∧
    (spt_evict_upage ⟨.EXEC, true, ⟨⟨0, 0, false⟩, 0⟩, true⟩
      true 7).2.filesys_page = true :=
  ⟨rfl, by decide, rfl⟩

/-- C6 (amended).  In every case the SPTE is updated in place with
`in_memory` cleared.  A dirty MMAP page is written back to its
file-backed region and a clean one is dropped; neither goes to swap.
An EXEC page is dropped (no write) exactly when it is
filesystem-backed and its region is read-only or the page is clean —
so, contrary to the claim, a dirty read-only filesystem EXEC page is
dropped, and a clean swap-backed EXEC page is re-written to swap;
every non-dropped EXEC page and every TMP page goes to a fresh swap
slot with `filesys_page` flipped to false and the slot recorded. -/
theorem C6_eviction_policy_corrected :
    ∀ (spte : Spte) (dirty : Bool) (fresh : Nat),
      (spt_evict_upage spte dirty fresh).2.in_memory = false ∧
      (spte.type = .MMAP → dirty = true →
        (spt_evict_upage spte dirty fresh).1 =
          .writeFile spte.disk_info.filesys_info.file
            spte.disk_info.filesys_info.ofs) ∧
      (spte.type = .MMAP → dirty = false →
        (spt_evict_upage spte dirty fresh).1 = .dropped) ∧
      (spte.type = .EXEC →
        ((spt_evict_upage spte dirty fresh).1 = .dropped ↔
          spte.filesys_page = true ∧
            (spte.disk_info.filesys_info.writable = false ∨
              dirty = false))) ∧
      (spte.type = .EXEC →
        (spt_evict_upage spte dirty fresh).1 ≠ .dropped →
        (spt_evict_upage spte dirty fresh).1 = .writeSwap fresh ∧
        (spt_evict_upage spte dirty fresh).2.filesys_page = false ∧
        (spt_evict_upage spte dirty fresh).2.disk_info.swap_id = fresh) ∧
      (spte.type = .TMP →
        (spt_evict_upage spte dirty fresh).1 = .writeSwap fresh ∧
        (spt_evict_upage spte dirty fresh).2.filesys_page = false ∧
        (spt_evict_upage spte dirty fresh).2.disk_info.swap_id =
          fresh) := by
  intro spte dirty fresh
  obtain ⟨t, fp, ⟨⟨file, ofs, w⟩, sid⟩, im⟩ := spte
  cases t <;> cases dirty <;> cases fp <;> cases w <;>
    simp [spt_evict_upage]

/-- Witness for C6 (amended): a TMP page goes to the fresh swap slot 5
with `filesys_page` cleared. -/
theorem C6_eviction_policy_corrected_witness :
    (spt_evict_upage ⟨.TMP, true, ⟨⟨1, 2, true⟩, 0⟩, true⟩
      true 5).1 = .writeSwap 5 ∧
    (spt_evict_upage ⟨.TMP, true, ⟨⟨1, 2, true⟩, 0⟩, true⟩
      true 5).2.filesys_page = false ∧
    (spt_evict_upage ⟨.TMP, true, ⟨⟨1, 2, true⟩, 0⟩, true⟩
      true 5).2.disk_info.swap_id = 5 :=
  (C6_eviction_policy_corrected ⟨.TMP, true, ⟨⟨1, 2, true⟩, 0⟩, true⟩
    true 5).2.2.2.2.2 rfl

/-! ## Claim C8 — directory removal policy

`dir_remove` (directory.c) looks the name up, opens the target inode,
and refuses removal when the target is a directory that is nonempty
(`get_num_dirents`, which counts in-use entries and subtracts 2 for
`.`/`..` in `size_t` arithmetic), or is the **calling** thread's
current working directory (`thread_current ()->cwd`, a bare sector
number, compared with the target's inumber), or is open elsewhere
(`inode_get_open_cnt > 1`, counting dir_remove's own `inode_open`);
otherwise it clears the entry's `in_use` flag.  Other processes' cwds
are carried in the model as ghost state: the code never consults
them. -/

structure dir_entry where
  name : Nat
  inode_sector : Nat
  in_use : Bool
deriving DecidableEq

structure InodeMeta where
  is_file : Bool
  open_cnt : Nat

/-- The state `dir_remove` acts on: the parent directory's entry list,
per-sector inode metadata (`open_cnt` counts the openers *other than*
`dir_remove` itself), the entry lists of child directories, the
calling thread's `cwd` sector, and — ghost, unread by the code — the
cwd sectors of all other live processes. -/
structure RemoveCtx where
  entries : List dir_entry
  meta : Nat → InodeMeta
  childEntries : Nat → List dir_entry
  cwd : Nat
  otherCwds : List Nat

def SIZE_T_MOD : Nat := 2 ^ 64

/-- The `lookup` scan of directory.c: first in-use entry with the
name. -/
def dir_lookup_idx (es : List dir_entry) (name : Nat) : Option Nat :=
  es.findIdx? (fun e => e.in_use && e.name == name)

/-- `get_num_dirents`: count the in-use entries, then subtract 2 (for
`.` and `..`) in `size_t` arithmetic. -/
def get_num_dirents (es : List dir_entry) : Nat :=
  (es.countP (fun e => e.in_use) + (SIZE_T_MOD - 2)) % SIZE_T_MOD

/-- `dir_remove`: fail if the name is absent; fail if the target is a
directory that is nonempty, is the calling thread's cwd, or whose open
count (including our own `inode_open`) exceeds 1; otherwise clear the
entry's `in_use` flag.  Returns `(success, updated entries)`. -/
def dir_remove (ctx : RemoveCtx) (name : Nat) : Bool × List dir_entry :=
  match dir_lookup_idx ctx.entries name with
  | none => (false, ctx.entries)
  | some i =>
    let e := ctx.entries.getD i ⟨0, 0, false⟩
    if (ctx.meta e.inode_sector).is_file = false ∧
        (get_num_dirents (ctx.childEntries e.inode_sector) ≠ 0 ∨
          ctx.cwd = e.inode_sector ∨
          (ctx.meta e.inode_sector).open_cnt + 1 > 1) then
      (false, ctx.entries)
    else
      (true, ctx.entries.set i { e with in_use := false })

/-- A state in which another live process's cwd is the empty directory
at sector 30, listed in the parent under name 5; the calling thread's
cwd is elsewhere and nobody holds sector 30 open. -/
def exampleRemoveCtx : RemoveCtx :=
  { entries := [⟨5, 30, true⟩],
    meta := fun s => if s = 30 then ⟨false, 0⟩ else ⟨true, 0⟩,
    childEntries := fun s =>
      if s = 30 then [⟨0, 30, true⟩, ⟨1, 2, true⟩] else [],
    cwd := 99,
    otherCwds := [30] }

/-- Unfolding of `dir_remove` once the lookup has succeeded. -/
lemma dir_remove_some {ctx : RemoveCtx} {name i : Nat}
    (h : dir_lookup_idx ctx.entries name = some i) :
    dir_remove ctx name =
      if (ctx.meta (ctx.entries.getD i ⟨0, 0, false⟩).inode_sector).is_file
            = false ∧
          (get_num_dirents (ctx.childEntries
              (ctx.entries.getD i ⟨0, 0, false⟩).inode_sector) ≠ 0 ∨
            ctx.cwd = (ctx.entries.getD i ⟨0, 0, false⟩).inode_sector ∨
            (ctx.meta (ctx.entries.getD i
              ⟨0, 0, false⟩).inode_sector).open_cnt + 1 > 1) then
        (false, ctx.entries)
      else
        (true, ctx.entries.set i
          { ctx.entries.getD i ⟨0, 0, false⟩ with in_use := false }) := by
  unfold dir_remove
  rw [h]

/-- C8 counterexample.  The claim requires a directory that is the
current working directory of *any* live process to be unremovable; the
code compares only `thread_current ()->cwd`.  In `exampleRemoveCtx`
another process's cwd is the target (ghost field), the directory is
empty and not open elsewhere, and `dir_remove` succeeds and erases the
entry anyway. -/
theorem C8_dir_remove_counterexample :
    dir_remove exampleRemoveCtx 5 = (true, [⟨5, 30, false⟩]) ∧
    30 ∈ exampleRemoveCtx.otherCwds ∧
    (exampleRemoveCtx.meta 30).is_file = false ∧
    get_num_dirents (exampleRemoveCtx.childEntries 30) = 0 ∧
    exampleRemoveCtx.cwd ≠ 30 ∧
    (exampleRemoveCtx.meta 30).open_cnt = 0 := by
  refine ⟨?_, ?_, rfl, ?_, ?_, rfl⟩
  · rfl
  · simp [exampleRemoveCtx]
  · rfl
  · decide

/-- C8 (amended).  `dir_remove name` fails and leaves the entry list
unchanged when the name is absent.  When the name is found, it
succeeds (erasing exactly that entry's `in_use` flag) iff the target
is a file, or is a directory that is empty, is not the *calling*
process's cwd, and is open by nobody else; it never reads the other
processes' cwds, so — contrary to the claim — a directory that is
another live process's working directory can be removed. -/
theorem C8_dir_remove_corrected :
    ∀ (ctx : RemoveCtx) (name : Nat),
      (dir_lookup_idx ctx.entries name = none →
        dir_remove ctx name = (false, ctx.entries)) ∧
      (∀ i, dir_lookup_idx ctx.entries name = some i →
        ((dir_remove ctx name).1 = true ↔
          ((ctx.meta (ctx.entries.getD i ⟨0, 0, false⟩).inode_sector).is_file
              = true ∨
            (get_num_dirents (ctx.childEntries
                (ctx.entries.getD i ⟨0, 0, false⟩).inode_sector) = 0 ∧
              ctx.cwd ≠ (ctx.entries.getD i ⟨0, 0, false⟩).inode_sector ∧
              (ctx.meta (ctx.entries.getD i
                ⟨0, 0, false⟩).inode_sector).open_cnt = 0))) ∧
        ((dir_remove ctx name).1 = true →
          (dir_remove ctx name).2 = ctx.entries.set i
            { ctx.entries.getD i ⟨0, 0, false⟩ with in_use := false }) ∧
        ((dir_remove ctx name).1 = false →
          (dir_remove ctx name).2 = ctx.entries)) ∧
      (∀ cwds', dir_remove { ctx with otherCwds := cwds' } name =
        dir_remove ctx name) := by
  intro ctx name
  refine ⟨?_, ?_, fun _ => rfl⟩
  · intro hnone
    unfold dir_remove
    rw [hnone]
  · intro i hsome
    rw [dir_remove_some hsome]
    by_cases hcond :
      (ctx.meta (ctx.entries.getD i ⟨0, 0, false⟩).inode_sector).is_file
          = false ∧
        (get_num_dirents (ctx.childEntries
            (ctx.entries.getD i ⟨0, 0, false⟩).inode_sector) ≠ 0 ∨
          ctx.cwd = (ctx.entries.getD i ⟨0, 0, false⟩).inode_sector ∨
          (ctx.meta (ctx.entries.getD i
            ⟨0, 0, false⟩).inode_sector).open_cnt + 1 > 1)
    · rw [if_pos hcond]
      obtain ⟨hf, hrest⟩ := hcond
      refine ⟨?_, ?_, fun _ => rfl⟩
      · constructor
        · intro h
          exact absurd h (by simp)
        · intro h
          exfalso
          rcases h with h | ⟨h1, h2, h3⟩
          · rw [h] at hf
            cases hf
          · rcases hrest with hr | hr | hr
            · exact hr h1
            · exact h2 hr
            · omega
      · intro h
        exact absurd h (by simp)
    · rw [if_neg hcond]
      refine ⟨?_, fun _ => rfl, ?_⟩
      · refine iff_of_true rfl ?_
        by_cases hf : (ctx.meta (ctx.entries.getD i
            ⟨0, 0, false⟩).inode_sector).is_file = true
        · exact Or.inl hf
        · right
          have hf' : (ctx.meta (ctx.entries.getD i
              ⟨0, 0, false⟩).inode_sector).is_file = false := by
            cases hb : (ctx.meta (ctx.entries.getD i
                ⟨0, 0, false⟩).inode_sector).is_file
            · rfl
            · exact absurd hb hf
          have hnor : ¬ (get_num_dirents (ctx.childEntries
              (ctx.entries.getD i ⟨0, 0, false⟩).inode_sector) ≠ 0 ∨
            ctx.cwd = (ctx.entries.getD i ⟨0, 0, false⟩).inode_sector ∨
            (ctx.meta (ctx.entries.getD i
              ⟨0, 0, false⟩).inode_sector).open_cnt + 1 > 1) :=
            fun hor => hcond ⟨hf', hor⟩
          refine ⟨?_, ?_, ?_⟩
          · by_contra hne
            exact hnor (Or.inl hne)
          · intro heq
            exact hnor (Or.inr (Or.inl heq))
          · have h3 : ¬ ((ctx.meta (ctx.entries.getD i
                ⟨0, 0, false⟩).inode_sector).open_cnt + 1 > 1) :=
              fun hgt => hnor (Or.inr (Or.inr hgt))
            omega
      · intro h
        exact absurd h (by simp)

/-- Witness for C8 (amended): in the example state the lookup finds
the entry at index 0 and removal succeeds. -/
theorem C8_dir_remove_corrected_witness :
    dir_lookup_idx exampleRemoveCtx.entries 5 = some 0 ∧
    (dir_remove exampleRemoveCtx 5).1 = true :=
  ⟨by decide,
    ((C8_dir_remove_corrected exampleRemoveCtx 5).2.1 0 (by decide)).1.mpr
      (Or.inr ⟨by decide, by decide, by decide⟩)⟩

end Pintos
